import Mathlib

/-!
# Image filter kernels of `src/ref/filters/c/img_filter.c`

A shallow embedding of the spatial and temporal filter routines.

* A `float *` is a buffer `Img = Int → ℚ` addressed by a signed offset from the
  base pointer; samples are exact rationals.
* `IMG_WID` and `IMG_HGT` (from `img_const.h`) are the parameters `W` and `H`.
* The cursors of a `for` loop all advance in lockstep, so in iteration `i` every
  cursor stands at its initial offset plus `i`; `forLoop` passes `i` to the body.
* A routine that writes through a pointer returns the new contents of the
  buffers it writes.
-/

set_option linter.unusedVariables false

namespace ImgFilter

/-- A sample buffer, addressed by the signed offset from its base pointer. -/
abbrev Img := Int → ℚ

/-- Counted loop: runs `body 0`, `body 1`, ..., `body (n-1)` on the state. -/
def forLoop {σ : Type} (body : Nat → σ → σ) : Nat → σ → σ
  | 0, s => s
  | n + 1, s => body n (forLoop body n s)

/-- Number of iterations of `for (; q < q_end; q++)`. -/
def tripCount (q q_end : Int) : Nat := (q_end - q).toNat

/-- The assignment `*q = v`. -/
def store (m : Img) (q : Int) (v : ℚ) : Img := Function.update m q v

/-- The pointer `base + off` seen as a buffer of its own. -/
def shift (m : Img) (off : Int) : Img := fun i => m (off + i)

/-- Modelled from the spec: `IMG_SZ` (from `img_const.h`, absent) is the frame size,
"Frame size is always exactly W·H". -/
def IMG_SZ (W H : Int) : Int := W * H

/-! ## Spatial FIR filters -/

/-- Source `img_fir_cross` (lines 37-62): cross-stencil FIR, out of place. -/
def img_fir_cross (W H : Int) (img_out img_in coff : Img) : Img :=
  let p0 : Int := 0 + 1
  let p1 : Int := p0 + W - 1
  let p2 : Int := p0 + W
  let p3 : Int := p0 + W + 1
  let p4 : Int := p0 + W + W
  let q : Int := 0 + W + 1
  let q_end : Int := 0 + W * (H - 1) - 1
  let c0 := coff 0
  let c1 := coff 1
  let c2 := coff 2
  let c3 := coff 3
  let c4 := coff 4
  forLoop (fun i img_out =>
    let s := img_in (p0 + i) * c0
    let s := s + img_in (p1 + i) * c1
    let s := s + img_in (p2 + i) * c2
    let s := s + img_in (p3 + i) * c3
    let s := s + img_in (p4 + i) * c4
    store img_out (q + i) s) (tripCount q q_end) img_out

/-- Source `img_fir_sqr3` (lines 125-154): 3x3 FIR, out of place. -/
def img_fir_sqr3 (W H : Int) (img_out img_in coff : Img) : Img :=
  let p0 : Int := 0
  let p1 : Int := 0 + 1
  let p2 : Int := 0 + 2
  let p3 : Int := 0 + W
  let p4 : Int := 0 + W + 1
  let p5 : Int := 0 + W + 2
  let p6 : Int := 0 + 2 * W
  let p7 : Int := 0 + 2 * W + 1
  let p8 : Int := 0 + 2 * W + 2
  let q : Int := 0 + W + 1
  let q_end : Int := 0 + W * (H - 1) - 1
  let c0 := coff 0
  let c1 := coff 1
  let c2 := coff 2
  let c3 := coff 3
  let c4 := coff 4
  let c5 := coff 5
  let c6 := coff 6
  let c7 := coff 7
  let c8 := coff 8
  forLoop (fun i img_out =>
    let s := img_in (p0 + i) * c0
    let s := s + img_in (p1 + i) * c1
    let s := s + img_in (p2 + i) * c2
    let s := s + img_in (p3 + i) * c3
    let s := s + img_in (p4 + i) * c4
    let s := s + img_in (p5 + i) * c5
    let s := s + img_in (p6 + i) * c6
    let s := s + img_in (p7 + i) * c7
    let s := s + img_in (p8 + i) * c8
    store img_out (q + i) s) (tripCount q q_end) img_out

/-! ## Delay line -/

/-- Modelled from the spec: `struct ring_buf_f32_s` (declared outside this file) is the
"fixed capacity C samples, one write cursor" delay line of §3: storage, capacity, cursor. -/
structure ring_buf_f32_s where
  buf : Nat → ℚ
  len : Nat
  pos : Nat

/-- Modelled from the spec: `ring_buf_f32_io` (defined outside this file), §4.1: "Writes
`value` into the slot the cursor currently points to, advances the cursor one slot (mod
capacity), and returns the value previously stored there". -/
def ring_buf_f32_io (rbuf : ring_buf_f32_s) (value : ℚ) : ring_buf_f32_s × ℚ :=
  ({ buf := Function.update rbuf.buf rbuf.pos value,
     len := rbuf.len,
     pos := (rbuf.pos + 1) % rbuf.len },
   rbuf.buf rbuf.pos)

/-- Source `img_fir_sqr3_sa` (lines 166-206): 3x3 FIR in place through the delay line.
The loop state is the frame, the delay line and the countdown `n`; the drain loop goes on
from the `q` the first loop stopped at. -/
def img_fir_sqr3_sa (W H : Int) (img_inout coff : Img) (rbuf : ring_buf_f32_s) :
    Img × ring_buf_f32_s :=
  let p0 : Int := 0
  let p1 : Int := 0 + 1
  let p2 : Int := 0 + 2
  let p3 : Int := 0 + W
  let p4 : Int := 0 + W + 1
  let p5 : Int := 0 + W + 2
  let p6 : Int := 0 + 2 * W
  let p7 : Int := 0 + 2 * W + 1
  let p8 : Int := 0 + 2 * W + 2
  let q : Int := 0 + W + 1 - 3 * W
  let q_end : Int := 0 + W * (H - 1) - 1 - 3 * W
  let n : Int := 3 * W
  let c0 := coff 0
  let c1 := coff 1
  let c2 := coff 2
  let c3 := coff 3
  let c4 := coff 4
  let c5 := coff 5
  let c6 := coff 6
  let c7 := coff 7
  let c8 := coff 8
  let st := forLoop (fun i (st : Img × ring_buf_f32_s × Int) =>
    let s := st.1 (p0 + i) * c0
    let s := s + st.1 (p1 + i) * c1
    let s := s + st.1 (p2 + i) * c2
    let s := s + st.1 (p3 + i) * c3
    let s := s + st.1 (p4 + i) * c4
    let s := s + st.1 (p5 + i) * c5
    let s := s + st.1 (p6 + i) * c6
    let s := s + st.1 (p7 + i) * c7
    let s := s + st.1 (p8 + i) * c8
    if st.2.2 ≠ 0 then
      (st.1, (ring_buf_f32_io st.2.1 s).1, st.2.2 - 1)
    else
      (store st.1 (q + i) (ring_buf_f32_io st.2.1 s).2, (ring_buf_f32_io st.2.1 s).1, st.2.2))
    (tripCount q q_end) (img_inout, rbuf, n)
  let q : Int := q + tripCount q q_end
  forLoop (fun n (st : Img × ring_buf_f32_s) =>
    (store st.1 (q + n) (ring_buf_f32_io st.2 0).2, (ring_buf_f32_io st.2 0).1))
    (tripCount 0 (3 * W)) (st.1, st.2.1)

/-- Common shape of the first loop of the `_sa` routines: `S img i` is the stencil value
of iteration `i` read from the frame as it stands. -/
def saMain (S : Img → Nat → ℚ) (q : Int) :
    Nat → Img × ring_buf_f32_s × Int → Img × ring_buf_f32_s × Int :=
  forLoop (fun i st =>
    if st.2.2 ≠ 0 then
      (st.1, (ring_buf_f32_io st.2.1 (S st.1 i)).1, st.2.2 - 1)
    else
      (store st.1 (q + i) (ring_buf_f32_io st.2.1 (S st.1 i)).2,
        (ring_buf_f32_io st.2.1 (S st.1 i)).1, st.2.2))

/-- Common shape of the drain loop of the `_sa` routines. -/
def saDrain (q : Int) : Nat → Img × ring_buf_f32_s → Img × ring_buf_f32_s :=
  forLoop (fun n st =>
    (store st.1 (q + n) (ring_buf_f32_io st.2 0).2, (ring_buf_f32_io st.2 0).1))

/-- The delay line after the values `v 0, ..., v (i-1)` went through it. -/
def rbPush (v : Nat → ℚ) (r : ring_buf_f32_s) : Nat → ring_buf_f32_s
  | 0 => r
  | i + 1 => (ring_buf_f32_io (rbPush v r i) (v i)).1

/-- The 3x3 weighted sum read at cursor offset `i` of `img`. -/
def sqr3Sum (W : Int) (coff img : Img) (i : Nat) : ℚ :=
  img (0 + i) * coff 0 + img (0 + 1 + i) * coff 1 + img (0 + 2 + i) * coff 2
    + img (0 + W + i) * coff 3 + img (0 + W + 1 + i) * coff 4 + img (0 + W + 2 + i) * coff 5
    + img (0 + 2 * W + i) * coff 6 + img (0 + 2 * W + 1 + i) * coff 7
    + img (0 + 2 * W + 2 + i) * coff 8

/-- The frame of an `_sa` routine after `i` values were produced: the values older than
the delay `C` are committed from `q + C` on, the rest is the original frame. -/
def saImg (m0 : Img) (q : Int) (C : Nat) (T : Nat → ℚ) (i : Nat) : Img :=
  fun x => if q + C ≤ x ∧ x < q + i then T (x - (q + C)).toNat else m0 x

/-! ## Selection primitives -/

/-- Modelled from the spec: the `MID3` macro (from `img_algo.h`, not in the source tree) is
`med3` of §4.2, the median of three values. -/
def MID3 (a b c : ℚ) : ℚ := max (min a b) (min (max a b) c)

/-- Modelled from the spec: `mid5` (from `img_algo`, not in the source tree) is `med5` of
§4.2, the third smallest of five values. -/
def mid5 (a b c d e : ℚ) : ℚ := (List.insertionSort (· ≤ ·) [a, b, c, d, e]).getD 2 0

/-- Modelled from the spec: `max5` (from `img_algo`, not in the source tree) is `maxN` of
§4.2 for `N = 5`. -/
def max5 (a b c d e : ℚ) : ℚ := max a (max b (max c (max d e)))

/-- Modelled from the spec: `minN` of §4.2 for `N = 5`, the smallest of five values. -/
def min5 (a b c d e : ℚ) : ℚ := min a (min b (min c (min d e)))

/-! ## Temporal filters on a rotating four-slot history -/

/-- Modelled from the spec: `img_copy(dst, src, n)` (from `img_api`, not in the source
tree) copies `n` samples, "overwrite the slot holding the oldest frame with the new
frame"; `dst` is the pointer `dstBase + off`. -/
def img_copy (dstBase : Img) (off : Int) (src : Img) (n : Int) : Img :=
  fun x => if off ≤ x ∧ x < off + n then src (x - off) else dstBase x

/-- Source `img_mid5_t_raw` (lines 341-349). Cursor `p3` starts at `img_in4`. -/
def img_mid5_t_raw (W H : Int) (img_out img_in0 img_in1 img_in2 img_in3 img_in4 : Img) :
    Img :=
  let p0 := img_in0
  let p1 := img_in1
  let p2 := img_in2
  let p3 := img_in4
  let p4 := img_in4
  let q : Int := 0
  let q_end : Int := 0 + W * H
  forLoop (fun i img_out =>
    store img_out (q + i) (mid5 (p0 i) (p1 i) (p2 i) (p3 i) (p4 i))) (tripCount q q_end) img_out

/-- Source `img_mid5_t` (lines 361-373); `%` is C remainder. Returns the output frame,
the history buffer and `*state`. -/
def img_mid5_t (W H : Int) (img_out img_buf img_in : Img) (state : Int) : Img × Img × Int :=
  let img_buf0 : Int := IMG_SZ W H * state
  let img_buf1 : Int := IMG_SZ W H * Int.tmod (state + 1) 4
  let img_buf2 : Int := IMG_SZ W H * Int.tmod (state + 2) 4
  let img_buf3 : Int := IMG_SZ W H * Int.tmod (state + 3) 4
  let img_out := img_mid5_t_raw W H img_out (shift img_buf img_buf0) (shift img_buf img_buf1)
    (shift img_buf img_buf2) (shift img_buf img_buf3) img_in
  let img_buf := img_copy img_buf img_buf0 img_in (IMG_SZ W H)
  (img_out, img_buf, Int.tmod (state + 1) 4)

/-- Consecutive calls of `img_mid5_t`: call number `j` (counted from 1) receives `x j`. -/
def img_mid5_t_calls (W H : Int) (x : Nat → Img) : Nat → Img × Img × Int → Img × Img × Int
  | 0, st => st
  | n + 1, st =>
    img_mid5_t W H (img_mid5_t_calls W H x n st).1 (img_mid5_t_calls W H x n st).2.1
      (x (n + 1)) (img_mid5_t_calls W H x n st).2.2

/-- Source `img_max5_t_raw` (lines 617-625). Cursor `p3` starts at `img_in4`. -/
def img_max5_t_raw (W H : Int) (img_out img_in0 img_in1 img_in2 img_in3 img_in4 : Img) :
    Img :=
  let p0 := img_in0
  let p1 := img_in1
  let p2 := img_in2
  let p3 := img_in4
  let p4 := img_in4
  let q : Int := 0
  let q_end : Int := 0 + W * H
  forLoop (fun i img_out =>
    store img_out (q + i) (max5 (p0 i) (p1 i) (p2 i) (p3 i) (p4 i))) (tripCount q q_end) img_out

/-- Source `img_max5_t` (lines 637-649). -/
def img_max5_t (W H : Int) (img_out img_buf img_in : Img) (state : Int) : Img × Img × Int :=
  let img_buf0 : Int := IMG_SZ W H * state
  let img_buf1 : Int := IMG_SZ W H * Int.tmod (state + 1) 4
  let img_buf2 : Int := IMG_SZ W H * Int.tmod (state + 2) 4
  let img_buf3 : Int := IMG_SZ W H * Int.tmod (state + 3) 4
  let img_out := img_max5_t_raw W H img_out (shift img_buf img_buf0) (shift img_buf img_buf1)
    (shift img_buf img_buf2) (shift img_buf img_buf3) img_in
  let img_buf := img_copy img_buf img_buf0 img_in (IMG_SZ W H)
  (img_out, img_buf, Int.tmod (state + 1) 4)

/-- Source `img_min5_t_raw` (lines 659-667): the body calls `max5`. -/
def img_min5_t_raw (W H : Int) (img_out img_in0 img_in1 img_in2 img_in3 img_in4 : Img) :
    Img :=
  let p0 := img_in0
  let p1 := img_in1
  let p2 := img_in2
  let p3 := img_in4
  let p4 := img_in4
  let q : Int := 0
  let q_end : Int := 0 + W * H
  forLoop (fun i img_out =>
    store img_out (q + i) (max5 (p0 i) (p1 i) (p2 i) (p3 i) (p4 i))) (tripCount q q_end) img_out

/-- Source `img_min5_t` (lines 679-691): it calls `img_max5_t_raw`. -/
def img_min5_t (W H : Int) (img_out img_buf img_in : Img) (state : Int) : Img × Img × Int :=
  let img_buf0 : Int := IMG_SZ W H * state
  let img_buf1 : Int := IMG_SZ W H * Int.tmod (state + 1) 4
  let img_buf2 : Int := IMG_SZ W H * Int.tmod (state + 2) 4
  let img_buf3 : Int := IMG_SZ W H * Int.tmod (state + 3) 4
  let img_out := img_max5_t_raw W H img_out (shift img_buf img_buf0) (shift img_buf img_buf1)
    (shift img_buf img_buf2) (shift img_buf img_buf3) img_in
  let img_buf := img_copy img_buf img_buf0 img_in (IMG_SZ W H)
  (img_out, img_buf, Int.tmod (state + 1) 4)

/-- Source `img_fb_mid3_t_raw` (lines 741-757); `fabs` is the absolute value. Cursor `p3`
starts at `img_in4`. -/
def img_fb_mid3_t_raw (W H : Int) (img_out img_in0 img_in1 img_in2 img_in3 img_in4 : Img)
    (th : ℚ) : Img :=
  let p0 := img_in0
  let p1 := img_in1
  let p2 := img_in2
  let p3 := img_in4
  let p4 := img_in4
  let q : Int := 0
  let q_end : Int := 0 + W * H
  forLoop (fun i img_out =>
    let a := MID3 (p0 i) (p1 i) (p2 i)
    let b := MID3 (p2 i) (p3 i) (p4 i)
    if |a - b| > th then
      store img_out (q + i) (p2 i)
    else
      store img_out (q + i) (mid5 (p0 i) (p1 i) (p2 i) (p3 i) (p4 i)))
    (tripCount q q_end) img_out

/-- Source `img_fb_mid3_t` (lines 773-785). -/
def img_fb_mid3_t (W H : Int) (img_out img_buf img_in : Img) (th : ℚ) (state : Int) :
    Img × Img × Int :=
  let img_buf0 : Int := IMG_SZ W H * state
  let img_buf1 : Int := IMG_SZ W H * Int.tmod (state + 1) 4
  let img_buf2 : Int := IMG_SZ W H * Int.tmod (state + 2) 4
  let img_buf3 : Int := IMG_SZ W H * Int.tmod (state + 3) 4
  let img_out := img_fb_mid3_t_raw W H img_out (shift img_buf img_buf0)
    (shift img_buf img_buf1) (shift img_buf img_buf2) (shift img_buf img_buf3) img_in th
  let img_buf := img_copy img_buf img_buf0 img_in (IMG_SZ W H)
  (img_out, img_buf, Int.tmod (state + 1) 4)

/-! ## Recursive temporal filters -/

/-- Modelled from the spec: `img_mul_f32(dst, src, c)` (from `img_algo`, not in the source
tree) sets `dst[:] = c * src[:]` over the frame, the first step of
"out = scale·(b1·in + st1)". -/
def img_mul_f32 (W H : Int) (dst src : Img) (c : ℚ) : Img :=
  fun x => if 0 ≤ x ∧ x < IMG_SZ W H then src x * c else dst x

/-- Modelled from the spec: `img_cum(dst, src)` (from `img_algo`, not in the source tree)
accumulates `dst[:] += src[:]` over the frame. -/
def img_cum (W H : Int) (dst src : Img) : Img :=
  fun x => if 0 ≤ x ∧ x < IMG_SZ W H then dst x + src x else dst x

/-- Modelled from the spec: `img_mac(dst, src, c)` (from `img_algo`, not in the source
tree) multiplies and accumulates, `dst[:] += c * src[:]` over the frame. -/
def img_mac (W H : Int) (dst src : Img) (c : ℚ) : Img :=
  fun x => if 0 ≤ x ∧ x < IMG_SZ W H then dst x + src x * c else dst x

/-- Modelled from the spec: `img_prod_f32(dst, c)` (from `img_algo`, not in the source
tree) scales `dst[:] *= c` over the frame. -/
def img_prod_f32 (W H : Int) (dst : Img) (c : ℚ) : Img :=
  fun x => if 0 ≤ x ∧ x < IMG_SZ W H then dst x * c else dst x

/-- Source `img_iir_sos` (lines 499-520). Returns `img_out`, `img_st1`, `img_st2`. -/
def img_iir_sos (W H : Int) (img_out img_in img_st1 img_st2 coff : Img) : Img × Img × Img :=
  let b1 := coff 0
  let b2 := coff 1
  let b3 := coff 2
  let a2 := coff 3
  let a3 := coff 4
  let sc := coff 5
  let img_out := img_mul_f32 W H img_out img_in b1
  let img_out := img_cum W H img_out img_st1
  let img_st1 := img_mul_f32 W H img_st1 img_in b2
  let img_st1 := img_cum W H img_st1 img_st2
  let img_st1 := img_mac W H img_st1 img_out (-a2)
  let img_st2 := img_mul_f32 W H img_st2 img_in b3
  let img_st2 := img_mac W H img_st2 img_out (-a3)
  let img_out := img_prod_f32 W H img_out sc
  (img_out, img_st1, img_st2)

/-- Counted loop whose body may fail. -/
def forLoopM {σ : Type} (body : Nat → σ → Option σ) : Nat → σ → Option σ
  | 0, s => some s
  | n + 1, s => (forLoopM body n s).bind (body n)

/-- The quotient `a / b` as the code evaluates it; `none` records a division by zero. -/
def fdiv (a b : ℚ) : Option ℚ := if b = 0 then none else some (a / b)

/-- Buffers written by `img_weighted_iir`. -/
structure WeightedIir where
  img_out : Img
  img_in_w_avg : Img
  img_w_avg : Img

/-- Body of the loop of `img_weighted_iir` (lines 546-554) at iteration `i`: every cursor
(`q`, `p1`, ..., `p4`) stands at offset `i` of its buffer. -/
def img_weighted_iir_step (p1 p3 : Img) (alpha : ℚ) (i : Nat) (st : WeightedIir) :
    Option WeightedIir :=
  let p4 := store st.img_w_avg i (st.img_w_avg i * alpha + (1 - alpha) * p3 i)
  let p2 := store st.img_in_w_avg i (st.img_in_w_avg i * alpha + (1 - alpha) * p3 i * p1 i)
  if p4 i ≠ 0 then
    (fdiv (p2 i) (p4 i)).map
      (fun v => { img_out := store st.img_out i v, img_in_w_avg := p2, img_w_avg := p4 })
  else
    some { img_out := store st.img_out i 0, img_in_w_avg := p2, img_w_avg := p4 }

/-- Source `img_weighted_iir` (lines 537-557). The result is `none` when a division by
zero is evaluated. -/
def img_weighted_iir (W H : Int) (img_out img_in img_in_w_avg img_w img_w_avg : Img)
    (alpha : ℚ) : Option WeightedIir :=
  let q : Int := 0
  let q_end : Int := 0 + IMG_SZ W H
  forLoopM (img_weighted_iir_step img_in img_w alpha) (tripCount q q_end)
    { img_out := img_out, img_in_w_avg := img_in_w_avg, img_w_avg := img_w_avg }

/-- Frame `f` with the pixels `[0, n)` replaced by those of `g`. -/
def updFrame (f g : Img) (n : Nat) : Img :=
  fun x => if 0 ≤ x ∧ x < (n : Int) then g x else f x

/-- New denominator state of `img_weighted_iir` at a pixel. -/
def wDenom (denom w : Img) (alpha : ℚ) : Img :=
  fun x => denom x * alpha + (1 - alpha) * w x

/-- New numerator state of `img_weighted_iir` at a pixel. -/
def wNumer (numer w inp : Img) (alpha : ℚ) : Img :=
  fun x => numer x * alpha + (1 - alpha) * w x * inp x

/-- Output of `img_weighted_iir` at a pixel. -/
def wOut (numer denom w inp : Img) (alpha : ℚ) : Img :=
  fun x => if wDenom denom w alpha x = 0 then 0
    else wNumer numer w inp alpha x / wDenom denom w alpha x

/-! ## Nearest-neighbour selection filters -/

/-- Modelled from the spec: `min8` (from `img_algo`, not in the source tree) is `minN` of
§4.2 for `N = 8`, the smallest of eight values. -/
def min8 (a b c d e f g h : ℚ) : ℚ :=
  min a (min b (min c (min d (min e (min f (min g h))))))

/-- Source `img_nnf_sqr3` (lines 708-728); `fabs` is the absolute value. -/
def img_nnf_sqr3 (W H : Int) (img_out img_in : Img) (th : ℚ) : Img :=
  let p0 : Int := 0
  let p1 : Int := 0 + 1
  let p2 : Int := 0 + 2
  let p3 : Int := 0 + W
  let p4 : Int := 0 + W + 1
  let p5 : Int := 0 + W + 2
  let p6 : Int := 0 + 2 * W
  let p7 : Int := 0 + 2 * W + 1
  let p8 : Int := 0 + 2 * W + 2
  let q : Int := 0 + W + 1
  let q_end : Int := 0 + W * (H - 1) - 1
  forLoop (fun i img_out =>
    let s := min8 |img_in (p0 + i) - img_in (p4 + i)| |img_in (p1 + i) - img_in (p4 + i)|
      |img_in (p2 + i) - img_in (p4 + i)| |img_in (p3 + i) - img_in (p4 + i)|
      |img_in (p5 + i) - img_in (p4 + i)| |img_in (p6 + i) - img_in (p4 + i)|
      |img_in (p7 + i) - img_in (p4 + i)| |img_in (p8 + i) - img_in (p4 + i)|
    if s < th then
      store img_out (q + i) (img_in (p4 + i))
    else
      store img_out (q + i) (mid5 (img_in (p1 + i)) (img_in (p3 + i)) (img_in (p4 + i))
        (img_in (p5 + i)) (img_in (p7 + i))))
    (tripCount q q_end) img_out

/-- Source `img_nnf_sqr3_mid5_raw` (lines 803-825): the spatial test runs on `img_in2`,
the median over the five frames at the centre pixel. -/
def img_nnf_sqr3_mid5_raw (W H : Int)
    (img_out img_in0 img_in1 img_in2 img_in3 img_in4 : Img) (th : ℚ) : Img :=
  let p0 : Int := 0
  let p1 : Int := 0 + 1
  let p2 : Int := 0 + 2
  let p3 : Int := 0 + W
  let p4 : Int := 0 + W + 1
  let p5 : Int := 0 + W + 2
  let p6 : Int := 0 + 2 * W
  let p7 : Int := 0 + 2 * W + 1
  let p8 : Int := 0 + 2 * W + 2
  let r0 : Int := 0 + W + 1
  let r1 : Int := 0 + W + 1
  let r2 : Int := 0 + W + 1
  let r3 : Int := 0 + W + 1
  let r4 : Int := 0 + W + 1
  let q : Int := 0 + W + 1
  let q_end : Int := 0 + W * (H - 1) - 1
  forLoop (fun i img_out =>
    let s := min8 |img_in2 (p0 + i) - img_in2 (p4 + i)| |img_in2 (p1 + i) - img_in2 (p4 + i)|
      |img_in2 (p2 + i) - img_in2 (p4 + i)| |img_in2 (p3 + i) - img_in2 (p4 + i)|
      |img_in2 (p5 + i) - img_in2 (p4 + i)| |img_in2 (p6 + i) - img_in2 (p4 + i)|
      |img_in2 (p7 + i) - img_in2 (p4 + i)| |img_in2 (p8 + i) - img_in2 (p4 + i)|
    if s < th then
      store img_out (q + i) (img_in2 (p4 + i))
    else
      store img_out (q + i) (mid5 (img_in0 (r0 + i)) (img_in1 (r1 + i)) (img_in2 (r2 + i))
        (img_in3 (r3 + i)) (img_in4 (r4 + i))))
    (tripCount q q_end) img_out

/-- Source `img_nnf_sqr3_mid5` (lines 840-852). -/
def img_nnf_sqr3_mid5 (W H : Int) (img_out img_buf img_in : Img) (state : Int) (th : ℚ) :
    Img × Img × Int :=
  let img_buf0 : Int := IMG_SZ W H * state
  let img_buf1 : Int := IMG_SZ W H * Int.tmod (state + 1) 4
  let img_buf2 : Int := IMG_SZ W H * Int.tmod (state + 2) 4
  let img_buf3 : Int := IMG_SZ W H * Int.tmod (state + 3) 4
  let img_out := img_nnf_sqr3_mid5_raw W H img_out (shift img_buf img_buf0)
    (shift img_buf img_buf1) (shift img_buf img_buf2) (shift img_buf img_buf3) img_in th
  let img_buf := img_copy img_buf img_buf0 img_in (IMG_SZ W H)
  (img_out, img_buf, Int.tmod (state + 1) 4)

/-- The spatial test value of the nearest-neighbour filters at flat index `k` of `f`: the
smallest absolute difference between `f[k]` and its eight neighbours. -/
def nnDist (W : Int) (f : Img) (k : Int) : ℚ :=
  min8 |f (k - W - 1) - f k| |f (k - W) - f k| |f (k - W + 1) - f k| |f (k - 1) - f k|
    |f (k + 1) - f k| |f (k + W - 1) - f k| |f (k + W) - f k| |f (k + W + 1) - f k|


/-! ## Plane-fit correction -/

/-- Source `sqr_f32` (line 925). -/
def sqr_f32 (x : ℚ) : ℚ := x * x

/-- Residual `e0` of `img_plane_mf_pix` (lines 941-946): top six points. -/
def pmf_e0 (z0 z1 z2 z3 z4 z5 z6 z7 z8 : ℚ) : ℚ :=
  (sqr_f32 (-5 * z0 + 4 * z1 + z2 + 3 * z3 - 3 * z5) +
   sqr_f32 (4 * z0 - 8 * z1 + 4 * z2) +
   sqr_f32 (z0 + 4 * z1 - 5 * z2 - 3 * z3 + 3 * z5) +
   sqr_f32 (3 * z0 - 3 * z2 - 5 * z3 + 4 * z4 + z5) +
   sqr_f32 (4 * z3 - 8 * z4 + 4 * z5) +
   sqr_f32 (-3 * z0 + 3 * z2 + z3 + 4 * z4 - 5 * z5)) / 144

/-- Residual `e1` of `img_plane_mf_pix` (lines 948-953): top-right six points. -/
def pmf_e1 (z0 z1 z2 z3 z4 z5 z6 z7 z8 : ℚ) : ℚ :=
  (sqr_f32 (-3 * z0 + 3 * z1 - z2 + 3 * z4 - z5 - z8) +
   sqr_f32 (3 * z0 - 7 * z1 + 3 * z2 + z4 + z5 - z8) +
   sqr_f32 (-z0 + 3 * z1 - 3 * z2 - z4 + 3 * z5 - z8) +
   sqr_f32 (3 * z0 + z1 - z2 - 7 * z4 + z5 + 3 * z8) +
   sqr_f32 (-z0 + z1 + 3 * z2 + z4 - 7 * z5 + 3 * z8) +
   sqr_f32 (-z0 - z1 - z2 + 3 * z4 + 3 * z5 - 3 * z8)) / 100

/-- Residual `e2` of `img_plane_mf_pix` (lines 955-960): right six points. -/
def pmf_e2 (z0 z1 z2 z3 z4 z5 z6 z7 z8 : ℚ) : ℚ :=
  (sqr_f32 (-5 * z1 + 3 * z2 + 4 * z4 + z7 - 3 * z8) +
   sqr_f32 (3 * z1 - 5 * z2 + 4 * z5 - 3 * z7 + z8) +
   sqr_f32 (4 * z1 - 8 * z4 + 4 * z7) +
   sqr_f32 (4 * z2 - 8 * z5 + 4 * z8) +
   sqr_f32 (z1 - 3 * z2 + 4 * z4 - 5 * z7 + 3 * z8) +
   sqr_f32 (-3 * z1 + z2 + 4 * z5 + 3 * z7 - 5 * z8)) / 144

/-- Residual `e3` of `img_plane_mf_pix` (lines 962-967): bottom-right six points. -/
def pmf_e3 (z0 z1 z2 z3 z4 z5 z6 z7 z8 : ℚ) : ℚ :=
  (sqr_f32 (-3 * z2 + 3 * z4 + 3 * z5 - z6 - z7 - z8) +
   sqr_f32 (3 * z2 - 7 * z4 + z5 + 3 * z6 + z7 - z8) +
   sqr_f32 (3 * z2 + z4 - 7 * z5 - z6 + z7 + 3 * z8) +
   sqr_f32 (-z2 + 3 * z4 - z5 - 3 * z6 + 3 * z7 - z8) +
   sqr_f32 (-z2 + z4 + z5 + 3 * z6 - 7 * z7 + 3 * z8) +
   sqr_f32 (-z2 - z4 + 3 * z5 - z6 + 3 * z7 - 3 * z8)) / 100

/-- Residual `e4` of `img_plane_mf_pix` (lines 969-974): bottom six points. -/
def pmf_e4 (z0 z1 z2 z3 z4 z5 z6 z7 z8 : ℚ) : ℚ :=
  (sqr_f32 (-5 * z3 + 4 * z4 + z5 + 3 * z6 - 3 * z8) +
   sqr_f32 (4 * z3 - 8 * z4 + 4 * z5) +
   sqr_f32 (z3 + 4 * z4 - 5 * z5 - 3 * z6 + 3 * z8) +
   sqr_f32 (3 * z3 - 3 * z5 - 5 * z6 + 4 * z7 + z8) +
   sqr_f32 (4 * z6 - 8 * z7 + 4 * z8) +
   sqr_f32 (-3 * z3 + 3 * z5 + z6 + 4 * z7 - 5 * z8)) / 144

/-- Residual `e5` of `img_plane_mf_pix` (lines 976-981): bottom-left six points. -/
def pmf_e5 (z0 z1 z2 z3 z4 z5 z6 z7 z8 : ℚ) : ℚ :=
  (sqr_f32 (-3 * z0 + 3 * z3 + 3 * z4 - z6 - z7 - z8) +
   sqr_f32 (3 * z0 - 7 * z3 + z4 + 3 * z6 + z7 - z8) +
   sqr_f32 (3 * z0 + z3 - 7 * z4 - z6 + z7 + 3 * z8) +
   sqr_f32 (-z0 + 3 * z3 - z4 - 3 * z6 + 3 * z7 - z8) +
   sqr_f32 (-z0 + z3 + z4 + 3 * z6 - 7 * z7 + 3 * z8) +
   sqr_f32 (-z0 - z3 + 3 * z4 - z6 + 3 * z7 - 3 * z8)) / 100

/-- Residual `e6` of `img_plane_mf_pix` (lines 983-988): left six points. -/
def pmf_e6 (z0 z1 z2 z3 z4 z5 z6 z7 z8 : ℚ) : ℚ :=
  (sqr_f32 (-5 * z0 + 3 * z1 + 4 * z3 + z6 - 3 * z7) +
   sqr_f32 (3 * z0 - 5 * z1 + 4 * z4 - 3 * z6 + z7) +
   sqr_f32 (4 * z0 - 8 * z3 + 4 * z6) +
   sqr_f32 (4 * z1 - 8 * z4 + 4 * z7) +
   sqr_f32 (z0 - 3 * z1 + 4 * z3 - 5 * z6 + 3 * z7) +
   sqr_f32 (-3 * z0 + z1 + 4 * z4 + 3 * z6 - 5 * z7)) / 144

/-- Residual `e7` of `img_plane_mf_pix` (lines 990-995): top-left six points. -/
def pmf_e7 (z0 z1 z2 z3 z4 z5 z6 z7 z8 : ℚ) : ℚ :=
  (sqr_f32 (-3 * z0 + 3 * z1 - z2 + 3 * z3 - z4 - z6) +
   sqr_f32 (3 * z0 - 7 * z1 + 3 * z2 + z3 + z4 - z6) +
   sqr_f32 (-z0 + 3 * z1 - 3 * z2 - z3 + 3 * z4 - z6) +
   sqr_f32 (3 * z0 + z1 - z2 - 7 * z3 + z4 + 3 * z6) +
   sqr_f32 (-z0 + z1 + 3 * z2 + z3 - 7 * z4 + 3 * z6) +
   sqr_f32 (-z0 - z1 - z2 + 3 * z3 + 3 * z4 - 3 * z6)) / 100

/-- The residuals `e0..e7` of `img_plane_mf_pix` by model index. -/
def pmf_e (z0 z1 z2 z3 z4 z5 z6 z7 z8 : ℚ) : Nat → ℚ
  | 0 => pmf_e0 z0 z1 z2 z3 z4 z5 z6 z7 z8
  | 1 => pmf_e1 z0 z1 z2 z3 z4 z5 z6 z7 z8
  | 2 => pmf_e2 z0 z1 z2 z3 z4 z5 z6 z7 z8
  | 3 => pmf_e3 z0 z1 z2 z3 z4 z5 z6 z7 z8
  | 4 => pmf_e4 z0 z1 z2 z3 z4 z5 z6 z7 z8
  | 5 => pmf_e5 z0 z1 z2 z3 z4 z5 z6 z7 z8
  | 6 => pmf_e6 z0 z1 z2 z3 z4 z5 z6 z7 z8
  | _ => pmf_e7 z0 z1 z2 z3 z4 z5 z6 z7 z8

/-- The `if (e < minv) { minv = e; min_id = id; }` step of `img_plane_mf_pix` (lines
1000-1006) on the pair `(minv, min_id)`. -/
def pmf_pick (st : ℚ × Nat) (e : ℚ) (id : Nat) : ℚ × Nat :=
  if e < st.1 then (e, id) else st

/-- The corrected centre `zc` of `img_plane_mf_pix` for a model index (lines 1009-1016).
`zc` is left unset by the source when no branch is taken; it is 0 here. -/
def pmf_zc (min_id : Nat) (z0 z1 z2 z3 z4 z5 z6 z7 z8 : ℚ) : ℚ :=
  if min_id = 0 then (z3 + z4 + z5) / 3
  else if min_id = 1 then (3 * z0 + z1 - z2 + 3 * z4 + z5 + 3 * z8) / 10
  else if min_id = 2 then (z1 + z4 + z7) / 3
  else if min_id = 3 then (3 * z2 + 3 * z4 + z5 + 3 * z6 + z7 - z8) / 10
  else if min_id = 4 then (z3 + z4 + z5) / 3
  else if min_id = 5 then (3 * z0 + z3 + 3 * z4 - z6 + z7 + 3 * z8) / 10
  else if min_id = 6 then (z1 + z4 + z7) / 3
  else if min_id = 7 then (-z0 + z1 + 3 * z2 + z3 + 3 * z4 + 3 * z6) / 10
  else 0

/-- Source `img_plane_mf_pix` (lines 934-1019). -/
def img_plane_mf_pix (z0 z1 z2 z3 z4 z5 z6 z7 z8 : ℚ) : ℚ :=
  let e0 := pmf_e0 z0 z1 z2 z3 z4 z5 z6 z7 z8
  let e1 := pmf_e1 z0 z1 z2 z3 z4 z5 z6 z7 z8
  let e2 := pmf_e2 z0 z1 z2 z3 z4 z5 z6 z7 z8
  let e3 := pmf_e3 z0 z1 z2 z3 z4 z5 z6 z7 z8
  let e4 := pmf_e4 z0 z1 z2 z3 z4 z5 z6 z7 z8
  let e5 := pmf_e5 z0 z1 z2 z3 z4 z5 z6 z7 z8
  let e6 := pmf_e6 z0 z1 z2 z3 z4 z5 z6 z7 z8
  let e7 := pmf_e7 z0 z1 z2 z3 z4 z5 z6 z7 z8
  let st : ℚ × Nat := (e0, 0)
  let st := pmf_pick st e1 1
  let st := pmf_pick st e2 2
  let st := pmf_pick st e3 3
  let st := pmf_pick st e4 4
  let st := pmf_pick st e5 5
  let st := pmf_pick st e6 6
  let st := pmf_pick st e7 7
  pmf_zc st.2 z0 z1 z2 z3 z4 z5 z6 z7 z8


/-! ## Hole filling -/

/-- A `uint8_t *` buffer, addressed by the signed offset from its base pointer. -/
abbrev Mask := Int → Nat

/-- The statement `if (m) v += x;` of `img_hole_fill` (lines 1108-1115), as the new value
of `v`. -/
def accIf (m : Nat) (v x : ℚ) : ℚ := if m ≠ 0 then v + x else v

/-- Body of the loop of `img_hole_fill` (lines 1099-1119) at iteration `i`. The sum `*q`
is accumulated in `v` and stored once; `img_in` and `img_out` are distinct buffers. -/
def img_hole_fill_step (W : Int) (img_in : Img) (i : Nat) (st : Img × Mask) : Img × Mask :=
  let p0 : Int := 0 + i
  let p1 : Int := 0 + 1 + i
  let p2 : Int := 0 + 2 + i
  let p3 : Int := 0 + W + i
  let p5 : Int := 0 + W + 2 + i
  let p6 : Int := 0 + 2 * W + i
  let p7 : Int := 0 + 2 * W + 1 + i
  let p8 : Int := 0 + 2 * W + 2 + i
  let r0 : Int := 0 + i
  let r1 : Int := 0 + 1 + i
  let r2 : Int := 0 + 2 + i
  let r3 : Int := 0 + W + i
  let r4 : Int := 0 + W + 1 + i
  let r5 : Int := 0 + W + 2 + i
  let r6 : Int := 0 + 2 * W + i
  let r7 : Int := 0 + 2 * W + 1 + i
  let r8 : Int := 0 + 2 * W + 2 + i
  let q : Int := 0 + W + 1 + i
  if st.2 r4 ≠ 0 then st
  else
    let k : Nat := st.2 r0 + st.2 r1 + st.2 r2 + st.2 r3 + st.2 r5 + st.2 r6 + st.2 r7 + st.2 r8
    if k > 5 then
      let v : ℚ := 0
      let v := accIf (st.2 r0) v (img_in p0)
      let v := accIf (st.2 r1) v (img_in p1)
      let v := accIf (st.2 r2) v (img_in p2)
      let v := accIf (st.2 r3) v (img_in p3)
      let v := accIf (st.2 r5) v (img_in p5)
      let v := accIf (st.2 r6) v (img_in p6)
      let v := accIf (st.2 r7) v (img_in p7)
      let v := accIf (st.2 r8) v (img_in p8)
      let v := v / (k : ℚ)
      (store st.1 q v, Function.update st.2 r4 1)
    else st

/-- Source `img_hole_fill` (lines 1081-1121). Returns the output frame and the mask. -/
def img_hole_fill (W H : Int) (img_out img_in : Img) (img_mask : Mask) : Img × Mask :=
  let q : Int := 0 + W + 1
  let q_end : Int := 0 + W * (H - 1) - 1
  let img_out := img_copy img_out 0 img_in (IMG_SZ W H)
  forLoop (img_hole_fill_step W img_in) (tripCount q q_end) (img_out, img_mask)


/-- Number of valid 8-neighbours of flat index `k` in a 0/1 mask, the four neighbours that
precede `k` in raster order (NW, N, NE, W) read from `before` and the four that follow it
(E, SW, S, SE) from `after`. -/
def visitCount (W : Int) (before after : Mask) (k : Int) : Nat :=
  before (k - W - 1) + before (k - W) + before (k - W + 1) + before (k - 1)
    + after (k + 1) + after (k + W - 1) + after (k + W) + after (k + W + 1)


/-! ## First-order recursive filter -/

/-- Source `img_iir_t` (lines 217-224): in iteration `i` the cursors `p` and `q` stand at
offset `i` of `img_in` and `img_inout`; the cast `(float)(1.0-alpha)` is `1 - alpha`. -/
def img_iir_t (W H : Int) (img_inout img_in : Img) (alpha : ℚ) : Img :=
  let p : Int := 0
  let p_end : Int := 0 + W * H
  forLoop (fun i img_inout =>
    store img_inout i (img_inout i * alpha + (1 - alpha) * img_in i))
    (tripCount p p_end) img_inout

/-- Consecutive calls of `img_iir_t` on one state frame: call number `j` (counted from 1)
receives the input frame `x j`. -/
def img_iir_t_calls (W H : Int) (x : Nat → Img) (alpha : ℚ) : Nat → Img → Img
  | 0, st => st
  | n + 1, st => img_iir_t W H (img_iir_t_calls W H x alpha n st) (x (n + 1)) alpha


/-- Consecutive calls of `img_weighted_iir` on the same output and state buffers: call
number `j` (counted from 1) receives the input frame `x j` and the weight frame `w j`. The
result is `none` when a division by zero is evaluated. -/
def img_weighted_iir_calls (W H : Int) (x w : Nat → Img) (alpha : ℚ) :
    Nat → WeightedIir → Option WeightedIir
  | 0, st => some st
  | n + 1, st =>
    (img_weighted_iir_calls W H x w alpha n st).bind (fun s =>
      img_weighted_iir W H s.img_out (x (n + 1)) s.img_in_w_avg (w (n + 1)) s.img_w_avg alpha)


/-! ## Three-frame temporal FIR -/

/-- Source `img_fir3_t_raw` (lines 235-250). -/
def img_fir3_t_raw (W H : Int) (img_out img_in0 img_in1 img_in2 coff : Img) : Img :=
  let p0 := img_in0
  let p1 := img_in1
  let p2 := img_in2
  let q : Int := 0
  let q_end : Int := 0 + W * H
  let c0 := coff 0
  let c1 := coff 1
  let c2 := coff 2
  forLoop (fun i img_out =>
    let s := p0 i * c0
    let s := s + p1 i * c1
    let s := s + p2 i * c2
    store img_out (q + i) s) (tripCount q q_end) img_out

/-- Source `img_fir3_t` (lines 263-281). Returns the output frame, the two-frame history
buffer and `*state`. -/
def img_fir3_t (W H : Int) (img_out img_buf img_in coff : Img) (state : Int) :
    Img × Img × Int :=
  let img_buf1 : Int := 0 + IMG_SZ W H
  if state ≠ 0 then
    (img_fir3_t_raw W H img_out (shift img_buf img_buf1) (shift img_buf 0) img_in coff,
      img_copy img_buf img_buf1 img_in (IMG_SZ W H), 0)
  else
    (img_fir3_t_raw W H img_out (shift img_buf 0) (shift img_buf img_buf1) img_in coff,
      img_copy img_buf 0 img_in (IMG_SZ W H), 1)

/-- Consecutive calls of `img_fir3_t`: call number `j` (counted from 1) receives the input
frame `x j` and the coefficient vector `coff j`. -/
def img_fir3_t_calls (W H : Int) (x coff : Nat → Img) :
    Nat → Img × Img × Int → Img × Img × Int
  | 0, st => st
  | n + 1, st =>
    img_fir3_t W H (img_fir3_t_calls W H x coff n st).1 (img_fir3_t_calls W H x coff n st).2.1
      (x (n + 1)) (coff (n + 1)) (img_fir3_t_calls W H x coff n st).2.2


/-! ## Spatio-temporal median -/

/-- Modelled from the spec: `mid7` (from `img_algo`, not in the source tree) is `med7` of
§4.2, the fourth smallest of seven values. -/
def mid7 (a b c d e f g : ℚ) : ℚ :=
  (List.insertionSort (· ≤ ·) [a, b, c, d, e, f, g]).getD 3 0

/-- Source `img_mid7_st_raw` (lines 867-888). The call passes `*p5` twice; `p6` is set up
and advanced but never read. -/
def img_mid7_st_raw (W H : Int) (img_out img_in0 img_in1 img_in2 : Img) : Img :=
  let p0 : Int := 0 + 1
  let p1 : Int := 0 + W
  let p2 : Int := 0 + W + 1
  let p3 : Int := 0 + W + 2
  let p4 : Int := 0 + 2 * W + 1
  let p5 : Int := 0 + W + 1
  let p6 : Int := 0 + W + 1
  let q : Int := 0 + W + 1
  let q_end : Int := 0 + W * (H - 1) - 1
  forLoop (fun i img_out =>
    store img_out (q + i) (mid7 (img_in1 (p0 + i)) (img_in1 (p1 + i)) (img_in1 (p2 + i))
      (img_in1 (p3 + i)) (img_in1 (p4 + i)) (img_in0 (p5 + i)) (img_in0 (p5 + i))))
    (tripCount q q_end) img_out


/-! ## Cross FIR in place -/

/-- Source `img_fir_cross_sa` (lines 74-110): cross-stencil FIR in place through the delay
line. The loop state is the frame, the delay line and the countdown `n`; the drain loop
goes on from the `q` the first loop stopped at. -/
def img_fir_cross_sa (W H : Int) (img_inout coff : Img) (rbuf : ring_buf_f32_s) :
    Img × ring_buf_f32_s :=
  let p0 : Int := 0 + 1
  let p1 : Int := p0 + W - 1
  let p2 : Int := p0 + W
  let p3 : Int := p0 + W + 1
  let p4 : Int := p0 + W + W
  let q : Int := 0 + W + 1 - 3 * W
  let q_end : Int := 0 + W * (H - 1) - 1 - 3 * W
  let c0 := coff 0
  let c1 := coff 1
  let c2 := coff 2
  let c3 := coff 3
  let c4 := coff 4
  let n : Int := 3 * W
  let st := forLoop (fun i (st : Img × ring_buf_f32_s × Int) =>
    let s := st.1 (p0 + i) * c0
    let s := s + st.1 (p1 + i) * c1
    let s := s + st.1 (p2 + i) * c2
    let s := s + st.1 (p3 + i) * c3
    let s := s + st.1 (p4 + i) * c4
    if st.2.2 ≠ 0 then
      (st.1, (ring_buf_f32_io st.2.1 s).1, st.2.2 - 1)
    else
      (store st.1 (q + i) (ring_buf_f32_io st.2.1 s).2, (ring_buf_f32_io st.2.1 s).1, st.2.2))
    (tripCount q q_end) (img_inout, rbuf, n)
  let q : Int := q + tripCount q q_end
  forLoop (fun n (st : Img × ring_buf_f32_s) =>
    (store st.1 (q + n) (ring_buf_f32_io st.2 0).2, (ring_buf_f32_io st.2 0).1))
    (tripCount 0 (3 * W)) (st.1, st.2.1)

/-- The cross weighted sum read at cursor offset `i` of `img`. -/
def crossSum (W : Int) (coff img : Img) (i : Nat) : ℚ :=
  img (0 + 1 + i) * coff 0 + img (0 + 1 + W - 1 + i) * coff 1 + img (0 + 1 + W + i) * coff 2
    + img (0 + 1 + W + 1 + i) * coff 3 + img (0 + 1 + W + W + i) * coff 4


/-- The model index `min_id` that the selection of `img_plane_mf_pix` (lines 998-1006) ends
on, for the residuals `e 0, ..., e 7`. -/
def pmf_sel (e : Nat → ℚ) : Nat :=
  (pmf_pick (pmf_pick (pmf_pick (pmf_pick (pmf_pick (pmf_pick (pmf_pick
    (e 0, 0) (e 1) 1) (e 2) 2) (e 3) 3) (e 4) 4) (e 5) 5) (e 6) 6) (e 7) 7).2


/-- Sum of the input values of the 8-neighbours of flat index `k` whose mask entry is
non-zero, the four neighbours that precede `k` in raster order (NW, N, NE, W) looked up in
`before` and the four that follow it (E, SW, S, SE) in `after`. -/
def visitSum (W : Int) (img_in : Img) (before after : Mask) (k : Int) : ℚ :=
  (if before (k - W - 1) ≠ 0 then img_in (k - W - 1) else 0)
    + (if before (k - W) ≠ 0 then img_in (k - W) else 0)
    + (if before (k - W + 1) ≠ 0 then img_in (k - W + 1) else 0)
    + (if before (k - 1) ≠ 0 then img_in (k - 1) else 0)
    + (if after (k + 1) ≠ 0 then img_in (k + 1) else 0)
    + (if after (k + W - 1) ≠ 0 then img_in (k + W - 1) else 0)
    + (if after (k + W) ≠ 0 then img_in (k + W) else 0)
    + (if after (k + W + 1) ≠ 0 then img_in (k + W + 1) else 0)


/-! ## Loop lemmas -/

theorem forLoop_succ {σ : Type} (body : Nat → σ → σ) (n : Nat) (s : σ) :
    forLoop body (n + 1) s = body n (forLoop body n s) := rfl

theorem forLoop_zero {σ : Type} (body : Nat → σ → σ) (s : σ) :
    forLoop body 0 s = s := rfl

theorem store_same (m : Img) (q : Int) (v : ℚ) : store m q v q = v := by
  simp [store]

theorem store_other (m : Img) (q x : Int) (v : ℚ) (h : x ≠ q) : store m q v x = m x := by
  simp [store, Function.update_noteq h]

/-- A loop that stores `g i` at `q + i` fills the run `[q, q + n)` and leaves the rest. -/
theorem forLoop_store (g : Nat → ℚ) (q : Int) (n : Nat) (m : Img) (x : Int) :
    forLoop (fun i m => store m (q + i) (g i)) n m x
      = if q ≤ x ∧ x < q + n then g (x - q).toNat else m x := by
  induction n with
  | zero =>
    have h0 : ¬ (q ≤ x ∧ x < q + ((0 : Nat) : Int)) := by omega
    rw [forLoop_zero, if_neg h0]
  | succ n ih =>
    rw [forLoop_succ]
    by_cases hx : x = q + n
    · subst hx
      rw [store_same]
      have h1 : q ≤ q + (n : Int) ∧ q + (n : Int) < q + ((n + 1 : Nat) : Int) := by
        constructor <;> omega
      rw [if_pos h1]
      congr 1
      omega
    · rw [store_other _ _ _ _ hx, ih]
      by_cases h2 : q ≤ x ∧ x < q + (n : Int)
      · have h3 : q ≤ x ∧ x < q + ((n + 1 : Nat) : Int) := by
          constructor <;> omega
        rw [if_pos h2, if_pos h3]
      · have h3 : ¬ (q ≤ x ∧ x < q + ((n + 1 : Nat) : Int)) := by omega
        rw [if_neg h2, if_neg h3]

/-! ## Delay-line lemmas -/

theorem rbPush_len (v : Nat → ℚ) (r : ring_buf_f32_s) (i : Nat) :
    (rbPush v r i).len = r.len := by
  induction i with
  | zero => rfl
  | succ i ih => simpa [rbPush, ring_buf_f32_io] using ih

theorem rbPush_pos (v : Nat → ℚ) (r : ring_buf_f32_s) (h : r.pos < r.len) (i : Nat) :
    (rbPush v r i).pos = (r.pos + i) % r.len := by
  induction i with
  | zero => simp [rbPush, Nat.mod_eq_of_lt h]
  | succ i ih =>
    show ((rbPush v r i).pos + 1) % (rbPush v r i).len = _
    rw [ih, rbPush_len, Nat.mod_add_mod, Nat.add_assoc]

theorem mod_slot_ne (p j i C : Nat) (h1 : j < i) (h2 : i < j + C) :
    (p + i) % C ≠ (p + j) % C := by
  intro h
  have e : Nat.ModEq C (p + j) (p + i) := h.symm
  have e2 : Nat.ModEq C j i := Nat.ModEq.add_left_cancel' p e
  have d : C ∣ i - j := (Nat.modEq_iff_dvd' (le_of_lt h1)).1 e2
  have : C ≤ i - j := Nat.le_of_dvd (by omega) d
  omega

/-- The last `len` values pushed sit in the slots the cursor went through. -/
theorem rbPush_buf (v : Nat → ℚ) (r : ring_buf_f32_s) (h : r.pos < r.len) (i j : Nat)
    (hj : j < i) (hi : i ≤ j + r.len) :
    (rbPush v r i).buf ((r.pos + j) % r.len) = v j := by
  induction i with
  | zero => omega
  | succ i ih =>
    show Function.update (rbPush v r i).buf (rbPush v r i).pos (v i) _ = _
    rw [rbPush_pos v r h]
    by_cases hji : j = i
    · subst hji
      simp
    · have hne : (r.pos + j) % r.len ≠ (r.pos + i) % r.len := by
        have := mod_slot_ne r.pos j i r.len (by omega) (by omega)
        exact fun e => this e.symm
      rw [Function.update_noteq hne]
      exact ih (by omega) (by omega)

/-- FIFO: once `len` values went in, `io` returns the value pushed `len` calls earlier. -/
theorem rbPush_out (v : Nat → ℚ) (r : ring_buf_f32_s) (h : r.pos < r.len) (i : Nat)
    (hi : r.len ≤ i) (x : ℚ) :
    (ring_buf_f32_io (rbPush v r i) x).2 = v (i - r.len) := by
  show (rbPush v r i).buf (rbPush v r i).pos = _
  rw [rbPush_pos v r h]
  have e : (r.pos + i) % r.len = (r.pos + (i - r.len)) % r.len := by
    have : r.pos + i = r.pos + (i - r.len) + r.len := by omega
    rw [this, Nat.add_mod_right]
  rw [e]
  exact rbPush_buf v r h i (i - r.len) (by omega) (by omega)

theorem rbPush_step (v : Nat → ℚ) (r : ring_buf_f32_s) (i : Nat) (x : ℚ) (hx : x = v i) :
    (ring_buf_f32_io (rbPush v r i) x).1 = rbPush v r (i + 1) := by
  subst hx
  rfl

/-! ## In-place loops -/

theorem saMain_eq (S : Img → Nat → ℚ) (m0 : Img) (r0 : ring_buf_f32_s) (q : Int)
    (T : Nat → ℚ) (N : Nat) (hpos : r0.pos < r0.len)
    (hloc : ∀ (img : Img) (i : Nat), i < N → (∀ x, q + i ≤ x → img x = m0 x) →
      S img i = T i) (i : Nat) (hi : i ≤ N) :
    saMain S q i (m0, r0, (r0.len : Int))
      = (saImg m0 q r0.len T i, rbPush T r0 i, ((r0.len - i : Nat) : Int)) := by
  induction i with
  | zero =>
    have e : saImg m0 q r0.len T 0 = m0 := by
      funext x
      unfold saImg
      have : ¬ (q + (r0.len : Int) ≤ x ∧ x < q + ((0 : Nat) : Int)) := by omega
      rw [if_neg this]
    simp [saMain, forLoop, e, rbPush]
  | succ i ih =>
    have ih2 := ih (by omega)
    unfold saMain at ih2 ⊢
    rw [forLoop_succ, ih2]
    have hS : S (saImg m0 q r0.len T i) i = T i := by
      apply hloc _ _ (by omega)
      intro x hx
      unfold saImg
      have : ¬ (q + (r0.len : Int) ≤ x ∧ x < q + (i : Int)) := by omega
      rw [if_neg this]
    simp only [hS]
    by_cases hn : ((r0.len - i : Nat) : Int) ≠ 0
    · rw [if_pos hn]
      have e1 : saImg m0 q r0.len T (i + 1) = saImg m0 q r0.len T i := by
        funext x
        unfold saImg
        have a : ¬ (q + (r0.len : Int) ≤ x ∧ x < q + ((i + 1 : Nat) : Int)) := by omega
        have b : ¬ (q + (r0.len : Int) ≤ x ∧ x < q + (i : Int)) := by omega
        rw [if_neg a, if_neg b]
      have e2 : (((r0.len - i : Nat) : Int)) - 1 = ((r0.len - (i + 1) : Nat) : Int) := by
        omega
      rw [e1, e2, rbPush_step T r0 i (T i) rfl]
    · rw [if_neg hn]
      have hle : r0.len ≤ i := by omega
      have e1 : store (saImg m0 q r0.len T i) (q + i)
          (ring_buf_f32_io (rbPush T r0 i) (T i)).2 = saImg m0 q r0.len T (i + 1) := by
        rw [rbPush_out T r0 hpos i hle]
        funext x
        by_cases hx : x = q + i
        · subst hx
          rw [store_same]
          unfold saImg
          have a : q + (r0.len : Int) ≤ q + (i : Int)
              ∧ q + (i : Int) < q + ((i + 1 : Nat) : Int) := by
            constructor <;> omega
          rw [if_pos a]
          congr 1
          omega
        · rw [store_other _ _ _ _ hx]
          unfold saImg
          by_cases b : q + (r0.len : Int) ≤ x ∧ x < q + (i : Int)
          · have a : q + (r0.len : Int) ≤ x ∧ x < q + ((i + 1 : Nat) : Int) := by
              constructor <;> omega
            rw [if_pos a, if_pos b]
          · have a : ¬ (q + (r0.len : Int) ≤ x ∧ x < q + ((i + 1 : Nat) : Int)) := by
              omega
            rw [if_neg a, if_neg b]
      have e2 : ((r0.len - i : Nat) : Int) = ((r0.len - (i + 1) : Nat) : Int) := by omega
      rw [e1, rbPush_step T r0 i (T i) rfl, e2]

theorem saDrain_eq (m0 : Img) (r0 : ring_buf_f32_s) (q : Int) (T : Nat → ℚ) (N : Nat)
    (hpos : r0.pos < r0.len) (hN : r0.len ≤ N) (hT : ∀ j, N ≤ j → T j = 0) (n : Nat) :
    saDrain (q + N) n (saImg m0 q r0.len T N, rbPush T r0 N)
      = (saImg m0 q r0.len T (N + n), rbPush T r0 (N + n)) := by
  induction n with
  | zero => rfl
  | succ n ih =>
    unfold saDrain at ih ⊢
    rw [forLoop_succ, ih]
    simp only []
    rw [rbPush_out T r0 hpos (N + n) (by omega),
      rbPush_step T r0 (N + n) 0 (hT (N + n) (by omega)).symm]
    have e1 : store (saImg m0 q r0.len T (N + n)) (q + N + n) (T (N + n - r0.len))
        = saImg m0 q r0.len T (N + (n + 1)) := by
      funext x
      by_cases hx : x = q + N + n
      · subst hx
        rw [store_same]
        unfold saImg
        have a : q + (r0.len : Int) ≤ q + (N : Int) + (n : Int)
            ∧ q + (N : Int) + (n : Int) < q + ((N + (n + 1) : Nat) : Int) := by
          constructor <;> omega
        rw [if_pos a]
        congr 1
        omega
      · rw [store_other _ _ _ _ hx]
        unfold saImg
        by_cases b : q + (r0.len : Int) ≤ x ∧ x < q + ((N + n : Nat) : Int)
        · have a : q + (r0.len : Int) ≤ x ∧ x < q + ((N + (n + 1) : Nat) : Int) := by
            constructor <;> omega
          rw [if_pos a, if_pos b]
        · have a : ¬ (q + (r0.len : Int) ≤ x ∧ x < q + ((N + (n + 1) : Nat) : Int)) := by
            omega
          rw [if_neg a, if_neg b]
    rw [e1]
    rfl

/-- An `_sa` routine whose stencil never reads below `q + i` commits, at every index of
`[q + len, q + len + N)`, the stencil value of the original frame. -/
theorem sa_result (S : Img → Nat → ℚ) (m0 : Img) (r0 : ring_buf_f32_s) (q : Int) (N : Nat)
    (hpos : r0.pos < r0.len) (hN : r0.len ≤ N)
    (hloc : ∀ (img : Img) (i : Nat), i < N → (∀ x, q + i ≤ x → img x = m0 x) →
      S img i = S m0 i)
    (k : Int) (hk1 : q + r0.len ≤ k) (hk2 : k < q + r0.len + N) :
    (saDrain (q + N) r0.len
      ((saMain S q N (m0, r0, (r0.len : Int))).1,
        (saMain S q N (m0, r0, (r0.len : Int))).2.1)).1 k
      = S m0 (k - (q + r0.len)).toNat := by
  have hloc2 : ∀ (img : Img) (i : Nat), i < N → (∀ x, q + i ≤ x → img x = m0 x) →
      S img i = (fun j => if j < N then S m0 j else 0) i := by
    intro img i hi hx
    simp only [if_pos hi]
    exact hloc img i hi hx
  rw [saMain_eq S m0 r0 q (fun j => if j < N then S m0 j else 0) N hpos hloc2 N le_rfl]
  simp only []
  rw [saDrain_eq m0 r0 q (fun j => if j < N then S m0 j else 0) N hpos hN
    (fun j hj => if_neg (by omega)) r0.len]
  simp only [saImg]
  have a : q + (r0.len : Int) ≤ k ∧ k < q + ((N + r0.len : Nat) : Int) := by
    constructor <;> omega
  rw [if_pos a]
  have b : (k - (q + (r0.len : Int))).toNat < N := by omega
  rw [if_pos b]

theorem img_fir_sqr3_sa_shape (W H : Int) (img_inout coff : Img) (rbuf : ring_buf_f32_s) :
    img_fir_sqr3_sa W H img_inout coff rbuf
      = saDrain (0 + W + 1 - 3 * W
          + tripCount (0 + W + 1 - 3 * W) (0 + W * (H - 1) - 1 - 3 * W))
        (tripCount 0 (3 * W))
        ((saMain (sqr3Sum W coff) (0 + W + 1 - 3 * W)
            (tripCount (0 + W + 1 - 3 * W) (0 + W * (H - 1) - 1 - 3 * W))
            (img_inout, rbuf, 3 * W)).1,
         (saMain (sqr3Sum W coff) (0 + W + 1 - 3 * W)
            (tripCount (0 + W + 1 - 3 * W) (0 + W * (H - 1) - 1 - 3 * W))
            (img_inout, rbuf, 3 * W)).2.1) := rfl

theorem sqr3Sum_local (W : Int) (coff m0 img : Img) (i : Nat) (hW : 0 ≤ W)
    (h : ∀ x : Int, (i : Int) ≤ x → img x = m0 x) :
    sqr3Sum W coff img i = sqr3Sum W coff m0 i := by
  unfold sqr3Sum
  rw [h (0 + i) (by omega), h (0 + 1 + i) (by omega), h (0 + 2 + i) (by omega),
    h (0 + W + i) (by omega), h (0 + W + 1 + i) (by omega), h (0 + W + 2 + i) (by omega),
    h (0 + 2 * W + i) (by omega), h (0 + 2 * W + 1 + i) (by omega),
    h (0 + 2 * W + 2 + i) (by omega)]

/-- Every index of the run `[W+1, W*(H-1)-1)` of `img_fir_sqr3` holds the 3x3 sum. -/
theorem img_fir_sqr3_run (W H : Int) (img_out img_in coff : Img) (k : Int)
    (h1 : W + 1 ≤ k) (h2 : k < W * (H - 1) - 1) :
    img_fir_sqr3 W H img_out img_in coff k = sqr3Sum W coff img_in (k - (W + 1)).toNat := by
  have e : img_fir_sqr3 W H img_out img_in coff
      = forLoop (fun i m => store m (0 + W + 1 + (i : Int)) (sqr3Sum W coff img_in i))
          (tripCount (0 + W + 1) (0 + W * (H - 1) - 1)) img_out := rfl
  rw [e, forLoop_store (fun i => sqr3Sum W coff img_in i)]
  have hr : 0 + W + 1 ≤ k
      ∧ k < 0 + W + 1 + ((tripCount (0 + W + 1) (0 + W * (H - 1) - 1) : Nat) : Int) := by
    unfold tripCount
    constructor <;> omega
  rw [if_pos hr]
  congr 2
  omega

/-- With a delay line of capacity `3*W`, the in-place 3x3 FIR commits the out-of-place
value at every index of `[W+1, W*(H-1)-1)`. -/
theorem img_fir_sqr3_sa_run (W H : Int) (img coff : Img) (rbuf : ring_buf_f32_s)
    (hW : 2 ≤ W) (hH : 6 ≤ H) (hcap : (rbuf.len : Int) = 3 * W) (hpos : rbuf.pos < rbuf.len)
    (k : Int) (hk1 : W + 1 ≤ k) (hk2 : k < W * (H - 1) - 1) :
    (img_fir_sqr3_sa W H img coff rbuf).1 k = sqr3Sum W coff img (k - (W + 1)).toNat := by
  have hWH : 4 * W + 2 ≤ W * (H - 1) := by
    nlinarith [mul_nonneg (show (0 : Int) ≤ W - 2 by omega) (show (0 : Int) ≤ H - 6 by omega)]
  rw [img_fir_sqr3_sa_shape]
  have hc : tripCount 0 (3 * W) = rbuf.len := by
    unfold tripCount
    omega
  rw [hc, ← hcap]
  have hq : 0 + W + 1 - (rbuf.len : Int) + (rbuf.len : Int) = W + 1 := by ring
  have key := sa_result (sqr3Sum W coff) img rbuf (0 + W + 1 - (rbuf.len : Int))
    (tripCount (0 + W + 1 - (rbuf.len : Int)) (0 + W * (H - 1) - 1 - (rbuf.len : Int)))
    hpos (by unfold tripCount; omega)
    (fun im i _ hx => sqr3Sum_local W coff img im i (by omega)
      (fun x hx2 => hx x (by omega)))
    k (by omega) (by unfold tripCount; omega)
  rw [key, hq]

/-- Claim C1: for `W ≥ 2`, `H ≥ 6` and a delay line that is a FIFO of capacity exactly
`3*W`, the buffer left by `img_fir_sqr3_sa` equals the output of `img_fir_sqr3` on the
original frame at every flat index `k` with `4*W+1 ≤ k < W*(H-1)-1`. -/
theorem img_fir_sqr3_sa_matches_img_fir_sqr3 (W H : Int) (img_out img coff : Img)
    (rbuf : ring_buf_f32_s) (hW : 2 ≤ W) (hH : 6 ≤ H)
    (hcap : (rbuf.len : Int) = 3 * W) (hpos : rbuf.pos < rbuf.len)
    (k : Int) (hk1 : 4 * W + 1 ≤ k) (hk2 : k < W * (H - 1) - 1) :
    (img_fir_sqr3_sa W H img coff rbuf).1 k = img_fir_sqr3 W H img_out img coff k := by
  rw [img_fir_sqr3_sa_run W H img coff rbuf hW hH hcap hpos k (by omega) hk2,
    img_fir_sqr3_run W H img_out img coff k (by omega) hk2]

/-- Witness for C1: a 2x7 frame, a 6-slot delay line with its cursor at slot 4, flat
index 9. -/
theorem img_fir_sqr3_sa_matches_img_fir_sqr3_witness :
    (2 : Int) ≤ 2 ∧ (6 : Int) ≤ 7 ∧ ((6 : Nat) : Int) = 3 * 2 ∧ 4 < 6 ∧
    (4 : Int) * 2 + 1 ≤ 9 ∧ (9 : Int) < 2 * (7 - 1) - 1 ∧
    (img_fir_sqr3_sa 2 7 (fun i => i) (fun i => i + 1) ⟨fun _ => 5, 6, 4⟩).1 9
      = img_fir_sqr3 2 7 (fun _ => 0) (fun i => i) (fun i => i + 1) 9 :=
  ⟨by decide, by decide, by decide, by decide, by decide, by decide,
    img_fir_sqr3_sa_matches_img_fir_sqr3 2 7 (fun _ => 0) (fun i => i) (fun i => i + 1)
      ⟨fun _ => 5, 6, 4⟩ (by decide) (by decide) (by decide) (by decide) 9
      (by decide) (by decide)⟩

/-! ## Temporal filters: what one call computes -/

/-- A whole-frame loop storing `g i` at pixel `i` leaves `g p` at every pixel `p`. -/
theorem frame_loop_at (W H : Int) (g : Int → ℚ) (m : Img) (p : Int)
    (h0 : 0 ≤ p) (h1 : p < W * H) :
    forLoop (fun i m => store m (0 + (i : Int)) (g i)) (tripCount 0 (0 + W * H)) m p = g p := by
  rw [forLoop_store (fun i : Nat => g i)]
  have hr : (0 : Int) ≤ p ∧ p < 0 + ((tripCount 0 (0 + W * H) : Nat) : Int) := by
    unfold tripCount
    constructor <;> omega
  rw [if_pos hr]
  have e : (((p - 0).toNat : Nat) : Int) = p := by omega
  rw [e]

/-- On a non-negative rotation index the C remainder is the mathematical one. -/
theorem tmod_four (s k : Int) (hs : 0 ≤ s) (hk : 0 ≤ k) :
    Int.tmod (s + k) 4 = (s + k) % 4 :=
  Int.tmod_eq_emod (by omega) (by decide)

theorem img_mid5_t_raw_at (W H : Int) (img_out i0 i1 i2 i3 i4 : Img) (p : Int)
    (h0 : 0 ≤ p) (h1 : p < W * H) :
    img_mid5_t_raw W H img_out i0 i1 i2 i3 i4 p = mid5 (i0 p) (i1 p) (i2 p) (i4 p) (i4 p) :=
  frame_loop_at W H (fun i => mid5 (i0 i) (i1 i) (i2 i) (i4 i) (i4 i)) img_out p h0 h1

theorem img_max5_t_raw_at (W H : Int) (img_out i0 i1 i2 i3 i4 : Img) (p : Int)
    (h0 : 0 ≤ p) (h1 : p < W * H) :
    img_max5_t_raw W H img_out i0 i1 i2 i3 i4 p = max5 (i0 p) (i1 p) (i2 p) (i4 p) (i4 p) :=
  frame_loop_at W H (fun i => max5 (i0 i) (i1 i) (i2 i) (i4 i) (i4 i)) img_out p h0 h1

theorem img_fb_mid3_t_raw_at (W H : Int) (img_out i0 i1 i2 i3 i4 : Img) (th : ℚ) (p : Int)
    (h0 : 0 ≤ p) (h1 : p < W * H) :
    img_fb_mid3_t_raw W H img_out i0 i1 i2 i3 i4 th p
      = if |MID3 (i0 p) (i1 p) (i2 p) - MID3 (i2 p) (i4 p) (i4 p)| > th then i2 p
        else mid5 (i0 p) (i1 p) (i2 p) (i4 p) (i4 p) := by
  have e : img_fb_mid3_t_raw W H img_out i0 i1 i2 i3 i4 th
      = forLoop (fun i m => store m (0 + (i : Int))
          ((fun j : Int => if |MID3 (i0 j) (i1 j) (i2 j) - MID3 (i2 j) (i4 j) (i4 j)| > th
            then i2 j else mid5 (i0 j) (i1 j) (i2 j) (i4 j) (i4 j)) i))
          (tripCount 0 (0 + W * H)) img_out := by
    unfold img_fb_mid3_t_raw
    simp only []
    congr 1
    funext i m
    split_ifs <;> rfl
  rw [e]
  exact frame_loop_at W H (fun j : Int =>
    if |MID3 (i0 j) (i1 j) (i2 j) - MID3 (i2 j) (i4 j) (i4 j)| > th
      then i2 j else mid5 (i0 j) (i1 j) (i2 j) (i4 j) (i4 j)) img_out p h0 h1

/-- One call of `img_mid5_t`: the output pixel is `mid5` of history slots `s`, `s+1`,
`s+2` and twice the new frame. -/
theorem img_mid5_t_at (W H : Int) (img_out img_buf img_in : Img) (s p : Int)
    (hs : 0 ≤ s) (h0 : 0 ≤ p) (h1 : p < W * H) :
    (img_mid5_t W H img_out img_buf img_in s).1 p
      = mid5 (img_buf (IMG_SZ W H * s + p)) (img_buf (IMG_SZ W H * ((s + 1) % 4) + p))
          (img_buf (IMG_SZ W H * ((s + 2) % 4) + p)) (img_in p) (img_in p) := by
  unfold img_mid5_t
  simp only []
  rw [img_mid5_t_raw_at W H _ _ _ _ _ _ p h0 h1]
  simp only [shift, tmod_four s 1 hs (by decide), tmod_four s 2 hs (by decide)]

/-- One call of `img_max5_t`: the output pixel is `max5` of history slots `s`, `s+1`,
`s+2` and twice the new frame. -/
theorem img_max5_t_at (W H : Int) (img_out img_buf img_in : Img) (s p : Int)
    (hs : 0 ≤ s) (h0 : 0 ≤ p) (h1 : p < W * H) :
    (img_max5_t W H img_out img_buf img_in s).1 p
      = max5 (img_buf (IMG_SZ W H * s + p)) (img_buf (IMG_SZ W H * ((s + 1) % 4) + p))
          (img_buf (IMG_SZ W H * ((s + 2) % 4) + p)) (img_in p) (img_in p) := by
  unfold img_max5_t
  simp only []
  rw [img_max5_t_raw_at W H _ _ _ _ _ _ p h0 h1]
  simp only [shift, tmod_four s 1 hs (by decide), tmod_four s 2 hs (by decide)]

/-- One call of `img_min5_t`: the output pixel is `max5` of history slots `s`, `s+1`,
`s+2` and twice the new frame. -/
theorem img_min5_t_at (W H : Int) (img_out img_buf img_in : Img) (s p : Int)
    (hs : 0 ≤ s) (h0 : 0 ≤ p) (h1 : p < W * H) :
    (img_min5_t W H img_out img_buf img_in s).1 p
      = max5 (img_buf (IMG_SZ W H * s + p)) (img_buf (IMG_SZ W H * ((s + 1) % 4) + p))
          (img_buf (IMG_SZ W H * ((s + 2) % 4) + p)) (img_in p) (img_in p) := by
  unfold img_min5_t
  simp only []
  rw [img_max5_t_raw_at W H _ _ _ _ _ _ p h0 h1]
  simp only [shift, tmod_four s 1 hs (by decide), tmod_four s 2 hs (by decide)]

/-- One call of `img_fb_mid3_t`, with `f0`, `f1`, `f2` the history slots `s`, `s+1`, `s+2`
and `f4` the new frame: slot `s+3` is not read. -/
theorem img_fb_mid3_t_at (W H : Int) (img_out img_buf img_in : Img) (th : ℚ) (s p : Int)
    (hs : 0 ≤ s) (h0 : 0 ≤ p) (h1 : p < W * H) :
    (img_fb_mid3_t W H img_out img_buf img_in th s).1 p
      = if |MID3 (img_buf (IMG_SZ W H * s + p)) (img_buf (IMG_SZ W H * ((s + 1) % 4) + p))
              (img_buf (IMG_SZ W H * ((s + 2) % 4) + p))
            - MID3 (img_buf (IMG_SZ W H * ((s + 2) % 4) + p)) (img_in p) (img_in p)| > th
        then img_buf (IMG_SZ W H * ((s + 2) % 4) + p)
        else mid5 (img_buf (IMG_SZ W H * s + p)) (img_buf (IMG_SZ W H * ((s + 1) % 4) + p))
          (img_buf (IMG_SZ W H * ((s + 2) % 4) + p)) (img_in p) (img_in p) := by
  unfold img_fb_mid3_t
  simp only []
  rw [img_fb_mid3_t_raw_at W H _ _ _ _ _ _ th p h0 h1]
  simp only [shift, tmod_four s 1 hs (by decide), tmod_four s 2 hs (by decide)]

/-! ## History rotation -/

theorem img_copy_inside (b x : Img) (off n y : Int) (h1 : off ≤ y) (h2 : y < off + n) :
    img_copy b off x n y = x (y - off) := by
  unfold img_copy
  rw [if_pos ⟨h1, h2⟩]

theorem img_copy_outside (b x : Img) (off n y : Int) (h : ¬ (off ≤ y ∧ y < off + n)) :
    img_copy b off x n y = b y := by
  unfold img_copy
  rw [if_neg h]

/-- Pixels of two different history slots have different offsets. -/
theorem slot_outside (SZ j s p : Int) (hne : j ≠ s) (h0 : 0 ≤ p) (h1 : p < SZ) :
    ¬ (SZ * s ≤ SZ * j + p ∧ SZ * j + p < SZ * s + SZ) := by
  intro h
  rcases lt_or_gt_of_ne hne with hlt | hgt
  · have : SZ * (j + 1) ≤ SZ * s := by
      apply mul_le_mul_of_nonneg_left (by omega) (by omega)
    have e : SZ * (j + 1) = SZ * j + SZ := by ring
    omega
  · have : SZ * (s + 1) ≤ SZ * j := by
      apply mul_le_mul_of_nonneg_left (by omega) (by omega)
    have e : SZ * (s + 1) = SZ * s + SZ := by ring
    omega

theorem img_mid5_t_buf (W H : Int) (img_out img_buf img_in : Img) (s : Int) :
    (img_mid5_t W H img_out img_buf img_in s).2.1
      = img_copy img_buf (IMG_SZ W H * s) img_in (IMG_SZ W H) := rfl

theorem img_mid5_t_state (W H : Int) (img_out img_buf img_in : Img) (s : Int) (hs : 0 ≤ s) :
    (img_mid5_t W H img_out img_buf img_in s).2.2 = (s + 1) % 4 :=
  tmod_four s 1 hs (by decide)

/-- After `n` calls from rotation index `s`, the index is `(s + n) mod 4` and each of the
last four frames sits in the slot that was the oldest when it came in. -/
theorem img_mid5_t_calls_inv (W H : Int) (x : Nat → Img) (img_out img_buf : Img) (s : Int)
    (hs0 : 0 ≤ s) (hs4 : s < 4) (n : Nat) :
    (img_mid5_t_calls W H x n (img_out, img_buf, s)).2.2 = (s + n) % 4 ∧
    ∀ j : Nat, 1 ≤ j → j ≤ n → n < j + 4 → ∀ p : Int, 0 ≤ p → p < IMG_SZ W H →
      (img_mid5_t_calls W H x n (img_out, img_buf, s)).2.1
        (IMG_SZ W H * ((s + j - 1) % 4) + p) = x j p := by
  induction n with
  | zero =>
    constructor
    · show s = (s + ((0 : Nat) : Int)) % 4
      omega
    · intro j hj1 hj2
      omega
  | succ n ih =>
    obtain ⟨ihs, ihb⟩ := ih
    have hst : (img_mid5_t_calls W H x (n + 1) (img_out, img_buf, s)).2.2
        = (s + ((n + 1 : Nat) : Int)) % 4 := by
      show (img_mid5_t W H _ _ _ _).2.2 = _
      rw [img_mid5_t_state W H _ _ _ _ (by rw [ihs]; omega), ihs]
      omega
    refine ⟨hst, ?_⟩
    intro j hj1 hj2 hj3 p hp0 hp1
    show (img_mid5_t W H _ _ _ _).2.1 _ = _
    rw [img_mid5_t_buf, ihs]
    by_cases hj : j = n + 1
    · subst hj
      have e : (s + ((n + 1 : Nat) : Int) - 1) % 4 = (s + (n : Int)) % 4 := by
        congr 1
        omega
      rw [e, img_copy_inside _ _ _ _ _ (by omega) (by omega)]
      congr 1
      omega
    · have hne : (s + (j : Int) - 1) % 4 ≠ (s + (n : Int)) % 4 := by omega
      rw [img_copy_outside _ _ _ _ _ (slot_outside _ _ _ p hne hp0 hp1)]
      exact ihb j hj1 (by omega) (by omega) p hp0 hp1

/-- Claim C2: one call of `img_mid5_t` with `*state = s` in `[0,4)` overwrites history
slot `s` with the new frame, leaves the other three slots unchanged and sets `*state` to
`(s+1) mod 4`, which is again in `[0,4)`; and after `n ≥ 4` consecutive calls with inputs
`x 1, ..., x n`, the slots `(state+0) mod 4, ..., (state+3) mod 4` hold
`x (n-3), x (n-2), x (n-1), x n` in that order. -/
theorem img_mid5_t_rotation (W H : Int) (img_out img_buf img_in : Img) (s : Int)
    (hs0 : 0 ≤ s) (hs4 : s < 4) :
    (∀ p : Int, 0 ≤ p → p < IMG_SZ W H →
      (img_mid5_t W H img_out img_buf img_in s).2.1 (IMG_SZ W H * s + p) = img_in p) ∧
    (∀ j : Int, 0 ≤ j → j < 4 → j ≠ s → ∀ p : Int, 0 ≤ p → p < IMG_SZ W H →
      (img_mid5_t W H img_out img_buf img_in s).2.1 (IMG_SZ W H * j + p)
        = img_buf (IMG_SZ W H * j + p)) ∧
    (img_mid5_t W H img_out img_buf img_in s).2.2 = (s + 1) % 4 ∧
    (0 ≤ (img_mid5_t W H img_out img_buf img_in s).2.2 ∧
      (img_mid5_t W H img_out img_buf img_in s).2.2 < 4) ∧
    (∀ (x : Nat → Img) (n : Nat), 4 ≤ n → ∀ i : Nat, i < 4 →
      ∀ p : Int, 0 ≤ p → p < IMG_SZ W H →
        (img_mid5_t_calls W H x n (img_out, img_buf, s)).2.1
          (IMG_SZ W H * (((img_mid5_t_calls W H x n (img_out, img_buf, s)).2.2 + i) % 4) + p)
          = x (n - 3 + i) p) := by
  have hst := img_mid5_t_state W H img_out img_buf img_in s hs0
  refine ⟨?_, ?_, hst, ?_, ?_⟩
  · intro p hp0 hp1
    rw [img_mid5_t_buf, img_copy_inside _ _ _ _ _ (by omega) (by omega)]
    congr 1
    omega
  · intro j _ _ hne p hp0 hp1
    rw [img_mid5_t_buf, img_copy_outside _ _ _ _ _ (slot_outside _ _ _ p hne hp0 hp1)]
  · rw [hst]
    omega
  · intro x n hn i hi p hp0 hp1
    obtain ⟨hs, hb⟩ := img_mid5_t_calls_inv W H x img_out img_buf s hs0 hs4 n
    have e : ((img_mid5_t_calls W H x n (img_out, img_buf, s)).2.2 + (i : Int)) % 4
        = (s + ((n - 3 + i : Nat) : Int) - 1) % 4 := by
      rw [hs]
      omega
    rw [e]
    exact hb (n - 3 + i) (by omega) (by omega) (by omega) p hp0 hp1

/-- Witness for C2: a 1x1 frame with rotation index 2. -/
theorem img_mid5_t_rotation_witness :
    (0 : Int) ≤ 2 ∧ (2 : Int) < 4 ∧
    ((∀ p : Int, 0 ≤ p → p < IMG_SZ 1 1 →
      (img_mid5_t 1 1 (fun _ => 0) (fun i => i) (fun _ => 9) 2).2.1 (IMG_SZ 1 1 * 2 + p)
        = (fun _ => (9 : ℚ)) p) ∧
    (∀ j : Int, 0 ≤ j → j < 4 → j ≠ 2 → ∀ p : Int, 0 ≤ p → p < IMG_SZ 1 1 →
      (img_mid5_t 1 1 (fun _ => 0) (fun i => i) (fun _ => 9) 2).2.1 (IMG_SZ 1 1 * j + p)
        = (fun i : Int => (i : ℚ)) (IMG_SZ 1 1 * j + p)) ∧
    (img_mid5_t 1 1 (fun _ => 0) (fun i => i) (fun _ => 9) 2).2.2 = (2 + 1) % 4 ∧
    (0 ≤ (img_mid5_t 1 1 (fun _ => 0) (fun i => i) (fun _ => 9) 2).2.2 ∧
      (img_mid5_t 1 1 (fun _ => 0) (fun i => i) (fun _ => 9) 2).2.2 < 4) ∧
    (∀ (x : Nat → Img) (n : Nat), 4 ≤ n → ∀ i : Nat, i < 4 →
      ∀ p : Int, 0 ≤ p → p < IMG_SZ 1 1 →
        (img_mid5_t_calls 1 1 x n ((fun _ => 0), (fun i => i), 2)).2.1
          (IMG_SZ 1 1 *
            (((img_mid5_t_calls 1 1 x n ((fun _ => 0), (fun i => i), 2)).2.2 + i) % 4) + p)
          = x (n - 3 + i) p)) :=
  ⟨by decide, by decide,
    img_mid5_t_rotation 1 1 (fun _ => 0) (fun i => i) (fun _ => 9) 2 (by decide) (by decide)⟩

/-- Claim C3 fails on the code: with history slots holding 1, 2, 3, 0 (oldest first) and
the new frame 5, `img_mid5_t` outputs 3, whereas the median of 1, 2, 3, 0, 5 is 2. -/
theorem img_mid5_t_skips_newest_slot :
    (img_mid5_t 1 1 (fun _ => 0)
        (fun i => if i = 0 then 1 else if i = 1 then 2 else if i = 2 then 3 else 0)
        (fun _ => 5) 0).1 0 = 3
    ∧ mid5 1 2 3 0 5 = 2 := by
  rw [img_mid5_t_at 1 1 _ _ _ 0 0 (by decide) (by decide) (by decide)]
  constructor
  · norm_num [IMG_SZ, mid5, List.insertionSort, List.orderedInsert]
  · norm_num [mid5, List.insertionSort, List.orderedInsert]

/-- Claim C4 fails on the code: with history slots holding 1, 2, 3, 4 and the new frame 5,
`img_min5_t` outputs 5, whereas the minimum of the five values is 1. -/
theorem img_min5_t_returns_maximum :
    (img_min5_t 1 1 (fun _ => 0)
        (fun i => if i = 0 then 1 else if i = 1 then 2 else if i = 2 then 3 else 4)
        (fun _ => 5) 0).1 0 = 5
    ∧ min5 1 2 3 4 5 = 1 := by
  rw [img_min5_t_at 1 1 _ _ _ 0 0 (by decide) (by decide) (by decide)]
  constructor
  · norm_num [IMG_SZ, max5]
  · norm_num [min5]

/-- Claim C5 fails on the code: with history slots holding 0, 0, 0, 10 and the new frame 0,
`img_max5_t` outputs 0, whereas the maximum of the five values is 10. -/
theorem img_max5_t_skips_newest_slot :
    (img_max5_t 1 1 (fun _ => 0)
        (fun i => if i = 3 then 10 else 0)
        (fun _ => 0) 0).1 0 = 0
    ∧ max5 0 0 0 10 0 = 10 := by
  rw [img_max5_t_at 1 1 _ _ _ 0 0 (by decide) (by decide) (by decide)]
  constructor
  · norm_num [IMG_SZ, max5]
  · norm_num [max5]

/-- Claim C6 fails on the code: with history slots holding 0, 1, 5, 0, the new frame 3 and
threshold 10, `img_fb_mid3_t` outputs 3, whereas `a = med3(0,1,5) = 1`,
`b = med3(5,0,3) = 3`, `|a-b| ≤ 10` and `med5(0,1,5,0,3) = 1`. -/
theorem img_fb_mid3_t_skips_newest_slot :
    (img_fb_mid3_t 1 1 (fun _ => 0)
        (fun i => if i = 0 then 0 else if i = 1 then 1 else if i = 2 then 5 else 0)
        (fun _ => 3) 10 0).1 0 = 3
    ∧ (if |MID3 0 1 5 - MID3 5 0 3| > 10 then (5 : ℚ) else mid5 0 1 5 0 3) = 1 := by
  rw [img_fb_mid3_t_at 1 1 _ _ _ 10 0 0 (by decide) (by decide) (by decide)]
  constructor
  · norm_num [IMG_SZ, MID3, mid5, List.insertionSort, List.orderedInsert, abs_of_nonpos]
  · norm_num [MID3, mid5, List.insertionSort, List.orderedInsert, abs_of_nonpos]

/-! ## Second-order section -/

/-- What `img_iir_sos` leaves at pixel `p` in the three buffers it writes, with
`y = b1*in[p] + st1[p]` the section output before scaling. -/
theorem img_iir_sos_at (W H : Int) (img_out img_in img_st1 img_st2 coff : Img) (p : Int)
    (h0 : 0 ≤ p) (h1 : p < W * H) :
    (img_iir_sos W H img_out img_in img_st1 img_st2 coff).1 p
      = (img_in p * coff 0 + img_st1 p) * coff 5 ∧
    (img_iir_sos W H img_out img_in img_st1 img_st2 coff).2.1 p
      = img_in p * coff 1 + img_st2 p + (img_in p * coff 0 + img_st1 p) * (-coff 3) ∧
    (img_iir_sos W H img_out img_in img_st1 img_st2 coff).2.2 p
      = img_in p * coff 2 + (img_in p * coff 0 + img_st1 p) * (-coff 4) := by
  have hp : 0 ≤ p ∧ p < IMG_SZ W H := ⟨h0, h1⟩
  refine ⟨?_, ?_, ?_⟩ <;>
    simp only [img_iir_sos, img_mul_f32, img_cum, img_mac, img_prod_f32, if_pos hp]

/-- Claim C7: the frame returned by `img_iir_sos` satisfies
`out[p] = scale*(b1*in[p] + st1_old[p])` at every pixel `p`. -/
theorem img_iir_sos_output (W H : Int) (img_out img_in img_st1 img_st2 coff : Img) (p : Int)
    (h0 : 0 ≤ p) (h1 : p < W * H) :
    (img_iir_sos W H img_out img_in img_st1 img_st2 coff).1 p
      = coff 5 * (coff 0 * img_in p + img_st1 p) := by
  rw [(img_iir_sos_at W H img_out img_in img_st1 img_st2 coff p h0 h1).1]
  ring

/-- Witness for C7: a 1x1 frame. -/
theorem img_iir_sos_output_witness :
    (0 : Int) ≤ 0 ∧ (0 : Int) < 1 * 1 ∧
    (img_iir_sos 1 1 (fun _ => 0) (fun _ => 1) (fun _ => 2) (fun _ => 3) (fun i => i)).1 0
      = (fun i : Int => (i : ℚ)) 5
        * ((fun i : Int => (i : ℚ)) 0 * (fun _ => (1 : ℚ)) 0 + (fun _ => (2 : ℚ)) 0) :=
  ⟨by decide, by decide,
    img_iir_sos_output 1 1 (fun _ => 0) (fun _ => 1) (fun _ => 2) (fun _ => 3) (fun i => i) 0
      (by decide) (by decide)⟩

/-- Claim C8 as stated fails: with `{b1,b2,b3,a2,a3,scale} = {1,0,0,1,1,2}`, input 1 and zero
states on a 1x1 frame, the call returns `out = 2` and stores `st1 = -1`, not
`b2*in + st2_old - a2*out = -2`. -/
theorem img_iir_sos_state_not_from_scaled_output :
    ¬ ((img_iir_sos 1 1 (fun _ => 0) (fun _ => 1) (fun _ => 0) (fun _ => 0)
          (fun i => if i = 0 then 1 else if i = 3 then 1 else if i = 4 then 1
            else if i = 5 then 2 else 0)).2.1 0
        = 0 * 1 + 0 - 1 * (img_iir_sos 1 1 (fun _ => 0) (fun _ => 1) (fun _ => 0) (fun _ => 0)
          (fun i => if i = 0 then 1 else if i = 3 then 1 else if i = 4 then 1
            else if i = 5 then 2 else 0)).1 0) := by
  rw [(img_iir_sos_at 1 1 _ _ _ _ _ 0 (by decide) (by decide)).1,
    (img_iir_sos_at 1 1 _ _ _ _ _ 0 (by decide) (by decide)).2.1]
  norm_num

/-- Claim C8, amended: after `img_iir_sos` the persisted states satisfy, at every pixel `p`,
`st1_new[p] = b2*in[p] + st2_old[p] - a2*y[p]` and `st2_new[p] = b3*in[p] - a3*y[p]`, where
`y[p] = b1*in[p] + st1_old[p]` is the section output before scaling and the returned
`out[p]` is `scale*y[p]`. -/
theorem img_iir_sos_state_from_unscaled_output (W H : Int)
    (img_out img_in img_st1 img_st2 coff : Img) (p : Int) (h0 : 0 ≤ p) (h1 : p < W * H) :
    (img_iir_sos W H img_out img_in img_st1 img_st2 coff).2.1 p
      = coff 1 * img_in p + img_st2 p - coff 3 * (coff 0 * img_in p + img_st1 p) ∧
    (img_iir_sos W H img_out img_in img_st1 img_st2 coff).2.2 p
      = coff 2 * img_in p - coff 4 * (coff 0 * img_in p + img_st1 p) ∧
    (img_iir_sos W H img_out img_in img_st1 img_st2 coff).1 p
      = coff 5 * (coff 0 * img_in p + img_st1 p) := by
  obtain ⟨ho, h1', h2'⟩ := img_iir_sos_at W H img_out img_in img_st1 img_st2 coff p h0 h1
  rw [ho, h1', h2']
  refine ⟨by ring, by ring, by ring⟩

/-- Witness for the amended C8: a 1x1 frame. -/
theorem img_iir_sos_state_from_unscaled_output_witness :
    (0 : Int) ≤ 0 ∧ (0 : Int) < 1 * 1 ∧
    ((img_iir_sos 1 1 (fun _ => 0) (fun _ => 1) (fun _ => 2) (fun _ => 3) (fun i => i)).2.1 0
      = (fun i : Int => (i : ℚ)) 1 * (fun _ => (1 : ℚ)) 0 + (fun _ => (3 : ℚ)) 0
        - (fun i : Int => (i : ℚ)) 3
          * ((fun i : Int => (i : ℚ)) 0 * (fun _ => (1 : ℚ)) 0 + (fun _ => (2 : ℚ)) 0) ∧
    (img_iir_sos 1 1 (fun _ => 0) (fun _ => 1) (fun _ => 2) (fun _ => 3) (fun i => i)).2.2 0
      = (fun i : Int => (i : ℚ)) 2 * (fun _ => (1 : ℚ)) 0
        - (fun i : Int => (i : ℚ)) 4
          * ((fun i : Int => (i : ℚ)) 0 * (fun _ => (1 : ℚ)) 0 + (fun _ => (2 : ℚ)) 0) ∧
    (img_iir_sos 1 1 (fun _ => 0) (fun _ => 1) (fun _ => 2) (fun _ => 3) (fun i => i)).1 0
      = (fun i : Int => (i : ℚ)) 5
        * ((fun i : Int => (i : ℚ)) 0 * (fun _ => (1 : ℚ)) 0 + (fun _ => (2 : ℚ)) 0)) :=
  ⟨by decide, by decide,
    img_iir_sos_state_from_unscaled_output 1 1 (fun _ => 0) (fun _ => 1) (fun _ => 2)
      (fun _ => 3) (fun i => i) 0 (by decide) (by decide)⟩

/-! ## Weighted running average -/

theorem updFrame_zero (f g : Img) : updFrame f g 0 = f := by
  funext x
  unfold updFrame
  have : ¬ ((0 : Int) ≤ x ∧ x < ((0 : Nat) : Int)) := by omega
  rw [if_neg this]

theorem updFrame_at (f g : Img) (n : Nat) : updFrame f g n (n : Int) = f (n : Int) := by
  unfold updFrame
  have : ¬ ((0 : Int) ≤ (n : Int) ∧ (n : Int) < (n : Int)) := by omega
  rw [if_neg this]

theorem updFrame_inside (f g : Img) (n : Nat) (p : Int) (h0 : 0 ≤ p) (h1 : p < (n : Int)) :
    updFrame f g n p = g p := by
  unfold updFrame
  rw [if_pos ⟨h0, h1⟩]

theorem store_updFrame (f g : Img) (n : Nat) (v : ℚ) (hv : v = g (n : Int)) :
    store (updFrame f g n) (n : Int) v = updFrame f g (n + 1) := by
  subst hv
  funext x
  by_cases hx : x = (n : Int)
  · subst hx
    rw [store_same]
    unfold updFrame
    have : (0 : Int) ≤ (n : Int) ∧ (n : Int) < ((n + 1 : Nat) : Int) := by
      constructor <;> omega
    rw [if_pos this]
  · rw [store_other _ _ _ _ hx]
    unfold updFrame
    by_cases a : (0 : Int) ≤ x ∧ x < (n : Int)
    · have b : (0 : Int) ≤ x ∧ x < ((n + 1 : Nat) : Int) := by constructor <;> omega
      rw [if_pos a, if_pos b]
    · have b : ¬ ((0 : Int) ≤ x ∧ x < ((n + 1 : Nat) : Int)) := by omega
      rw [if_neg a, if_neg b]

theorem img_weighted_iir_step_eq (out inp numer w denom : Img) (alpha : ℚ) (n : Nat) :
    img_weighted_iir_step inp w alpha n
        { img_out := updFrame out (wOut numer denom w inp alpha) n,
          img_in_w_avg := updFrame numer (wNumer numer w inp alpha) n,
          img_w_avg := updFrame denom (wDenom denom w alpha) n }
      = some
        { img_out := updFrame out (wOut numer denom w inp alpha) (n + 1),
          img_in_w_avg := updFrame numer (wNumer numer w inp alpha) (n + 1),
          img_w_avg := updFrame denom (wDenom denom w alpha) (n + 1) } := by
  unfold img_weighted_iir_step
  simp only [updFrame_at, store_same]
  have e4 : store (updFrame denom (wDenom denom w alpha) n) (n : Int)
      (denom n * alpha + (1 - alpha) * w n)
        = updFrame denom (wDenom denom w alpha) (n + 1) := store_updFrame _ _ _ _ rfl
  have e2 : store (updFrame numer (wNumer numer w inp alpha) n) (n : Int)
      (numer n * alpha + (1 - alpha) * w n * inp n)
        = updFrame numer (wNumer numer w inp alpha) (n + 1) := store_updFrame _ _ _ _ rfl
  rw [e4, e2]
  by_cases hd : denom n * alpha + (1 - alpha) * w n ≠ 0
  · rw [if_pos hd]
    have e : store (updFrame out (wOut numer denom w inp alpha) n) (n : Int)
        ((numer n * alpha + (1 - alpha) * w n * inp n) / (denom n * alpha + (1 - alpha) * w n))
          = updFrame out (wOut numer denom w inp alpha) (n + 1) := by
      apply store_updFrame
      unfold wOut wDenom wNumer
      rw [if_neg hd]
    simp only [fdiv, if_neg hd, Option.map_some', e]
  · rw [if_neg hd]
    have e : store (updFrame out (wOut numer denom w inp alpha) n) (n : Int) 0
          = updFrame out (wOut numer denom w inp alpha) (n + 1) := by
      apply store_updFrame
      unfold wOut wDenom
      rw [if_pos (not_not.mp hd)]
    rw [e]

/-- The loop of `img_weighted_iir` never divides by zero, and after `n` iterations the
pixels `[0, n)` of the three written buffers hold the new values. -/
theorem img_weighted_iir_loop (out inp numer w denom : Img) (alpha : ℚ) (n : Nat) :
    forLoopM (img_weighted_iir_step inp w alpha) n
        { img_out := out, img_in_w_avg := numer, img_w_avg := denom }
      = some
        { img_out := updFrame out (wOut numer denom w inp alpha) n,
          img_in_w_avg := updFrame numer (wNumer numer w inp alpha) n,
          img_w_avg := updFrame denom (wDenom denom w alpha) n } := by
  induction n with
  | zero => simp only [forLoopM, updFrame_zero]
  | succ n ih =>
    show (forLoopM (img_weighted_iir_step inp w alpha) n _).bind _ = _
    rw [ih, Option.some_bind, img_weighted_iir_step_eq]

/-- Claim C9: one call of `img_weighted_iir` evaluates no division by zero (it runs to a
result), and at every pixel sets `denom' = denom*alpha + (1-alpha)*weight` and
`numer' = numer*alpha + (1-alpha)*weight*input` and outputs `numer'/denom'` when `denom'`
is non-zero and exactly 0 when `denom'` is zero. -/
theorem img_weighted_iir_guarded (W H : Int) (img_out img_in img_in_w_avg img_w img_w_avg : Img)
    (alpha : ℚ) (p : Int) (h0 : 0 ≤ p) (h1 : p < W * H) :
    ∃ r : WeightedIir,
      img_weighted_iir W H img_out img_in img_in_w_avg img_w img_w_avg alpha = some r ∧
      r.img_w_avg p = img_w_avg p * alpha + (1 - alpha) * img_w p ∧
      r.img_in_w_avg p = img_in_w_avg p * alpha + (1 - alpha) * img_w p * img_in p ∧
      r.img_out p = if r.img_w_avg p = 0 then 0 else r.img_in_w_avg p / r.img_w_avg p := by
  refine ⟨_, img_weighted_iir_loop img_out img_in img_in_w_avg img_w img_w_avg alpha _, ?_⟩
  have hp : p < ((tripCount 0 (0 + IMG_SZ W H) : Nat) : Int) := by
    unfold tripCount IMG_SZ
    omega
  simp only [updFrame_inside _ _ _ p h0 hp]
  exact ⟨rfl, rfl, rfl⟩

/-- Witness for C9: a 1x1 frame whose new denominator is zero. -/
theorem img_weighted_iir_guarded_witness :
    (0 : Int) ≤ 0 ∧ (0 : Int) < 1 * 1 ∧
    ∃ r : WeightedIir,
      img_weighted_iir 1 1 (fun _ => 7) (fun _ => 3) (fun _ => 2) (fun _ => 0) (fun _ => 0)
        (1 / 2) = some r ∧
      r.img_w_avg 0 = (fun _ => (0 : ℚ)) 0 * (1 / 2) + (1 - 1 / 2) * (fun _ => (0 : ℚ)) 0 ∧
      r.img_in_w_avg 0 = (fun _ => (2 : ℚ)) 0 * (1 / 2)
        + (1 - 1 / 2) * (fun _ => (0 : ℚ)) 0 * (fun _ => (3 : ℚ)) 0 ∧
      r.img_out 0 = if r.img_w_avg 0 = 0 then 0 else r.img_in_w_avg 0 / r.img_w_avg 0 :=
  ⟨by decide, by decide,
    img_weighted_iir_guarded 1 1 (fun _ => 7) (fun _ => 3) (fun _ => 2) (fun _ => 0)
      (fun _ => 0) (1 / 2) 0 (by decide) (by decide)⟩

/-- Every flat index of the written run of `img_fir_cross` holds the cross-stencil sum. -/
theorem img_fir_cross_run (W H : Int) (img_out img_in coff : Img) (k : Int)
    (h1 : W + 1 ≤ k) (h2 : k < W * (H - 1) - 1) :
    img_fir_cross W H img_out img_in coff k
      = coff 0 * img_in (k - W) + coff 1 * img_in (k - 1) + coff 2 * img_in k
        + coff 3 * img_in (k + 1) + coff 4 * img_in (k + W) := by
  unfold img_fir_cross
  simp only []
  rw [forLoop_store (fun i => img_in (0 + 1 + (i : Int)) * coff 0
      + img_in (0 + 1 + W - 1 + (i : Int)) * coff 1
      + img_in (0 + 1 + W + (i : Int)) * coff 2
      + img_in (0 + 1 + W + 1 + (i : Int)) * coff 3
      + img_in (0 + 1 + W + W + (i : Int)) * coff 4)]
  have hr : 0 + W + 1 ≤ k ∧ k < 0 + W + 1 + ((tripCount (0 + W + 1) (0 + W * (H - 1) - 1) : Nat) : Int) := by
    unfold tripCount
    constructor <;> omega
  rw [if_pos hr]
  have hk : (((k - (0 + W + 1)).toNat : Nat) : Int) = k - (W + 1) := by omega
  simp only [hk]
  have e0 : 0 + 1 + (k - (W + 1)) = k - W := by ring
  have e1 : 0 + 1 + W - 1 + (k - (W + 1)) = k - 1 := by ring
  have e2 : 0 + 1 + W + (k - (W + 1)) = k := by ring
  have e3 : 0 + 1 + W + 1 + (k - (W + 1)) = k + 1 := by ring
  have e4 : 0 + 1 + W + W + (k - (W + 1)) = k + W := by ring
  rw [e0, e1, e2, e3, e4]
  ring

/-- Claim C10: after `img_fir_cross(out, in, c)` every interior pixel (row `r` in `1..H-2`,
column `c` in `1..W-2`, flat index `k = r*W + c`) holds
`c[0]*in[k-W] + c[1]*in[k-1] + c[2]*in[k] + c[3]*in[k+1] + c[4]*in[k+W]`. -/
theorem img_fir_cross_interior (W H : Int) (img_out img_in coff : Img) (r c : Int)
    (hr1 : 1 ≤ r) (hr2 : r ≤ H - 2) (hc1 : 1 ≤ c) (hc2 : c ≤ W - 2) :
    img_fir_cross W H img_out img_in coff (r * W + c)
      = coff 0 * img_in (r * W + c - W) + coff 1 * img_in (r * W + c - 1)
        + coff 2 * img_in (r * W + c) + coff 3 * img_in (r * W + c + 1)
        + coff 4 * img_in (r * W + c + W) := by
  have hW : 0 ≤ W := by omega
  have ha : W ≤ r * W := by nlinarith
  have hb : r * W ≤ (H - 2) * W := by nlinarith
  apply img_fir_cross_run
  · omega
  · have : (H - 2) * W = W * (H - 1) - W := by ring
    omega

/-- Witness for C10: the centre pixel of a 3x3 frame. -/
theorem img_fir_cross_interior_witness :
    (1 : Int) ≤ 1 ∧ (1 : Int) ≤ 3 - 2 ∧
    img_fir_cross 3 3 (fun _ => 0) (fun i => i) (fun _ => 1) (1 * 3 + 1)
      = (fun _ => (1 : ℚ)) 0 * (fun i : Int => (i : ℚ)) (1 * 3 + 1 - 3)
        + (fun _ => (1 : ℚ)) 1 * (fun i : Int => (i : ℚ)) (1 * 3 + 1 - 1)
        + (fun _ => (1 : ℚ)) 2 * (fun i : Int => (i : ℚ)) (1 * 3 + 1)
        + (fun _ => (1 : ℚ)) 3 * (fun i : Int => (i : ℚ)) (1 * 3 + 1 + 1)
        + (fun _ => (1 : ℚ)) 4 * (fun i : Int => (i : ℚ)) (1 * 3 + 1 + 3) :=
  ⟨by decide, by decide,
    img_fir_cross_interior 3 3 (fun _ => 0) (fun i => i) (fun _ => 1) 1 1
      (by decide) (by decide) (by decide) (by decide)⟩

/-! ## 3x3 FIR: interior and border -/

/-- The 3x3 sum of iteration `k - (W+1)`, written with the neighbours of flat index `k`. -/
theorem sqr3Sum_at (W : Int) (coff img : Img) (k : Int) (h : W + 1 ≤ k) :
    sqr3Sum W coff img (k - (W + 1)).toNat
      = coff 0 * img (k - W - 1) + coff 1 * img (k - W) + coff 2 * img (k - W + 1)
        + coff 3 * img (k - 1) + coff 4 * img k + coff 5 * img (k + 1)
        + coff 6 * img (k + W - 1) + coff 7 * img (k + W) + coff 8 * img (k + W + 1) := by
  unfold sqr3Sum
  have hk : (((k - (W + 1)).toNat : Nat) : Int) = k - (W + 1) := by omega
  rw [hk]
  have e0 : 0 + (k - (W + 1)) = k - W - 1 := by ring
  have e1 : 0 + 1 + (k - (W + 1)) = k - W := by ring
  have e2 : 0 + 2 + (k - (W + 1)) = k - W + 1 := by ring
  have e3 : 0 + W + (k - (W + 1)) = k - 1 := by ring
  have e4 : 0 + W + 1 + (k - (W + 1)) = k := by ring
  have e5 : 0 + W + 2 + (k - (W + 1)) = k + 1 := by ring
  have e6 : 0 + 2 * W + (k - (W + 1)) = k + W - 1 := by ring
  have e7 : 0 + 2 * W + 1 + (k - (W + 1)) = k + W := by ring
  have e8 : 0 + 2 * W + 2 + (k - (W + 1)) = k + W + 1 := by ring
  rw [e0, e1, e2, e3, e4, e5, e6, e7, e8]
  ring

/-- Flat indices of interior pixels lie in the run `[W+1, W*(H-1)-1)` of the spatial loops. -/
theorem interior_in_run (W H r c : Int) (hr1 : 1 ≤ r) (hr2 : r ≤ H - 2) (hc1 : 1 ≤ c)
    (hc2 : c ≤ W - 2) : W + 1 ≤ r * W + c ∧ r * W + c < W * (H - 1) - 1 := by
  have hW : 0 ≤ W := by omega
  have ha : W ≤ r * W := by nlinarith
  have hb : r * W ≤ (H - 2) * W := by nlinarith
  have e : (H - 2) * W = W * (H - 1) - W := by ring
  constructor <;> omega

/-- Outside the run `[W+1, W*(H-1)-1)` the output buffer of `img_fir_sqr3` is untouched. -/
theorem img_fir_sqr3_outside (W H : Int) (img_out img_in coff : Img) (k : Int)
    (h : k < W + 1 ∨ W * (H - 1) - 1 ≤ k) :
    img_fir_sqr3 W H img_out img_in coff k = img_out k := by
  have e : img_fir_sqr3 W H img_out img_in coff
      = forLoop (fun i m => store m (0 + W + 1 + (i : Int)) (sqr3Sum W coff img_in i))
          (tripCount (0 + W + 1) (0 + W * (H - 1) - 1)) img_out := rfl
  rw [e, forLoop_store (fun i => sqr3Sum W coff img_in i)]
  have hr : ¬ (0 + W + 1 ≤ k
      ∧ k < 0 + W + 1 + ((tripCount (0 + W + 1) (0 + W * (H - 1) - 1) : Nat) : Int)) := by
    unfold tripCount
    omega
  rw [if_neg hr]

/-- Claim C11: after `img_fir_sqr3(out, in, c)` every interior pixel (row `r` in `1..H-2`,
column `cl` in `1..W-2`, flat index `k = r*W + cl`) holds the sum over `a, b` in `{0,1,2}`
of `c[3*a+b] * in[k + (a-1)*W + (b-1)]`: the 3x3 neighbourhood in row-major raster order,
the kernel not flipped. -/
theorem img_fir_sqr3_interior (W H : Int) (img_out img_in coff : Img) (r cl : Int)
    (hr1 : 1 ≤ r) (hr2 : r ≤ H - 2) (hc1 : 1 ≤ cl) (hc2 : cl ≤ W - 2) :
    img_fir_sqr3 W H img_out img_in coff (r * W + cl)
      = ∑ a ∈ Finset.range 3, ∑ b ∈ Finset.range 3,
          coff (3 * (a : Int) + (b : Int))
            * img_in (r * W + cl + ((a : Int) - 1) * W + ((b : Int) - 1)) := by
  obtain ⟨h1, h2⟩ := interior_in_run W H r cl hr1 hr2 hc1 hc2
  rw [img_fir_sqr3_run W H img_out img_in coff _ h1 h2, sqr3Sum_at W coff img_in _ h1]
  simp only [Finset.sum_range_succ, Finset.sum_range_zero, zero_add]
  have e0 : r * W + cl + (((0 : Nat) : Int) - 1) * W + (((0 : Nat) : Int) - 1)
      = r * W + cl - W - 1 := by push_cast; ring
  have e1 : r * W + cl + (((0 : Nat) : Int) - 1) * W + (((1 : Nat) : Int) - 1)
      = r * W + cl - W := by push_cast; ring
  have e2 : r * W + cl + (((0 : Nat) : Int) - 1) * W + (((2 : Nat) : Int) - 1)
      = r * W + cl - W + 1 := by push_cast; ring
  have e3 : r * W + cl + (((1 : Nat) : Int) - 1) * W + (((0 : Nat) : Int) - 1)
      = r * W + cl - 1 := by push_cast; ring
  have e4 : r * W + cl + (((1 : Nat) : Int) - 1) * W + (((1 : Nat) : Int) - 1)
      = r * W + cl := by push_cast; ring
  have e5 : r * W + cl + (((1 : Nat) : Int) - 1) * W + (((2 : Nat) : Int) - 1)
      = r * W + cl + 1 := by push_cast; ring
  have e6 : r * W + cl + (((2 : Nat) : Int) - 1) * W + (((0 : Nat) : Int) - 1)
      = r * W + cl + W - 1 := by push_cast; ring
  have e7 : r * W + cl + (((2 : Nat) : Int) - 1) * W + (((1 : Nat) : Int) - 1)
      = r * W + cl + W := by push_cast; ring
  have e8 : r * W + cl + (((2 : Nat) : Int) - 1) * W + (((2 : Nat) : Int) - 1)
      = r * W + cl + W + 1 := by push_cast; ring
  rw [e0, e1, e2, e3, e4, e5, e6, e7, e8]
  norm_num
  ring


/-- Witness for C11: the centre pixel of a 3x3 frame. -/
theorem img_fir_sqr3_interior_witness :
    (1 : Int) ≤ 1 ∧ (1 : Int) ≤ 3 - 2 ∧
    img_fir_sqr3 3 3 (fun _ => 0) (fun i => i) (fun i => i + 1) (1 * 3 + 1)
      = ∑ a ∈ Finset.range 3, ∑ b ∈ Finset.range 3,
          (fun i : Int => (i : ℚ) + 1) (3 * (a : Int) + (b : Int))
            * (fun i : Int => (i : ℚ)) (1 * 3 + 1 + ((a : Int) - 1) * 3 + ((b : Int) - 1)) :=
  ⟨by decide, by decide,
    img_fir_sqr3_interior 3 3 (fun _ => 0) (fun i => i) (fun i => i + 1) 1 1
      (by decide) (by decide) (by decide) (by decide)⟩

/-- Claim C12 as stated fails: on a 3x4 frame, all ones, with all-ones coefficients and an
output buffer of zeros, the pixel in row 1 of the last column (flat index 5) is
overwritten with 9. -/
theorem img_fir_sqr3_writes_last_column :
    img_fir_sqr3 3 4 (fun _ => 0) (fun _ => 1) (fun _ => 1) (1 * 3 + 2)
      ≠ (fun _ => (0 : ℚ)) (1 * 3 + 2) := by
  rw [img_fir_sqr3_run 3 4 _ _ _ _ (by decide) (by decide),
    sqr3Sum_at 3 _ _ _ (by decide)]
  norm_num

/-- Claim C12, amended: `img_fir_sqr3` never writes row 0, row `H-1`, pixel `(1,0)` or
pixel `(H-2,W-1)` of the output buffer: each of them holds after the call exactly the value
it held before the call. -/
theorem img_fir_sqr3_border_kept (W H : Int) (img_out img_in coff : Img) (r c : Int)
    (hc0 : 0 ≤ c) (hc1 : c < W)
    (h : r = 0 ∨ r = H - 1 ∨ (r = 1 ∧ c = 0) ∨ (r = H - 2 ∧ c = W - 1)) :
    img_fir_sqr3 W H img_out img_in coff (r * W + c) = img_out (r * W + c) := by
  apply img_fir_sqr3_outside
  rcases h with h | h | ⟨h, h2⟩ | ⟨h, h2⟩
  · subst h
    left
    omega
  · subst h
    right
    have e : (H - 1) * W = W * (H - 1) := by ring
    omega
  · subst h h2
    left
    omega
  · subst h h2
    right
    have e : (H - 2) * W = W * (H - 1) - W := by ring
    omega

/-- Witness for the amended C12: the last pixel of row 0 of a 3x4 frame. -/
theorem img_fir_sqr3_border_kept_witness :
    (0 : Int) ≤ 2 ∧ (2 : Int) < 3 ∧
    img_fir_sqr3 3 4 (fun _ => 0) (fun _ => 1) (fun _ => 1) (0 * 3 + 2)
      = (fun _ => (0 : ℚ)) (0 * 3 + 2) :=
  ⟨by decide, by decide,
    img_fir_sqr3_border_kept 3 4 (fun _ => 0) (fun _ => 1) (fun _ => 1) 0 2
      (by decide) (by decide) (Or.inl rfl)⟩

/-! ## Period of the rotation index -/

/-- Claim C20 as stated fails: five calls of `img_mid5_t` starting from `*state = 0` leave
`*state = 1`. -/
theorem img_mid5_t_state_after_five_calls :
    (img_mid5_t_calls 1 1 (fun _ _ => 0) 5 ((fun _ => 0), (fun _ => 0), 0)).2.2 = 1
    ∧ (img_mid5_t_calls 1 1 (fun _ _ => 0) 5 ((fun _ => 0), (fun _ => 0), 0)).2.2 ≠ 0 := by
  rw [(img_mid5_t_calls_inv 1 1 (fun _ _ => 0) (fun _ => 0) (fun _ => 0) 0
    (by decide) (by decide) 5).1]
  decide

/-- Claim C20, amended: after exactly four consecutive calls of `img_mid5_t`, one per slot
of its four-slot history, `*state` is equal to the value it had before the first of those
calls, for every starting value in `[0,4)`; after five calls it is `(s+1) mod 4`. -/
theorem img_mid5_t_state_after_four_calls (W H : Int) (x : Nat → Img) (img_out img_buf : Img)
    (s : Int) (hs0 : 0 ≤ s) (hs4 : s < 4) :
    (img_mid5_t_calls W H x 4 (img_out, img_buf, s)).2.2 = s
    ∧ (img_mid5_t_calls W H x 5 (img_out, img_buf, s)).2.2 = (s + 1) % 4 := by
  rw [(img_mid5_t_calls_inv W H x img_out img_buf s hs0 hs4 4).1,
    (img_mid5_t_calls_inv W H x img_out img_buf s hs0 hs4 5).1]
  constructor <;> omega

/-- Witness for the amended C20: rotation index 3 on a 1x1 frame. -/
theorem img_mid5_t_state_after_four_calls_witness :
    (0 : Int) ≤ 3 ∧ (3 : Int) < 4 ∧
    ((img_mid5_t_calls 1 1 (fun _ _ => 0) 4 ((fun _ => 0), (fun _ => 0), 3)).2.2 = 3
    ∧ (img_mid5_t_calls 1 1 (fun _ _ => 0) 5 ((fun _ => 0), (fun _ => 0), 3)).2.2
        = (3 + 1) % 4) :=
  ⟨by decide, by decide,
    img_mid5_t_state_after_four_calls 1 1 (fun _ _ => 0) (fun _ => 0) (fun _ => 0) 3
      (by decide) (by decide)⟩


/-! ## Nearest-neighbour selection filters -/

/-- A loop over the run `[W+1, W*(H-1)-1)` storing `g k` at flat index `k`. -/
theorem run_loop_at (W H : Int) (g : Int → ℚ) (m : Img) (k : Int)
    (h1 : W + 1 ≤ k) (h2 : k < W * (H - 1) - 1) :
    forLoop (fun i m => store m (0 + W + 1 + (i : Int)) (g (0 + W + 1 + (i : Int))))
      (tripCount (0 + W + 1) (0 + W * (H - 1) - 1)) m k = g k := by
  rw [forLoop_store (fun i : Nat => g (0 + W + 1 + (i : Int)))]
  have hr : 0 + W + 1 ≤ k
      ∧ k < 0 + W + 1 + ((tripCount (0 + W + 1) (0 + W * (H - 1) - 1) : Nat) : Int) := by
    unfold tripCount
    constructor <;> omega
  rw [if_pos hr]
  congr 1
  omega

/-- What `img_nnf_sqr3` leaves at a flat index of its run. -/
theorem img_nnf_sqr3_run (W H : Int) (img_out img_in : Img) (th : ℚ) (k : Int)
    (h1 : W + 1 ≤ k) (h2 : k < W * (H - 1) - 1) :
    img_nnf_sqr3 W H img_out img_in th k
      = if nnDist W img_in k < th then img_in k
        else mid5 (img_in (k - W)) (img_in (k - 1)) (img_in k) (img_in (k + 1))
          (img_in (k + W)) := by
  have e : img_nnf_sqr3 W H img_out img_in th
      = forLoop (fun i m => store m (0 + W + 1 + (i : Int))
          ((fun j : Int => if nnDist W img_in j < th then img_in j
            else mid5 (img_in (j - W)) (img_in (j - 1)) (img_in j) (img_in (j + 1))
              (img_in (j + W))) (0 + W + 1 + (i : Int))))
          (tripCount (0 + W + 1) (0 + W * (H - 1) - 1)) img_out := by
    unfold img_nnf_sqr3
    simp only []
    congr 1
    funext i m
    have a0 : (0 : Int) + i = 0 + W + 1 + i - W - 1 := by ring
    have a1 : (0 : Int) + 1 + i = 0 + W + 1 + i - W := by ring
    have a2 : (0 : Int) + 2 + i = 0 + W + 1 + i - W + 1 := by ring
    have a3 : (0 : Int) + W + i = 0 + W + 1 + i - 1 := by ring
    have a5 : (0 : Int) + W + 2 + i = 0 + W + 1 + i + 1 := by ring
    have a6 : (0 : Int) + 2 * W + i = 0 + W + 1 + i + W - 1 := by ring
    have a7 : (0 : Int) + 2 * W + 1 + i = 0 + W + 1 + i + W := by ring
    have a8 : (0 : Int) + 2 * W + 2 + i = 0 + W + 1 + i + W + 1 := by ring
    rw [a0, a1, a2, a3, a5, a6, a7, a8]
    unfold nnDist
    split_ifs <;> rfl
  rw [e]
  exact run_loop_at W H (fun j : Int => if nnDist W img_in j < th then img_in j
    else mid5 (img_in (j - W)) (img_in (j - 1)) (img_in j) (img_in (j + 1))
      (img_in (j + W))) img_out k h1 h2


/-- What `img_nnf_sqr3_mid5_raw` leaves at a flat index of its run. -/
theorem img_nnf_sqr3_mid5_raw_run (W H : Int) (img_out i0 i1 i2 i3 i4 : Img) (th : ℚ)
    (k : Int) (h1 : W + 1 ≤ k) (h2 : k < W * (H - 1) - 1) :
    img_nnf_sqr3_mid5_raw W H img_out i0 i1 i2 i3 i4 th k
      = if nnDist W i2 k < th then i2 k else mid5 (i0 k) (i1 k) (i2 k) (i3 k) (i4 k) := by
  have e : img_nnf_sqr3_mid5_raw W H img_out i0 i1 i2 i3 i4 th
      = forLoop (fun i m => store m (0 + W + 1 + (i : Int))
          ((fun j : Int => if nnDist W i2 j < th then i2 j
            else mid5 (i0 j) (i1 j) (i2 j) (i3 j) (i4 j)) (0 + W + 1 + (i : Int))))
          (tripCount (0 + W + 1) (0 + W * (H - 1) - 1)) img_out := by
    unfold img_nnf_sqr3_mid5_raw
    simp only []
    congr 1
    funext i m
    have a0 : (0 : Int) + i = 0 + W + 1 + i - W - 1 := by ring
    have a1 : (0 : Int) + 1 + i = 0 + W + 1 + i - W := by ring
    have a2 : (0 : Int) + 2 + i = 0 + W + 1 + i - W + 1 := by ring
    have a3 : (0 : Int) + W + i = 0 + W + 1 + i - 1 := by ring
    have a5 : (0 : Int) + W + 2 + i = 0 + W + 1 + i + 1 := by ring
    have a6 : (0 : Int) + 2 * W + i = 0 + W + 1 + i + W - 1 := by ring
    have a7 : (0 : Int) + 2 * W + 1 + i = 0 + W + 1 + i + W := by ring
    have a8 : (0 : Int) + 2 * W + 2 + i = 0 + W + 1 + i + W + 1 := by ring
    rw [a0, a1, a2, a3, a5, a6, a7, a8]
    unfold nnDist
    split_ifs <;> rfl
  rw [e]
  exact run_loop_at W H (fun j : Int => if nnDist W i2 j < th then i2 j
    else mid5 (i0 j) (i1 j) (i2 j) (i3 j) (i4 j)) img_out k h1 h2

/-- Claim C13: after `img_nnf_sqr3` every interior pixel `k = r*W + c` satisfies: with `d`
the minimum over the 8 neighbours `n` of `|in[n] - in[k]|` (`nnDist`), `out[k] = in[k]` if
`d < th`, and otherwise `out[k]` is the median of the five cross values `in[k-W]`,
`in[k-1]`, `in[k]`, `in[k+1]`, `in[k+W]`. -/
theorem img_nnf_sqr3_interior (W H : Int) (img_out img_in : Img) (th : ℚ) (r c : Int)
    (hr1 : 1 ≤ r) (hr2 : r ≤ H - 2) (hc1 : 1 ≤ c) (hc2 : c ≤ W - 2) :
    img_nnf_sqr3 W H img_out img_in th (r * W + c)
      = if nnDist W img_in (r * W + c) < th then img_in (r * W + c)
        else mid5 (img_in (r * W + c - W)) (img_in (r * W + c - 1)) (img_in (r * W + c))
          (img_in (r * W + c + 1)) (img_in (r * W + c + W)) := by
  obtain ⟨h1, h2⟩ := interior_in_run W H r c hr1 hr2 hc1 hc2
  exact img_nnf_sqr3_run W H img_out img_in th _ h1 h2

/-- Witness for C13: the centre pixel of a 3x3 frame. -/
theorem img_nnf_sqr3_interior_witness :
    (1 : Int) ≤ 1 ∧ (1 : Int) ≤ 3 - 2 ∧
    img_nnf_sqr3 3 3 (fun _ => 0) (fun i => i) 2 (1 * 3 + 1)
      = if nnDist 3 (fun i => i) (1 * 3 + 1) < 2 then (fun i : Int => (i : ℚ)) (1 * 3 + 1)
        else mid5 ((fun i : Int => (i : ℚ)) (1 * 3 + 1 - 3))
          ((fun i : Int => (i : ℚ)) (1 * 3 + 1 - 1)) ((fun i : Int => (i : ℚ)) (1 * 3 + 1))
          ((fun i : Int => (i : ℚ)) (1 * 3 + 1 + 1)) ((fun i : Int => (i : ℚ)) (1 * 3 + 1 + 3)) :=
  ⟨by decide, by decide,
    img_nnf_sqr3_interior 3 3 (fun _ => 0) (fun i => i) 2 1 1
      (by decide) (by decide) (by decide) (by decide)⟩

/-- Claim C14: for a call of `img_nnf_sqr3_mid5` with `*state = s` in `[0,4)` and threshold
`th`, with `f0..f3` the history slots `(s+0..3) mod 4` before the call (slot `j` is
`shift img_buf (IMG_SZ W H * j)`) and `f4` the new frame: at every interior pixel
`k = r*W + c`, with `d` the minimum over the 8 spatial neighbours `n` of `|f2[n] - f2[k]|`
(`nnDist` on `f2`), the output is `f2[k]` if `d < th` and otherwise
`med5(f0[k], f1[k], f2[k], f3[k], f4[k])`. -/
theorem img_nnf_sqr3_mid5_interior (W H : Int) (img_out img_buf img_in : Img) (s : Int)
    (th : ℚ) (r c : Int) (hs0 : 0 ≤ s) (hs4 : s < 4)
    (hr1 : 1 ≤ r) (hr2 : r ≤ H - 2) (hc1 : 1 ≤ c) (hc2 : c ≤ W - 2) :
    (img_nnf_sqr3_mid5 W H img_out img_buf img_in s th).1 (r * W + c)
      = if nnDist W (shift img_buf (IMG_SZ W H * ((s + 2) % 4))) (r * W + c) < th
        then shift img_buf (IMG_SZ W H * ((s + 2) % 4)) (r * W + c)
        else mid5 (shift img_buf (IMG_SZ W H * ((s + 0) % 4)) (r * W + c))
          (shift img_buf (IMG_SZ W H * ((s + 1) % 4)) (r * W + c))
          (shift img_buf (IMG_SZ W H * ((s + 2) % 4)) (r * W + c))
          (shift img_buf (IMG_SZ W H * ((s + 3) % 4)) (r * W + c))
          (img_in (r * W + c)) := by
  obtain ⟨h1, h2⟩ := interior_in_run W H r c hr1 hr2 hc1 hc2
  unfold img_nnf_sqr3_mid5
  simp only []
  rw [img_nnf_sqr3_mid5_raw_run W H _ _ _ _ _ _ th _ h1 h2]
  have e0 : (s + 0) % 4 = s := by omega
  simp only [tmod_four s 1 hs0 (by decide), tmod_four s 2 hs0 (by decide),
    tmod_four s 3 hs0 (by decide), e0]

/-- Witness for C14: the centre pixel of a 3x3 frame, rotation index 1. -/
theorem img_nnf_sqr3_mid5_interior_witness :
    (0 : Int) ≤ 1 ∧ (1 : Int) < 4 ∧ (1 : Int) ≤ 1 ∧ (1 : Int) ≤ 3 - 2 ∧
    (img_nnf_sqr3_mid5 3 3 (fun _ => 0) (fun i => i) (fun _ => 7) 1 2).1 (1 * 3 + 1)
      = if nnDist 3 (shift (fun i => i) (IMG_SZ 3 3 * ((1 + 2) % 4))) (1 * 3 + 1) < 2
        then shift (fun i => i) (IMG_SZ 3 3 * ((1 + 2) % 4)) (1 * 3 + 1)
        else mid5 (shift (fun i => i) (IMG_SZ 3 3 * ((1 + 0) % 4)) (1 * 3 + 1))
          (shift (fun i => i) (IMG_SZ 3 3 * ((1 + 1) % 4)) (1 * 3 + 1))
          (shift (fun i => i) (IMG_SZ 3 3 * ((1 + 2) % 4)) (1 * 3 + 1))
          (shift (fun i => i) (IMG_SZ 3 3 * ((1 + 3) % 4)) (1 * 3 + 1))
          ((fun _ => (7 : ℚ)) (1 * 3 + 1)) :=
  ⟨by decide, by decide, by decide, by decide,
    img_nnf_sqr3_mid5_interior 3 3 (fun _ => 0) (fun i => i) (fun _ => 7) 1 2 1 1
      (by decide) (by decide) (by decide) (by decide) (by decide) (by decide)⟩


/-! ## Plane-fit correction -/

/-- One selection step keeps the first index of the smallest residual seen so far. -/
theorem pmf_pick_first_min (e : Nat → ℚ) (j j1 m : Nat) (hj : j1 = j + 1) (hm : m ≤ j)
    (hmin : ∀ i, i ≤ j → e m ≤ e i) (hfirst : ∀ i, i < m → e m < e i) :
    ∃ m1, m1 ≤ j1 ∧ pmf_pick (e m, m) (e j1) j1 = (e m1, m1) ∧
      (∀ i, i ≤ j1 → e m1 ≤ e i) ∧ (∀ i, i < m1 → e m1 < e i) := by
  subst hj
  by_cases h : e (j + 1) < e m
  · refine ⟨j + 1, le_rfl, ?_, ?_, ?_⟩
    · simp only [pmf_pick, if_pos h]
    · intro i hi
      by_cases hij : i = j + 1
      · rw [hij]
      · exact le_of_lt (lt_of_lt_of_le h (hmin i (by omega)))
    · intro i hi
      exact lt_of_lt_of_le h (hmin i (by omega))
  · refine ⟨m, by omega, ?_, ?_, hfirst⟩
    · simp only [pmf_pick, if_neg h]
    · intro i hi
      by_cases hij : i = j + 1
      · rw [hij]
        exact not_lt.mp h
      · exact hmin i (by omega)

/-- The selection of `img_plane_mf_pix` ends on the first index of the smallest residual. -/
theorem img_plane_mf_pix_pick (z0 z1 z2 z3 z4 z5 z6 z7 z8 : ℚ) :
    ∃ m : Nat, m ≤ 7 ∧
      (∀ j, j ≤ 7 → pmf_e z0 z1 z2 z3 z4 z5 z6 z7 z8 m ≤ pmf_e z0 z1 z2 z3 z4 z5 z6 z7 z8 j) ∧
      (∀ j, j < m → pmf_e z0 z1 z2 z3 z4 z5 z6 z7 z8 m < pmf_e z0 z1 z2 z3 z4 z5 z6 z7 z8 j) ∧
      img_plane_mf_pix z0 z1 z2 z3 z4 z5 z6 z7 z8 = pmf_zc m z0 z1 z2 z3 z4 z5 z6 z7 z8 := by
  have hshape : img_plane_mf_pix z0 z1 z2 z3 z4 z5 z6 z7 z8
      = pmf_zc (pmf_pick (pmf_pick (pmf_pick (pmf_pick (pmf_pick (pmf_pick (pmf_pick
          (pmf_e z0 z1 z2 z3 z4 z5 z6 z7 z8 0, 0)
          (pmf_e z0 z1 z2 z3 z4 z5 z6 z7 z8 1) 1)
          (pmf_e z0 z1 z2 z3 z4 z5 z6 z7 z8 2) 2)
          (pmf_e z0 z1 z2 z3 z4 z5 z6 z7 z8 3) 3)
          (pmf_e z0 z1 z2 z3 z4 z5 z6 z7 z8 4) 4)
          (pmf_e z0 z1 z2 z3 z4 z5 z6 z7 z8 5) 5)
          (pmf_e z0 z1 z2 z3 z4 z5 z6 z7 z8 6) 6)
          (pmf_e z0 z1 z2 z3 z4 z5 z6 z7 z8 7) 7).2 z0 z1 z2 z3 z4 z5 z6 z7 z8 := rfl
  obtain ⟨m1, hm1, p1, a1, b1⟩ := pmf_pick_first_min (pmf_e z0 z1 z2 z3 z4 z5 z6 z7 z8) 0 1 0
    rfl le_rfl (fun i hi => by rw [Nat.le_zero.mp hi]) (fun i hi => by omega)
  obtain ⟨m2, hm2, p2, a2, b2⟩ :=
    pmf_pick_first_min (pmf_e z0 z1 z2 z3 z4 z5 z6 z7 z8) 1 2 m1 rfl hm1 a1 b1
  obtain ⟨m3, hm3, p3, a3, b3⟩ :=
    pmf_pick_first_min (pmf_e z0 z1 z2 z3 z4 z5 z6 z7 z8) 2 3 m2 rfl hm2 a2 b2
  obtain ⟨m4, hm4, p4, a4, b4⟩ :=
    pmf_pick_first_min (pmf_e z0 z1 z2 z3 z4 z5 z6 z7 z8) 3 4 m3 rfl hm3 a3 b3
  obtain ⟨m5, hm5, p5, a5, b5⟩ :=
    pmf_pick_first_min (pmf_e z0 z1 z2 z3 z4 z5 z6 z7 z8) 4 5 m4 rfl hm4 a4 b4
  obtain ⟨m6, hm6, p6, a6, b6⟩ :=
    pmf_pick_first_min (pmf_e z0 z1 z2 z3 z4 z5 z6 z7 z8) 5 6 m5 rfl hm5 a5 b5
  obtain ⟨m7, hm7, p7, a7, b7⟩ :=
    pmf_pick_first_min (pmf_e z0 z1 z2 z3 z4 z5 z6 z7 z8) 6 7 m6 rfl hm6 a6 b6
  refine ⟨m7, hm7, a7, b7, ?_⟩
  rw [hshape, p1, p2, p3, p4, p5, p6, p7]

/-- Claim C15: for every 3x3 patch `z0..z8`, `img_plane_mf_pix` returns the corrected-centre
estimate (`pmf_zc m`) of the candidate model `m` in `0..7` whose residual `e_m` (`pmf_e m`)
is minimal among `e0..e7`, and among tying models it is the one with the lowest index. -/
theorem img_plane_mf_pix_selects_first_minimum (z0 z1 z2 z3 z4 z5 z6 z7 z8 : ℚ) :
    ∃ m : Nat, m ≤ 7 ∧
      (∀ j, j ≤ 7 → pmf_e z0 z1 z2 z3 z4 z5 z6 z7 z8 m ≤ pmf_e z0 z1 z2 z3 z4 z5 z6 z7 z8 j) ∧
      (∀ j, j < m → pmf_e z0 z1 z2 z3 z4 z5 z6 z7 z8 m < pmf_e z0 z1 z2 z3 z4 z5 z6 z7 z8 j) ∧
      img_plane_mf_pix z0 z1 z2 z3 z4 z5 z6 z7 z8 = pmf_zc m z0 z1 z2 z3 z4 z5 z6 z7 z8 :=
  img_plane_mf_pix_pick z0 z1 z2 z3 z4 z5 z6 z7 z8

theorem pmf_e_at0 (z0 z1 z2 z3 z4 z5 z6 z7 z8 : ℚ) :
    pmf_e z0 z1 z2 z3 z4 z5 z6 z7 z8 0 = pmf_e0 z0 z1 z2 z3 z4 z5 z6 z7 z8 := rfl

theorem pmf_e_at1 (z0 z1 z2 z3 z4 z5 z6 z7 z8 : ℚ) :
    pmf_e z0 z1 z2 z3 z4 z5 z6 z7 z8 1 = pmf_e1 z0 z1 z2 z3 z4 z5 z6 z7 z8 := rfl

theorem pmf_e_at2 (z0 z1 z2 z3 z4 z5 z6 z7 z8 : ℚ) :
    pmf_e z0 z1 z2 z3 z4 z5 z6 z7 z8 2 = pmf_e2 z0 z1 z2 z3 z4 z5 z6 z7 z8 := rfl

theorem pmf_e_at3 (z0 z1 z2 z3 z4 z5 z6 z7 z8 : ℚ) :
    pmf_e z0 z1 z2 z3 z4 z5 z6 z7 z8 3 = pmf_e3 z0 z1 z2 z3 z4 z5 z6 z7 z8 := rfl

theorem pmf_e_at4 (z0 z1 z2 z3 z4 z5 z6 z7 z8 : ℚ) :
    pmf_e z0 z1 z2 z3 z4 z5 z6 z7 z8 4 = pmf_e4 z0 z1 z2 z3 z4 z5 z6 z7 z8 := rfl

theorem pmf_e_at5 (z0 z1 z2 z3 z4 z5 z6 z7 z8 : ℚ) :
    pmf_e z0 z1 z2 z3 z4 z5 z6 z7 z8 5 = pmf_e5 z0 z1 z2 z3 z4 z5 z6 z7 z8 := rfl

theorem pmf_e_at6 (z0 z1 z2 z3 z4 z5 z6 z7 z8 : ℚ) :
    pmf_e z0 z1 z2 z3 z4 z5 z6 z7 z8 6 = pmf_e6 z0 z1 z2 z3 z4 z5 z6 z7 z8 := rfl

theorem pmf_e_at7 (z0 z1 z2 z3 z4 z5 z6 z7 z8 : ℚ) :
    pmf_e z0 z1 z2 z3 z4 z5 z6 z7 z8 7 = pmf_e7 z0 z1 z2 z3 z4 z5 z6 z7 z8 := rfl

/-- On a planar patch every residual of `img_plane_mf_pix` is 0. -/
theorem pmf_e_planar (a b c : ℚ) (m : Nat) (hm : m ≤ 7) :
    pmf_e (a + b * 0 + c * 0) (a + b * 0 + c * 1) (a + b * 0 + c * 2)
      (a + b * 1 + c * 0) (a + b * 1 + c * 1) (a + b * 1 + c * 2)
      (a + b * 2 + c * 0) (a + b * 2 + c * 1) (a + b * 2 + c * 2) m = 0 := by
  have h : m = 0 ∨ m = 1 ∨ m = 2 ∨ m = 3 ∨ m = 4 ∨ m = 5 ∨ m = 6 ∨ m = 7 := by omega
  rcases h with h | h | h | h | h | h | h | h <;> subst h
  · rw [pmf_e_at0]
    unfold pmf_e0 sqr_f32
    ring
  · rw [pmf_e_at1]
    unfold pmf_e1 sqr_f32
    ring
  · rw [pmf_e_at2]
    unfold pmf_e2 sqr_f32
    ring
  · rw [pmf_e_at3]
    unfold pmf_e3 sqr_f32
    ring
  · rw [pmf_e_at4]
    unfold pmf_e4 sqr_f32
    ring
  · rw [pmf_e_at5]
    unfold pmf_e5 sqr_f32
    ring
  · rw [pmf_e_at6]
    unfold pmf_e6 sqr_f32
    ring
  · rw [pmf_e_at7]
    unfold pmf_e7 sqr_f32
    ring

/-- On a planar patch every corrected estimate of `img_plane_mf_pix` is the centre value. -/
theorem pmf_zc_planar (a b c : ℚ) (m : Nat) (hm : m ≤ 7) :
    pmf_zc m (a + b * 0 + c * 0) (a + b * 0 + c * 1) (a + b * 0 + c * 2)
      (a + b * 1 + c * 0) (a + b * 1 + c * 1) (a + b * 1 + c * 2)
      (a + b * 2 + c * 0) (a + b * 2 + c * 1) (a + b * 2 + c * 2) = a + b + c := by
  have h : m = 0 ∨ m = 1 ∨ m = 2 ∨ m = 3 ∨ m = 4 ∨ m = 5 ∨ m = 6 ∨ m = 7 := by omega
  rcases h with h | h | h | h | h | h | h | h <;> subst h <;> norm_num [pmf_zc] <;> ring

/-- Claim C16: on the planar patch `z(i,j) = a + b*i + c*j` (`i` the row, `j` the column in
`0..2`, `z0..z8` row-major) every one of the residuals `e0..e7` of `img_plane_mf_pix` is
exactly 0, every one of the eight corrected estimates equals the centre value
`z4 = a + b + c`, and `img_plane_mf_pix` returns exactly `z4`. -/
theorem img_plane_mf_pix_planar (a b c : ℚ) :
    (∀ m, m ≤ 7 →
      pmf_e (a + b * 0 + c * 0) (a + b * 0 + c * 1) (a + b * 0 + c * 2)
        (a + b * 1 + c * 0) (a + b * 1 + c * 1) (a + b * 1 + c * 2)
        (a + b * 2 + c * 0) (a + b * 2 + c * 1) (a + b * 2 + c * 2) m = 0) ∧
    (∀ m, m ≤ 7 →
      pmf_zc m (a + b * 0 + c * 0) (a + b * 0 + c * 1) (a + b * 0 + c * 2)
        (a + b * 1 + c * 0) (a + b * 1 + c * 1) (a + b * 1 + c * 2)
        (a + b * 2 + c * 0) (a + b * 2 + c * 1) (a + b * 2 + c * 2) = a + b + c) ∧
    img_plane_mf_pix (a + b * 0 + c * 0) (a + b * 0 + c * 1) (a + b * 0 + c * 2)
        (a + b * 1 + c * 0) (a + b * 1 + c * 1) (a + b * 1 + c * 2)
        (a + b * 2 + c * 0) (a + b * 2 + c * 1) (a + b * 2 + c * 2) = a + b + c := by
  refine ⟨pmf_e_planar a b c, pmf_zc_planar a b c, ?_⟩
  obtain ⟨m, hm, _, _, h⟩ := img_plane_mf_pix_pick (a + b * 0 + c * 0) (a + b * 0 + c * 1)
    (a + b * 0 + c * 2) (a + b * 1 + c * 0) (a + b * 1 + c * 1) (a + b * 1 + c * 2)
    (a + b * 2 + c * 0) (a + b * 2 + c * 1) (a + b * 2 + c * 2)
  rw [h]
  exact pmf_zc_planar a b c m hm


/-! ## Hole filling -/

/-- An iteration of `img_hole_fill` touches the frame and the mask at its own pixel only. -/
theorem hf_step_other (W : Int) (img_in : Img) (i : Nat) (st : Img × Mask) (x : Int)
    (hx : x ≠ 0 + W + 1 + i) :
    (img_hole_fill_step W img_in i st).1 x = st.1 x
      ∧ (img_hole_fill_step W img_in i st).2 x = st.2 x := by
  unfold img_hole_fill_step
  simp only []
  split_ifs
  · exact ⟨rfl, rfl⟩
  · exact ⟨store_other _ _ _ _ hx, Function.update_noteq hx _ _⟩
  · exact ⟨rfl, rfl⟩

/-- An iteration of `img_hole_fill` leaves a non-zero mask entry as it is. -/
theorem hf_step_valid (W : Int) (img_in : Img) (i : Nat) (st : Img × Mask) (x : Int)
    (h : st.2 x ≠ 0) : (img_hole_fill_step W img_in i st).2 x = st.2 x := by
  by_cases hx : x = 0 + W + 1 + i
  · subst hx
    unfold img_hole_fill_step
    simp only []
    rw [if_pos h]
  · exact (hf_step_other W img_in i st x hx).2

/-- An iteration of `img_hole_fill` keeps a 0/1 mask a 0/1 mask. -/
theorem hf_step_le_one (W : Int) (img_in : Img) (i : Nat) (st : Img × Mask)
    (h : ∀ x, st.2 x ≤ 1) (x : Int) : (img_hole_fill_step W img_in i st).2 x ≤ 1 := by
  by_cases hx : x = 0 + W + 1 + i
  · subst hx
    unfold img_hole_fill_step
    simp only []
    split_ifs
    · exact h _
    · simp
    · exact h _
  · rw [(hf_step_other W img_in i st x hx).2]
    exact h x

/-- A hole with at most 5 valid neighbours at its visit is left alone. -/
theorem hf_step_keep (W : Int) (img_in : Img) (i : Nat) (st : Img × Mask)
    (h0 : st.2 (0 + W + 1 + i) = 0)
    (hc : st.2 (0 + i) + st.2 (0 + 1 + i) + st.2 (0 + 2 + i) + st.2 (0 + W + i)
      + st.2 (0 + W + 2 + i) + st.2 (0 + 2 * W + i) + st.2 (0 + 2 * W + 1 + i)
      + st.2 (0 + 2 * W + 2 + i) ≤ 5) :
    img_hole_fill_step W img_in i st = st := by
  unfold img_hole_fill_step
  simp only []
  rw [if_neg (not_not.mpr h0), if_neg (by omega)]

/-- The value `img_hole_fill` computes for a hole it fills at the state `st`: the sum of
the input values of the neighbours whose mask entry is non-zero, over the sum `k` of the
mask entries. -/
theorem hf_step_fill (W : Int) (img_in : Img) (i : Nat) (st : Img × Mask)
    (h0 : st.2 (0 + W + 1 + i) = 0)
    (hc : st.2 (0 + i) + st.2 (0 + 1 + i) + st.2 (0 + 2 + i) + st.2 (0 + W + i)
      + st.2 (0 + W + 2 + i) + st.2 (0 + 2 * W + i) + st.2 (0 + 2 * W + 1 + i)
      + st.2 (0 + 2 * W + 2 + i) > 5) :
    (img_hole_fill_step W img_in i st).2 (0 + W + 1 + i) = 1 ∧
    (img_hole_fill_step W img_in i st).1 (0 + W + 1 + i)
      = accIf (st.2 (0 + 2 * W + 2 + i)) (accIf (st.2 (0 + 2 * W + 1 + i))
          (accIf (st.2 (0 + 2 * W + i)) (accIf (st.2 (0 + W + 2 + i))
          (accIf (st.2 (0 + W + i)) (accIf (st.2 (0 + 2 + i)) (accIf (st.2 (0 + 1 + i))
          (accIf (st.2 (0 + i)) 0 (img_in (0 + i))) (img_in (0 + 1 + i)))
          (img_in (0 + 2 + i))) (img_in (0 + W + i))) (img_in (0 + W + 2 + i)))
          (img_in (0 + 2 * W + i))) (img_in (0 + 2 * W + 1 + i)))
          (img_in (0 + 2 * W + 2 + i))
        / ((st.2 (0 + i) + st.2 (0 + 1 + i) + st.2 (0 + 2 + i) + st.2 (0 + W + i)
      + st.2 (0 + W + 2 + i) + st.2 (0 + 2 * W + i) + st.2 (0 + 2 * W + 1 + i)
      + st.2 (0 + 2 * W + 2 + i) : Nat) : ℚ) := by
  unfold img_hole_fill_step
  simp only []
  rw [if_neg (not_not.mpr h0), if_pos hc]
  exact ⟨Function.update_same _ _ _, store_same _ _ _⟩

/-- After `n` iterations of `img_hole_fill` the pixels outside `[W+1, W+1+n)` are as they
were. -/
theorem hf_loop_untouched (W : Int) (img_in : Img) (st0 : Img × Mask) (n : Nat) (x : Int)
    (hx : x < 0 + W + 1 ∨ 0 + W + 1 + (n : Int) ≤ x) :
    (forLoop (img_hole_fill_step W img_in) n st0).1 x = st0.1 x
      ∧ (forLoop (img_hole_fill_step W img_in) n st0).2 x = st0.2 x := by
  induction n with
  | zero => exact ⟨rfl, rfl⟩
  | succ n ih =>
    rw [forLoop_succ]
    obtain ⟨a, b⟩ := hf_step_other W img_in n (forLoop (img_hole_fill_step W img_in) n st0) x
      (by omega)
    obtain ⟨c, d⟩ := ih (by omega)
    exact ⟨a.trans c, b.trans d⟩

/-- A pixel visited within the first `n` iterations of `img_hole_fill` is not touched by
the later ones. -/
theorem hf_loop_stable (W : Int) (img_in : Img) (st0 : Img × Mask) (n d : Nat) (x : Int)
    (hx : x < 0 + W + 1 + (n : Int)) :
    (forLoop (img_hole_fill_step W img_in) (n + d) st0).1 x
        = (forLoop (img_hole_fill_step W img_in) n st0).1 x
      ∧ (forLoop (img_hole_fill_step W img_in) (n + d) st0).2 x
        = (forLoop (img_hole_fill_step W img_in) n st0).2 x := by
  induction d with
  | zero => exact ⟨rfl, rfl⟩
  | succ d ih =>
    rw [← Nat.add_assoc, forLoop_succ]
    obtain ⟨a, b⟩ := hf_step_other W img_in (n + d)
      (forLoop (img_hole_fill_step W img_in) (n + d) st0) x (by omega)
    exact ⟨a.trans ih.1, b.trans ih.2⟩

/-- A non-zero mask entry is never changed by `img_hole_fill`. -/
theorem hf_loop_valid (W : Int) (img_in : Img) (st0 : Img × Mask) (n : Nat) (x : Int)
    (h : st0.2 x ≠ 0) : (forLoop (img_hole_fill_step W img_in) n st0).2 x = st0.2 x := by
  induction n with
  | zero => rfl
  | succ n ih =>
    rw [forLoop_succ, hf_step_valid W img_in n _ x (by rw [ih]; exact h), ih]

/-- A 0/1 mask stays a 0/1 mask through `img_hole_fill`. -/
theorem hf_loop_le_one (W : Int) (img_in : Img) (st0 : Img × Mask) (h : ∀ x, st0.2 x ≤ 1)
    (n : Nat) (x : Int) : (forLoop (img_hole_fill_step W img_in) n st0).2 x ≤ 1 := by
  induction n generalizing x with
  | zero => exact h x
  | succ n ih =>
    rw [forLoop_succ]
    exact hf_step_le_one W img_in n _ ih x

/-- The visit of flat index `k` by `img_hole_fill`: the result at `k` is what iteration
`k - (W+1)` computes from a state whose mask agrees with the returned mask before `k` and
with the supplied mask from `k` on, and whose frame still holds the copied input at `k`. -/
theorem hf_visit (W H : Int) (img_out img_in : Img) (img_mask : Mask) (k : Int)
    (h1 : W + 1 ≤ k) (h2 : k < W * (H - 1) - 1) :
    ∃ st : Img × Mask,
      (img_hole_fill W H img_out img_in img_mask).1 k
        = (img_hole_fill_step W img_in (k - (W + 1)).toNat st).1 k ∧
      (img_hole_fill W H img_out img_in img_mask).2 k
        = (img_hole_fill_step W img_in (k - (W + 1)).toNat st).2 k ∧
      (∀ x, x < k → st.2 x = (img_hole_fill W H img_out img_in img_mask).2 x) ∧
      (∀ x, k ≤ x → st.2 x = img_mask x) ∧
      st.1 k = img_copy img_out 0 img_in (IMG_SZ W H) k := by
  have hN : tripCount (0 + W + 1) (0 + W * (H - 1) - 1)
      = (k - (W + 1)).toNat + 1
        + (tripCount (0 + W + 1) (0 + W * (H - 1) - 1) - ((k - (W + 1)).toNat + 1)) := by
    unfold tripCount
    omega
  have hN2 : tripCount (0 + W + 1) (0 + W * (H - 1) - 1)
      = (k - (W + 1)).toNat
        + (tripCount (0 + W + 1) (0 + W * (H - 1) - 1) - (k - (W + 1)).toNat) := by
    unfold tripCount
    omega
  have hR : img_hole_fill W H img_out img_in img_mask
      = forLoop (img_hole_fill_step W img_in) (tripCount (0 + W + 1) (0 + W * (H - 1) - 1))
          (img_copy img_out 0 img_in (IMG_SZ W H), img_mask) := rfl
  refine ⟨forLoop (img_hole_fill_step W img_in) (k - (W + 1)).toNat
    (img_copy img_out 0 img_in (IMG_SZ W H), img_mask), ?_, ?_, ?_, ?_, ?_⟩
  · rw [hR, hN, (hf_loop_stable W img_in _ _ _ k (by omega)).1, forLoop_succ]
  · rw [hR, hN, (hf_loop_stable W img_in _ _ _ k (by omega)).2, forLoop_succ]
  · intro x hx
    rw [hR, hN2, (hf_loop_stable W img_in _ _ _ x (by omega)).2]
  · intro x hx
    exact (hf_loop_untouched W img_in _ _ x (Or.inr (by omega))).2
  · exact (hf_loop_untouched W img_in _ _ k (Or.inr (by omega))).1

/-- The returned mask of `img_hole_fill` is 0/1 when the supplied one is. -/
theorem img_hole_fill_le_one (W H : Int) (img_out img_in : Img) (img_mask : Mask)
    (h : ∀ x, img_mask x ≤ 1) (x : Int) :
    (img_hole_fill W H img_out img_in img_mask).2 x ≤ 1 :=
  hf_loop_le_one W img_in _ h _ x

/-- A hole of the run with `visitCount ≤ 5`, the earlier neighbours read from the returned
mask and the later ones from the supplied mask, is left unresolved. -/
theorem hf_kept (W H : Int) (img_out img_in : Img) (img_mask : Mask) (k : Int)
    (hW : 2 ≤ W) (h1 : W + 1 ≤ k) (h2 : k < W * (H - 1) - 1) (h0 : img_mask k = 0)
    (hc : visitCount W (img_hole_fill W H img_out img_in img_mask).2 img_mask k ≤ 5) :
    (img_hole_fill W H img_out img_in img_mask).1 k = img_in k
      ∧ (img_hole_fill W H img_out img_in img_mask).2 k = 0 := by
  obtain ⟨st, e1, e2, hb, ha, ho⟩ := hf_visit W H img_out img_in img_mask k h1 h2
  have hk : (((k - (W + 1)).toNat : Nat) : Int) = k - (W + 1) := by omega
  have keep : img_hole_fill_step W img_in (k - (W + 1)).toNat st = st := by
    apply hf_step_keep
    · rw [hk, ha _ (by omega)]
      have : 0 + W + 1 + (k - (W + 1)) = k := by ring
      rw [this]
      exact h0
    · rw [hk]
      have a0 : 0 + (k - (W + 1)) = k - W - 1 := by ring
      have a1 : 0 + 1 + (k - (W + 1)) = k - W := by ring
      have a2 : 0 + 2 + (k - (W + 1)) = k - W + 1 := by ring
      have a3 : 0 + W + (k - (W + 1)) = k - 1 := by ring
      have a5 : 0 + W + 2 + (k - (W + 1)) = k + 1 := by ring
      have a6 : 0 + 2 * W + (k - (W + 1)) = k + W - 1 := by ring
      have a7 : 0 + 2 * W + 1 + (k - (W + 1)) = k + W := by ring
      have a8 : 0 + 2 * W + 2 + (k - (W + 1)) = k + W + 1 := by ring
      rw [a0, a1, a2, a3, a5, a6, a7, a8, hb _ (by omega), hb _ (by omega),
        hb _ (by omega), hb _ (by omega), ha _ (by omega), ha _ (by omega),
        ha _ (by omega), ha _ (by omega)]
      exact hc
  rw [e1, e2, keep, ho, ha k le_rfl]
  refine ⟨?_, h0⟩
  have e : W * (H - 1) = W * H - W := by ring
  rw [img_copy_inside _ _ _ _ _ (by omega) (by unfold IMG_SZ; omega)]
  congr 1
  omega


/-- A valid pixel of the supplied mask is valid in the returned mask. -/
theorem img_hole_fill_valid (W H : Int) (img_out img_in : Img) (img_mask : Mask) (x : Int)
    (h : img_mask x ≠ 0) : (img_hole_fill W H img_out img_in img_mask).2 x = img_mask x :=
  hf_loop_valid W img_in (img_copy img_out 0 img_in (IMG_SZ W H), img_mask) _ x h

/-- Claim C17: for a 0/1 validity mask, an interior pixel `k = r*W + c` that is a hole
(mask 0) and whose 8 neighbours are all valid in the supplied mask is, after one call of
`img_hole_fill`, set in the output to the sum of the 8 neighbours' input values divided
by 8, and marked valid (mask 1). -/
theorem img_hole_fill_full_neighbourhood (W H : Int) (img_out img_in : Img) (img_mask : Mask)
    (r c : Int) (hr1 : 1 ≤ r) (hr2 : r ≤ H - 2) (hc1 : 1 ≤ c) (hc2 : c ≤ W - 2)
    (h0 : img_mask (r * W + c) = 0)
    (n0 : img_mask (r * W + c - W - 1) = 1) (n1 : img_mask (r * W + c - W) = 1)
    (n2 : img_mask (r * W + c - W + 1) = 1) (n3 : img_mask (r * W + c - 1) = 1)
    (n5 : img_mask (r * W + c + 1) = 1) (n6 : img_mask (r * W + c + W - 1) = 1)
    (n7 : img_mask (r * W + c + W) = 1) (n8 : img_mask (r * W + c + W + 1) = 1) :
    (img_hole_fill W H img_out img_in img_mask).1 (r * W + c)
      = (img_in (r * W + c - W - 1) + img_in (r * W + c - W) + img_in (r * W + c - W + 1)
          + img_in (r * W + c - 1) + img_in (r * W + c + 1) + img_in (r * W + c + W - 1)
          + img_in (r * W + c + W) + img_in (r * W + c + W + 1)) / 8
      ∧ (img_hole_fill W H img_out img_in img_mask).2 (r * W + c) = 1 := by
  obtain ⟨h1, h2⟩ := interior_in_run W H r c hr1 hr2 hc1 hc2
  generalize r * W + c = k at *
  obtain ⟨st, e1, e2, hb, ha, ho⟩ := hf_visit W H img_out img_in img_mask k h1 h2
  have hk : (((k - (W + 1)).toNat : Nat) : Int) = k - (W + 1) := by omega
  have a0 : 0 + (k - (W + 1)) = k - W - 1 := by ring
  have a1 : 0 + 1 + (k - (W + 1)) = k - W := by ring
  have a2 : 0 + 2 + (k - (W + 1)) = k - W + 1 := by ring
  have a3 : 0 + W + (k - (W + 1)) = k - 1 := by ring
  have a4 : 0 + W + 1 + (k - (W + 1)) = k := by ring
  have a5 : 0 + W + 2 + (k - (W + 1)) = k + 1 := by ring
  have a6 : 0 + 2 * W + (k - (W + 1)) = k + W - 1 := by ring
  have a7 : 0 + 2 * W + 1 + (k - (W + 1)) = k + W := by ring
  have a8 : 0 + 2 * W + 2 + (k - (W + 1)) = k + W + 1 := by ring
  have v0 : st.2 (k - W - 1) = 1 := by
    rw [hb _ (by omega), img_hole_fill_valid W H _ _ _ _ (by omega), n0]
  have v1 : st.2 (k - W) = 1 := by
    rw [hb _ (by omega), img_hole_fill_valid W H _ _ _ _ (by omega), n1]
  have v2 : st.2 (k - W + 1) = 1 := by
    rw [hb _ (by omega), img_hole_fill_valid W H _ _ _ _ (by omega), n2]
  have v3 : st.2 (k - 1) = 1 := by
    rw [hb _ (by omega), img_hole_fill_valid W H _ _ _ _ (by omega), n3]
  have v4 : st.2 k = 0 := by rw [ha _ le_rfl, h0]
  have v5 : st.2 (k + 1) = 1 := by rw [ha _ (by omega), n5]
  have v6 : st.2 (k + W - 1) = 1 := by rw [ha _ (by omega), n6]
  have v7 : st.2 (k + W) = 1 := by rw [ha _ (by omega), n7]
  have v8 : st.2 (k + W + 1) = 1 := by rw [ha _ (by omega), n8]
  obtain ⟨f2, f1⟩ := hf_step_fill W img_in (k - (W + 1)).toNat st
    (by rw [hk, a4]; exact v4)
    (by rw [hk, a0, a1, a2, a3, a5, a6, a7, a8, v0, v1, v2, v3, v5, v6, v7, v8]; decide)
  rw [hk, a4] at f1 f2
  rw [a0, a1, a2, a3, a5, a6, a7, a8, v0, v1, v2, v3, v5, v6, v7, v8] at f1
  rw [e1, e2, f1, f2]
  refine ⟨?_, rfl⟩
  simp only [accIf]
  norm_num

/-- Witness for C17: the centre hole of a 3x3 frame whose other pixels are valid. -/
theorem img_hole_fill_full_neighbourhood_witness :
    (1 : Int) ≤ 1 ∧ (1 : Int) ≤ 3 - 2 ∧
    (fun i : Int => if i = 4 then 0 else 1) ((1 : Int) * 3 + 1) = 0 ∧
    ((img_hole_fill 3 3 (fun _ => 0) (fun i => i) (fun i => if i = 4 then 0 else 1)).1
        (1 * 3 + 1)
      = ((fun i : Int => (i : ℚ)) (1 * 3 + 1 - 3 - 1) + (fun i : Int => (i : ℚ)) (1 * 3 + 1 - 3)
          + (fun i : Int => (i : ℚ)) (1 * 3 + 1 - 3 + 1)
          + (fun i : Int => (i : ℚ)) (1 * 3 + 1 - 1) + (fun i : Int => (i : ℚ)) (1 * 3 + 1 + 1)
          + (fun i : Int => (i : ℚ)) (1 * 3 + 1 + 3 - 1)
          + (fun i : Int => (i : ℚ)) (1 * 3 + 1 + 3)
          + (fun i : Int => (i : ℚ)) (1 * 3 + 1 + 3 + 1)) / 8
      ∧ (img_hole_fill 3 3 (fun _ => 0) (fun i => i) (fun i => if i = 4 then 0 else 1)).2
          (1 * 3 + 1) = 1) :=
  ⟨by decide, by decide, by decide,
    img_hole_fill_full_neighbourhood 3 3 (fun _ => 0) (fun i => i)
      (fun i => if i = 4 then 0 else 1) 1 1 (by decide) (by decide) (by decide) (by decide)
      (by decide) (by decide) (by decide) (by decide) (by decide) (by decide) (by decide)
      (by decide) (by decide)⟩

/-- At most 5 valid neighbours when E, S and SE are holes. -/
theorem visitCount_le_five_a (W : Int) (before after : Mask) (k : Int)
    (hb : ∀ x, before x ≤ 1) (ha : ∀ x, after x ≤ 1)
    (z1 : after (k + 1) = 0) (z2 : after (k + W) = 0) (z3 : after (k + W + 1) = 0) :
    visitCount W before after k ≤ 5 := by
  unfold visitCount
  have b0 := hb (k - W - 1)
  have b1 := hb (k - W)
  have b2 := hb (k - W + 1)
  have b3 := hb (k - 1)
  have b6 := ha (k + W - 1)
  omega

/-- At most 5 valid neighbours when W, SW and S are holes. -/
theorem visitCount_le_five_b (W : Int) (before after : Mask) (k : Int)
    (hb : ∀ x, before x ≤ 1) (ha : ∀ x, after x ≤ 1)
    (z1 : before (k - 1) = 0) (z2 : after (k + W - 1) = 0) (z3 : after (k + W) = 0) :
    visitCount W before after k ≤ 5 := by
  unfold visitCount
  have b0 := hb (k - W - 1)
  have b1 := hb (k - W)
  have b2 := hb (k - W + 1)
  have b5 := ha (k + 1)
  have b8 := ha (k + W + 1)
  omega

/-- At most 5 valid neighbours when N, NE and E are holes. -/
theorem visitCount_le_five_c (W : Int) (before after : Mask) (k : Int)
    (hb : ∀ x, before x ≤ 1) (ha : ∀ x, after x ≤ 1)
    (z1 : before (k - W) = 0) (z2 : before (k - W + 1) = 0) (z3 : after (k + 1) = 0) :
    visitCount W before after k ≤ 5 := by
  unfold visitCount
  have b0 := hb (k - W - 1)
  have b3 := hb (k - 1)
  have b6 := ha (k + W - 1)
  have b7 := ha (k + W)
  have b8 := ha (k + W + 1)
  omega

/-- At most 5 valid neighbours when NW, N and W are holes. -/
theorem visitCount_le_five_d (W : Int) (before after : Mask) (k : Int)
    (hb : ∀ x, before x ≤ 1) (ha : ∀ x, after x ≤ 1)
    (z1 : before (k - W - 1) = 0) (z2 : before (k - W) = 0) (z3 : before (k - 1) = 0) :
    visitCount W before after k ≤ 5 := by
  unfold visitCount
  have b2 := hb (k - W + 1)
  have b5 := ha (k + 1)
  have b6 := ha (k + W - 1)
  have b7 := ha (k + W)
  have b8 := ha (k + W + 1)
  omega

/-- A 3x3 block of holes whose top-left pixel `k` lies at row `≥ 1`, column `≥ 1`, with
two more rows and columns inside the interior, is left as it is by `img_hole_fill`. The
nine pixels are handled in raster order, each one using the ones before it. -/
theorem hf_block (W H : Int) (img_out img_in : Img) (img_mask : Mask) (k : Int)
    (hW : 2 ≤ W) (h1 : W + 1 ≤ k) (h2 : k + 2 * W + 2 < W * (H - 1) - 1)
    (h01 : ∀ x, img_mask x ≤ 1)
    (hz : ∀ x, (x = k ∨ x = k + 1 ∨ x = k + 2 ∨ x = k + W ∨ x = k + W + 1 ∨ x = k + W + 2
      ∨ x = k + 2 * W ∨ x = k + 2 * W + 1 ∨ x = k + 2 * W + 2) → img_mask x = 0) :
    ∀ x, (x = k ∨ x = k + 1 ∨ x = k + 2 ∨ x = k + W ∨ x = k + W + 1 ∨ x = k + W + 2
      ∨ x = k + 2 * W ∨ x = k + 2 * W + 1 ∨ x = k + 2 * W + 2) →
      (img_hole_fill W H img_out img_in img_mask).1 x = img_in x
        ∧ (img_hole_fill W H img_out img_in img_mask).2 x = 0 := by
  have hR := img_hole_fill_le_one W H img_out img_in img_mask h01
  have p00 := hf_kept W H img_out img_in img_mask k hW (by omega) (by omega)
    (hz _ (by omega))
    (visitCount_le_five_a W _ _ _ hR h01 (hz _ (by omega)) (hz _ (by omega)) (hz _ (by omega)))
  have p01 := hf_kept W H img_out img_in img_mask (k + 1) hW (by omega) (by omega)
    (hz _ (by omega))
    (visitCount_le_five_a W _ _ _ hR h01 (hz _ (by omega)) (hz _ (by omega)) (hz _ (by omega)))
  have p02 := hf_kept W H img_out img_in img_mask (k + 2) hW (by omega) (by omega)
    (hz _ (by omega))
    (visitCount_le_five_b W _ _ _ hR h01
      (by rw [show k + 2 - 1 = k + 1 by ring]; exact p01.2)
      (hz _ (by omega)) (hz _ (by omega)))
  have p10 := hf_kept W H img_out img_in img_mask (k + W) hW (by omega) (by omega)
    (hz _ (by omega))
    (visitCount_le_five_a W _ _ _ hR h01 (hz _ (by omega)) (hz _ (by omega)) (hz _ (by omega)))
  have p11 := hf_kept W H img_out img_in img_mask (k + W + 1) hW (by omega) (by omega)
    (hz _ (by omega))
    (visitCount_le_five_a W _ _ _ hR h01 (hz _ (by omega)) (hz _ (by omega)) (hz _ (by omega)))
  have p12 := hf_kept W H img_out img_in img_mask (k + W + 2) hW (by omega) (by omega)
    (hz _ (by omega))
    (visitCount_le_five_b W _ _ _ hR h01
      (by rw [show k + W + 2 - 1 = k + W + 1 by ring]; exact p11.2)
      (hz _ (by omega)) (hz _ (by omega)))
  have p20 := hf_kept W H img_out img_in img_mask (k + 2 * W) hW (by omega) (by omega)
    (hz _ (by omega))
    (visitCount_le_five_c W _ _ _ hR h01
      (by rw [show k + 2 * W - W = k + W by ring]; exact p10.2)
      (by rw [show k + 2 * W - W + 1 = k + W + 1 by ring]; exact p11.2)
      (hz _ (by omega)))
  have p21 := hf_kept W H img_out img_in img_mask (k + 2 * W + 1) hW (by omega) (by omega)
    (hz _ (by omega))
    (visitCount_le_five_c W _ _ _ hR h01
      (by rw [show k + 2 * W + 1 - W = k + W + 1 by ring]; exact p11.2)
      (by rw [show k + 2 * W + 1 - W + 1 = k + W + 2 by ring]; exact p12.2)
      (hz _ (by omega)))
  have p22 := hf_kept W H img_out img_in img_mask (k + 2 * W + 2) hW (by omega) (by omega)
    (hz _ (by omega))
    (visitCount_le_five_d W _ _ _ hR h01
      (by rw [show k + 2 * W + 2 - W - 1 = k + W + 1 by ring]; exact p11.2)
      (by rw [show k + 2 * W + 2 - W = k + W + 2 by ring]; exact p12.2)
      (by rw [show k + 2 * W + 2 - 1 = k + 2 * W + 1 by ring]; exact p21.2))
  intro x hx
  rcases hx with h | h | h | h | h | h | h | h | h <;> subst h
  · exact p00
  · exact p01
  · exact p02
  · exact p10
  · exact p11
  · exact p12
  · exact p20
  · exact p21
  · exact p22

/-- Claim C19: for a 0/1 validity mask in which all 9 pixels of a 3x3 block of interior
pixels (rows `r..r+2`, columns `c..c+2`) are holes, one call of `img_hole_fill` performs no
correction on any of those 9 pixels, whatever the validity of the pixels around the block:
each keeps its input value in the output and its mask entry stays 0. -/
theorem img_hole_fill_hole_block (W H : Int) (img_out img_in : Img) (img_mask : Mask)
    (r c : Int) (hr1 : 1 ≤ r) (hr2 : r + 2 ≤ H - 2) (hc1 : 1 ≤ c) (hc2 : c + 2 ≤ W - 2)
    (h01 : ∀ x, img_mask x ≤ 1)
    (hblock : ∀ a b : Int, 0 ≤ a → a ≤ 2 → 0 ≤ b → b ≤ 2 →
      img_mask ((r + a) * W + (c + b)) = 0)
    (a b : Int) (ha0 : 0 ≤ a) (ha2 : a ≤ 2) (hb0 : 0 ≤ b) (hb2 : b ≤ 2) :
    (img_hole_fill W H img_out img_in img_mask).1 ((r + a) * W + (c + b))
        = img_in ((r + a) * W + (c + b))
      ∧ (img_hole_fill W H img_out img_in img_mask).2 ((r + a) * W + (c + b)) = 0 := by
  obtain ⟨h1, _⟩ := interior_in_run W H r c hr1 (by omega) hc1 (by omega)
  obtain ⟨_, h2⟩ := interior_in_run W H (r + 2) (c + 2) (by omega) hr2 (by omega) hc2
  have e2 : (r + 2) * W + (c + 2) = r * W + c + 2 * W + 2 := by ring
  have idx : ∀ a b : Int, (r + a) * W + (c + b) = r * W + c + a * W + b := by
    intro a b
    ring
  have key := hf_block W H img_out img_in img_mask (r * W + c) (by omega) h1 (by omega) h01
    (by
      intro x hx
      rcases hx with h | h | h | h | h | h | h | h | h <;> subst h
      · rw [show r * W + c = (r + 0) * W + (c + 0) by ring]
        exact hblock 0 0 (by decide) (by decide) (by decide) (by decide)
      · rw [show r * W + c + 1 = (r + 0) * W + (c + 1) by ring]
        exact hblock 0 1 (by decide) (by decide) (by decide) (by decide)
      · rw [show r * W + c + 2 = (r + 0) * W + (c + 2) by ring]
        exact hblock 0 2 (by decide) (by decide) (by decide) (by decide)
      · rw [show r * W + c + W = (r + 1) * W + (c + 0) by ring]
        exact hblock 1 0 (by decide) (by decide) (by decide) (by decide)
      · rw [show r * W + c + W + 1 = (r + 1) * W + (c + 1) by ring]
        exact hblock 1 1 (by decide) (by decide) (by decide) (by decide)
      · rw [show r * W + c + W + 2 = (r + 1) * W + (c + 2) by ring]
        exact hblock 1 2 (by decide) (by decide) (by decide) (by decide)
      · rw [show r * W + c + 2 * W = (r + 2) * W + (c + 0) by ring]
        exact hblock 2 0 (by decide) (by decide) (by decide) (by decide)
      · rw [show r * W + c + 2 * W + 1 = (r + 2) * W + (c + 1) by ring]
        exact hblock 2 1 (by decide) (by decide) (by decide) (by decide)
      · rw [show r * W + c + 2 * W + 2 = (r + 2) * W + (c + 2) by ring]
        exact hblock 2 2 (by decide) (by decide) (by decide) (by decide))
  apply key
  rw [idx]
  have ha : a = 0 ∨ a = 1 ∨ a = 2 := by omega
  have hb : b = 0 ∨ b = 1 ∨ b = 2 := by omega
  rcases ha with h | h | h <;> rcases hb with h' | h' | h' <;> subst h <;> subst h' <;>
    simp


/-- Witness for C19: the 3x3 interior of a 5x5 frame is a block of holes, the border ring
around it is valid; the centre pixel of the block. -/
theorem img_hole_fill_hole_block_witness :
    (1 : Int) ≤ 1 ∧ (1 : Int) + 2 ≤ 5 - 2 ∧
    (∀ x : Int, (fun i : Int => if 6 ≤ i ∧ i ≤ 18 ∧ 1 ≤ i % 5 ∧ i % 5 ≤ 3 then 0 else 1) x ≤ 1) ∧
    (∀ a b : Int, 0 ≤ a → a ≤ 2 → 0 ≤ b → b ≤ 2 →
      (fun i : Int => if 6 ≤ i ∧ i ≤ 18 ∧ 1 ≤ i % 5 ∧ i % 5 ≤ 3 then 0 else 1)
        ((1 + a) * 5 + (1 + b)) = 0) ∧
    ((img_hole_fill 5 5 (fun _ => 0) (fun i => i)
        (fun i : Int => if 6 ≤ i ∧ i ≤ 18 ∧ 1 ≤ i % 5 ∧ i % 5 ≤ 3 then 0 else 1)).1
        ((1 + 1) * 5 + (1 + 1)) = (fun i : Int => (i : ℚ)) ((1 + 1) * 5 + (1 + 1))
      ∧ (img_hole_fill 5 5 (fun _ => 0) (fun i => i)
        (fun i : Int => if 6 ≤ i ∧ i ≤ 18 ∧ 1 ≤ i % 5 ∧ i % 5 ≤ 3 then 0 else 1)).2
        ((1 + 1) * 5 + (1 + 1)) = 0) := by
  have h01 : ∀ x : Int,
      (fun i : Int => if 6 ≤ i ∧ i ≤ 18 ∧ 1 ≤ i % 5 ∧ i % 5 ≤ 3 then 0 else 1) x ≤ 1 := by
    intro x
    show (if 6 ≤ x ∧ x ≤ 18 ∧ 1 ≤ x % 5 ∧ x % 5 ≤ 3 then 0 else 1) ≤ 1
    split_ifs <;> decide
  have hblock : ∀ a b : Int, 0 ≤ a → a ≤ 2 → 0 ≤ b → b ≤ 2 →
      (fun i : Int => if 6 ≤ i ∧ i ≤ 18 ∧ 1 ≤ i % 5 ∧ i % 5 ≤ 3 then 0 else 1)
        ((1 + a) * 5 + (1 + b)) = 0 := by
    intro a b h1 h2 h3 h4
    show (if 6 ≤ (1 + a) * 5 + (1 + b) ∧ (1 + a) * 5 + (1 + b) ≤ 18
      ∧ 1 ≤ ((1 + a) * 5 + (1 + b)) % 5 ∧ ((1 + a) * 5 + (1 + b)) % 5 ≤ 3 then 0 else 1) = 0
    rw [if_pos (by omega)]
  exact ⟨by decide, by decide, h01, hblock,
    img_hole_fill_hole_block 5 5 (fun _ => 0) (fun i => i) _ 1 1
      (by decide) (by decide) (by decide) (by decide) h01 hblock 1 1
      (by decide) (by decide) (by decide) (by decide)⟩


/-! ## First-order recursive filter -/

/-- After `n` iterations of `img_iir_t` the pixels `[0, n)` hold the blended value. -/
theorem img_iir_t_loop (st inp : Img) (alpha : ℚ) (n : Nat) :
    forLoop (fun i m => store m (i : Int) (m i * alpha + (1 - alpha) * inp i)) n st
      = updFrame st (fun x => st x * alpha + (1 - alpha) * inp x) n := by
  induction n with
  | zero => rw [forLoop_zero, updFrame_zero]
  | succ n ih =>
    rw [forLoop_succ, ih]
    exact store_updFrame _ _ _ _ (by rw [updFrame_at])

/-- What one call of `img_iir_t` leaves at a pixel of the frame. -/
theorem img_iir_t_at (W H : Int) (st inp : Img) (alpha : ℚ) (p : Int)
    (h0 : 0 ≤ p) (h1 : p < W * H) :
    img_iir_t W H st inp alpha p = st p * alpha + (1 - alpha) * inp p := by
  unfold img_iir_t
  rw [img_iir_t_loop, updFrame_inside _ _ _ p h0 (by unfold tripCount; omega)]

/-- Outside the frame `img_iir_t` writes nothing. -/
theorem img_iir_t_outside (W H : Int) (st inp : Img) (alpha : ℚ) (p : Int)
    (h : p < 0 ∨ W * H ≤ p) : img_iir_t W H st inp alpha p = st p := by
  unfold img_iir_t
  rw [img_iir_t_loop]
  unfold updFrame
  rw [if_neg (by unfold tripCount; omega)]

/-- Claim C21: for every prior state frame and every input frame, `img_iir_t` with
`alpha = 0` leaves the state/output frame equal to the new input frame at every one of the
`W*H` pixels. -/
theorem img_iir_t_alpha_zero (W H : Int) (img_inout img_in : Img) (p : Int)
    (h0 : 0 ≤ p) (h1 : p < W * H) :
    img_iir_t W H img_inout img_in 0 p = img_in p := by
  rw [img_iir_t_at W H img_inout img_in 0 p h0 h1]
  ring

/-- Witness for C21: pixel 3 of a 2x2 frame. -/
theorem img_iir_t_alpha_zero_witness :
    (0 : Int) ≤ 3 ∧ (3 : Int) < 2 * 2 ∧
    img_iir_t 2 2 (fun _ => 7) (fun i => i) 0 3 = (fun i : Int => (i : ℚ)) 3 :=
  ⟨by decide, by decide,
    img_iir_t_alpha_zero 2 2 (fun _ => 7) (fun i => i) 3 (by decide) (by decide)⟩

/-- One call of `img_iir_t` with `alpha = 1` returns the state frame unchanged. -/
theorem img_iir_t_alpha_one_call (W H : Int) (st inp : Img) :
    img_iir_t W H st inp 1 = st := by
  funext p
  by_cases h : 0 ≤ p ∧ p < W * H
  · rw [img_iir_t_at W H st inp 1 p h.1 h.2]
    ring
  · exact img_iir_t_outside W H st inp 1 p (by omega)

/-- Claim C22: for every initial state frame and every sequence of input frames, any
number `n` of calls of `img_iir_t` with `alpha = 1` leaves the state/output frame equal to
its initial contents at every pixel. -/
theorem img_iir_t_alpha_one (W H : Int) (x : Nat → Img) (img_inout : Img) (n : Nat)
    (p : Int) : img_iir_t_calls W H x 1 n img_inout p = img_inout p := by
  induction n with
  | zero => rfl
  | succ n ih =>
    show img_iir_t W H (img_iir_t_calls W H x 1 n img_inout) (x (n + 1)) 1 p = _
    rw [img_iir_t_alpha_one_call, ih]


/-! ## Weighted running average: zero weights -/

/-- One call of `img_weighted_iir`: it returns, and at a pixel of the frame the three
written buffers hold `wOut`, `wNumer`, `wDenom`. -/
theorem img_weighted_iir_at (W H : Int) (out inp numer w denom : Img) (alpha : ℚ) (p : Int)
    (h0 : 0 ≤ p) (h1 : p < W * H) :
    ∃ r : WeightedIir, img_weighted_iir W H out inp numer w denom alpha = some r ∧
      r.img_out p = wOut numer denom w inp alpha p ∧
      r.img_in_w_avg p = wNumer numer w inp alpha p ∧
      r.img_w_avg p = wDenom denom w alpha p := by
  refine ⟨_, img_weighted_iir_loop out inp numer w denom alpha _, ?_⟩
  have hp : p < ((tripCount 0 (0 + IMG_SZ W H) : Nat) : Int) := by
    unfold tripCount IMG_SZ
    omega
  exact ⟨updFrame_inside _ _ _ p h0 hp, updFrame_inside _ _ _ p h0 hp,
    updFrame_inside _ _ _ p h0 hp⟩

/-- Claim C23 as stated fails: with `alpha = 1/2`, numerator and denominator states 1 and
weight 0 on a 1x1 frame, the first call outputs `(1/2)/(1/2) = 1`, not 0. -/
theorem img_weighted_iir_zero_weight_nonzero_output :
    (img_weighted_iir_calls 1 1 (fun _ _ => 3) (fun _ _ => 0) (1 / 2) 1
        { img_out := fun _ => 0, img_in_w_avg := fun _ => 1, img_w_avg := fun _ => 1 }).map
      (fun r => r.img_out 0) = some 1 := by
  obtain ⟨r, hr, ho, _, _⟩ := img_weighted_iir_at 1 1 (fun _ => 0) (fun _ => 3) (fun _ => 1)
    (fun _ => 0) (fun _ => 1) (1 / 2) 0 (by decide) (by decide)
  show ((some _ : Option WeightedIir).bind _).map _ = _
  rw [Option.some_bind, hr, Option.map_some', ho]
  norm_num [wOut, wDenom, wNumer]

/-- While the weight at `p` is zero and the denominator state at `p` started at zero, every
call returns, keeps the denominator at `p` zero and outputs 0 at `p`. -/
theorem img_weighted_iir_calls_zero (W H : Int) (x w : Nat → Img) (alpha : ℚ)
    (st : WeightedIir) (p : Int) (h0 : 0 ≤ p) (h1 : p < W * H) (hd : st.img_w_avg p = 0)
    (n : Nat) (hw : ∀ j, 1 ≤ j → j ≤ n → w j p = 0) :
    ∃ r : WeightedIir, img_weighted_iir_calls W H x w alpha n st = some r ∧
      r.img_w_avg p = 0 ∧ (1 ≤ n → r.img_out p = 0) := by
  induction n with
  | zero => exact ⟨st, rfl, hd, fun h => by omega⟩
  | succ n ih =>
    obtain ⟨s, hs, hsd, _⟩ := ih (fun j a b => hw j a (by omega))
    obtain ⟨r, hr, ho, _, hden⟩ := img_weighted_iir_at W H s.img_out (x (n + 1))
      s.img_in_w_avg (w (n + 1)) s.img_w_avg alpha p h0 h1
    have hz : wDenom s.img_w_avg (w (n + 1)) alpha p = 0 := by
      unfold wDenom
      rw [hsd, hw (n + 1) (by omega) le_rfl]
      ring
    refine ⟨r, ?_, ?_, ?_⟩
    · show (img_weighted_iir_calls W H x w alpha n st).bind _ = _
      rw [hs, Option.some_bind, hr]
    · rw [hden, hz]
    · intro _
      rw [ho]
      unfold wOut
      rw [if_pos hz]

/-- Claim C23, amended: for every `alpha`, every `n ≥ 1` and every sequence of input
frames, when the denominator state at pixel `p` is 0 before the first call and
`img_weighted_iir` is called `n` times in a row with a weight that is zero at `p` on each
call, the calls run to a result and the output at `p` is 0 after the `n`-th call (so after
each of the calls). -/
theorem img_weighted_iir_zero_weight_from_zero (W H : Int) (x w : Nat → Img) (alpha : ℚ)
    (st : WeightedIir) (p : Int) (h0 : 0 ≤ p) (h1 : p < W * H) (hd : st.img_w_avg p = 0)
    (n : Nat) (hn : 1 ≤ n) (hw : ∀ j, 1 ≤ j → j ≤ n → w j p = 0) :
    ∃ r : WeightedIir, img_weighted_iir_calls W H x w alpha n st = some r ∧
      r.img_out p = 0 := by
  obtain ⟨r, hr, _, ho⟩ := img_weighted_iir_calls_zero W H x w alpha st p h0 h1 hd n hw
  exact ⟨r, hr, ho hn⟩

/-- Witness for the amended C23: three calls on a 1x1 frame with zero-initialised state. -/
theorem img_weighted_iir_zero_weight_from_zero_witness :
    (0 : Int) ≤ 0 ∧ (0 : Int) < 1 * 1 ∧ 1 ≤ 3 ∧
    (∀ j : Nat, 1 ≤ j → j ≤ 3 → (fun (_ : Nat) (_ : Int) => (0 : ℚ)) j 0 = 0) ∧
    ∃ r : WeightedIir,
      img_weighted_iir_calls 1 1 (fun _ _ => 3) (fun _ _ => 0) (1 / 2) 3
        { img_out := fun _ => 9, img_in_w_avg := fun _ => 0, img_w_avg := fun _ => 0 }
        = some r ∧ r.img_out 0 = 0 :=
  ⟨by decide, by decide, by decide, fun _ _ _ => rfl,
    img_weighted_iir_zero_weight_from_zero 1 1 (fun _ _ => 3) (fun _ _ => 0) (1 / 2)
      { img_out := fun _ => 9, img_in_w_avg := fun _ => 0, img_w_avg := fun _ => 0 } 0
      (by decide) (by decide) rfl 3 (by decide) (fun _ _ _ => rfl)⟩


/-! ## Selective median on a monotonic sequence -/

theorem MID3_increasing (a b c : ℚ) (h1 : a < b) (h2 : b < c) : MID3 a b c = b := by
  unfold MID3
  rw [min_eq_left (le_of_lt h1), max_eq_right (le_of_lt h1), min_eq_left (le_of_lt h2),
    max_eq_right (le_of_lt h1)]

theorem MID3_decreasing (a b c : ℚ) (h1 : b < a) (h2 : c < b) : MID3 a b c = b := by
  unfold MID3
  rw [min_eq_right (le_of_lt h1), max_eq_left (le_of_lt h1),
    min_eq_right (le_of_lt (lt_trans h2 h1)), max_eq_left (le_of_lt h2)]

theorem MID3_twice (a b : ℚ) : MID3 a b b = b := by
  unfold MID3
  rcases le_total a b with h | h
  · rw [min_eq_left h, max_eq_right h, min_self, max_eq_right h]
  · rw [min_eq_right h, max_eq_left h, min_eq_right h, max_self]

/-- Claim C24: for `img_fb_mid3_t` with threshold 0 and `*state = s` in `[0,4)`, at every
pixel where the five frame values `f0 < f1 < f2 < f3 < f4` (or `f0 > f1 > f2 > f3 > f4`)
are strictly monotonic in time (`f0..f3` the history slots `(s+0..3) mod 4`, `f4` the new
frame), the test `|a - b| > 0` of the filter holds for the medians `a`, `b` it computes, and
the filter outputs `f2`. -/
theorem img_fb_mid3_t_monotonic (W H : Int) (img_out img_buf img_in : Img) (s p : Int)
    (hs0 : 0 ≤ s) (hs4 : s < 4) (h0 : 0 ≤ p) (h1 : p < W * H)
    (hmono :
      (img_buf (IMG_SZ W H * ((s + 0) % 4) + p) < img_buf (IMG_SZ W H * ((s + 1) % 4) + p)
        ∧ img_buf (IMG_SZ W H * ((s + 1) % 4) + p) < img_buf (IMG_SZ W H * ((s + 2) % 4) + p)
        ∧ img_buf (IMG_SZ W H * ((s + 2) % 4) + p) < img_buf (IMG_SZ W H * ((s + 3) % 4) + p)
        ∧ img_buf (IMG_SZ W H * ((s + 3) % 4) + p) < img_in p)
      ∨ (img_buf (IMG_SZ W H * ((s + 0) % 4) + p) > img_buf (IMG_SZ W H * ((s + 1) % 4) + p)
        ∧ img_buf (IMG_SZ W H * ((s + 1) % 4) + p) > img_buf (IMG_SZ W H * ((s + 2) % 4) + p)
        ∧ img_buf (IMG_SZ W H * ((s + 2) % 4) + p) > img_buf (IMG_SZ W H * ((s + 3) % 4) + p)
        ∧ img_buf (IMG_SZ W H * ((s + 3) % 4) + p) > img_in p)) :
    |MID3 (img_buf (IMG_SZ W H * ((s + 0) % 4) + p)) (img_buf (IMG_SZ W H * ((s + 1) % 4) + p))
          (img_buf (IMG_SZ W H * ((s + 2) % 4) + p))
        - MID3 (img_buf (IMG_SZ W H * ((s + 2) % 4) + p)) (img_in p) (img_in p)| > 0
    ∧ (img_fb_mid3_t W H img_out img_buf img_in 0 s).1 p
        = img_buf (IMG_SZ W H * ((s + 2) % 4) + p) := by
  have e0 : (s + 0) % 4 = s := by omega
  rw [e0] at hmono ⊢
  have key : |MID3 (img_buf (IMG_SZ W H * s + p)) (img_buf (IMG_SZ W H * ((s + 1) % 4) + p))
          (img_buf (IMG_SZ W H * ((s + 2) % 4) + p))
        - MID3 (img_buf (IMG_SZ W H * ((s + 2) % 4) + p)) (img_in p) (img_in p)| > 0 := by
    rw [MID3_twice]
    apply abs_pos.mpr
    rcases hmono with ⟨a, b, c, d⟩ | ⟨a, b, c, d⟩
    · rw [MID3_increasing _ _ _ a b]
      linarith
    · rw [MID3_decreasing _ _ _ a b]
      linarith
  refine ⟨key, ?_⟩
  rw [img_fb_mid3_t_at W H img_out img_buf img_in 0 s p hs0 h0 h1, if_pos key]

/-- Witness for C24: a 1x1 frame, rotation index 0, the values 1 < 2 < 3 < 4 < 5. -/
theorem img_fb_mid3_t_monotonic_witness :
    (0 : Int) ≤ 0 ∧ (0 : Int) < 4 ∧ (0 : Int) < 1 * 1 ∧
    (|MID3 ((fun i : Int => (i : ℚ) + 1) (IMG_SZ 1 1 * ((0 + 0) % 4) + 0))
          ((fun i : Int => (i : ℚ) + 1) (IMG_SZ 1 1 * ((0 + 1) % 4) + 0))
          ((fun i : Int => (i : ℚ) + 1) (IMG_SZ 1 1 * ((0 + 2) % 4) + 0))
        - MID3 ((fun i : Int => (i : ℚ) + 1) (IMG_SZ 1 1 * ((0 + 2) % 4) + 0))
          ((fun _ : Int => (5 : ℚ)) 0) ((fun _ : Int => (5 : ℚ)) 0)| > 0
    ∧ (img_fb_mid3_t 1 1 (fun _ => 0) (fun i => i + 1) (fun _ => 5) 0 0).1 0
        = (fun i : Int => (i : ℚ) + 1) (IMG_SZ 1 1 * ((0 + 2) % 4) + 0)) :=
  ⟨by decide, by decide, by decide,
    img_fb_mid3_t_monotonic 1 1 (fun _ => 0) (fun i => i + 1) (fun _ => 5) 0 0
      (by decide) (by decide) (by decide) (by decide)
      (Or.inl (by norm_num [IMG_SZ]))⟩


/-! ## Three-frame temporal FIR -/

theorem img_fir3_t_raw_at (W H : Int) (img_out i0 i1 i2 coff : Img) (p : Int)
    (h0 : 0 ≤ p) (h1 : p < W * H) :
    img_fir3_t_raw W H img_out i0 i1 i2 coff p
      = i0 p * coff 0 + i1 p * coff 1 + i2 p * coff 2 :=
  frame_loop_at W H (fun i => i0 i * coff 0 + i1 i * coff 1 + i2 i * coff 2) img_out p h0 h1

/-- After `n` calls of `img_fir3_t` from `*state = 0`: `*state` is `n mod 2`, the slot
written last holds `x n` and the other slot holds `x (n-1)`. -/
theorem img_fir3_t_calls_inv (W H : Int) (x coff : Nat → Img) (img_out img_buf : Img)
    (n : Nat) :
    (img_fir3_t_calls W H x coff n (img_out, img_buf, 0)).2.2 = (n : Int) % 2 ∧
    (n % 2 = 1 →
      (∀ p : Int, 0 ≤ p → p < IMG_SZ W H →
        (img_fir3_t_calls W H x coff n (img_out, img_buf, 0)).2.1 (0 + p) = x n p) ∧
      (2 ≤ n → ∀ p : Int, 0 ≤ p → p < IMG_SZ W H →
        (img_fir3_t_calls W H x coff n (img_out, img_buf, 0)).2.1 (0 + IMG_SZ W H + p)
          = x (n - 1) p)) ∧
    (n % 2 = 0 →
      (1 ≤ n → ∀ p : Int, 0 ≤ p → p < IMG_SZ W H →
        (img_fir3_t_calls W H x coff n (img_out, img_buf, 0)).2.1 (0 + IMG_SZ W H + p)
          = x n p) ∧
      (2 ≤ n → ∀ p : Int, 0 ≤ p → p < IMG_SZ W H →
        (img_fir3_t_calls W H x coff n (img_out, img_buf, 0)).2.1 (0 + p) = x (n - 1) p)) := by
  induction n with
  | zero =>
    refine ⟨rfl, fun h => by omega, fun _ => ⟨fun h => by omega, fun h => by omega⟩⟩
  | succ n ih =>
    obtain ⟨hst, hodd, heven⟩ := ih
    have hcall : img_fir3_t_calls W H x coff (n + 1) (img_out, img_buf, 0)
        = img_fir3_t W H (img_fir3_t_calls W H x coff n (img_out, img_buf, 0)).1
            (img_fir3_t_calls W H x coff n (img_out, img_buf, 0)).2.1
            (x (n + 1)) (coff (n + 1))
            (img_fir3_t_calls W H x coff n (img_out, img_buf, 0)).2.2 := rfl
    rw [hcall, hst]
    rcases Nat.mod_two_eq_zero_or_one n with hn | hn
    · have hs : ((n : Int) % 2) = 0 := by omega
      obtain ⟨_, hprev⟩ := heven hn
      unfold img_fir3_t
      simp only [hs, ne_eq, not_true_eq_false, if_false]
      refine ⟨by omega, fun _ => ⟨?_, ?_⟩, fun h => by omega⟩
      · intro p hp0 hp1
        rw [img_copy_inside _ _ _ _ _ (by omega) (by omega)]
        congr 1
        omega
      · intro h2 p hp0 hp1
        rw [img_copy_outside _ _ _ _ _ (by omega)]
        have hn1 : 1 ≤ n := by omega
        have := (heven hn).1 hn1 p hp0 hp1
        rw [this]
        congr 1
    · have hs : ((n : Int) % 2) = 1 := by omega
      obtain ⟨hcur, hprev⟩ := hodd hn
      unfold img_fir3_t
      simp only [hs, ne_eq, one_ne_zero, not_false_eq_true, if_true]
      refine ⟨by omega, fun h => by omega, fun _ => ⟨?_, ?_⟩⟩
      · intro _ p hp0 hp1
        rw [img_copy_inside _ _ _ _ _ (by omega) (by omega)]
        congr 1
        omega
      · intro h2 p hp0 hp1
        rw [img_copy_outside _ _ _ _ _ (by omega)]
        rw [hcur p hp0 hp1]
        congr 1


/-- Claim C25: starting from `*state = 0`, for every `n ≥ 3` the output of the `n`-th
consecutive call of `img_fir3_t` equals at every pixel
`coff[0]*x_{n-2} + coff[1]*x_{n-1} + coff[2]*x_n`, where `x_i` is the input frame of the
`i`-th call and `coff` the coefficient vector of the `n`-th call; and `*state` alternates
0, 1, 0, 1, ...: after `j` calls it is `j mod 2`. -/
theorem img_fir3_t_steady_state (W H : Int) (x coff : Nat → Img) (img_out img_buf : Img)
    (n : Nat) (hn : 3 ≤ n) (p : Int) (h0 : 0 ≤ p) (h1 : p < W * H) :
    (img_fir3_t_calls W H x coff n (img_out, img_buf, 0)).1 p
      = coff n 0 * x (n - 2) p + coff n 1 * x (n - 1) p + coff n 2 * x n p
    ∧ ∀ j : Nat, (img_fir3_t_calls W H x coff j (img_out, img_buf, 0)).2.2 = (j : Int) % 2 := by
  refine ⟨?_, fun j => (img_fir3_t_calls_inv W H x coff img_out img_buf j).1⟩
  obtain ⟨m, rfl⟩ : ∃ m, n = m + 1 := ⟨n - 1, by omega⟩
  obtain ⟨hst, hodd, heven⟩ := img_fir3_t_calls_inv W H x coff img_out img_buf m
  have hcall : img_fir3_t_calls W H x coff (m + 1) (img_out, img_buf, 0)
      = img_fir3_t W H (img_fir3_t_calls W H x coff m (img_out, img_buf, 0)).1
          (img_fir3_t_calls W H x coff m (img_out, img_buf, 0)).2.1
          (x (m + 1)) (coff (m + 1))
          (img_fir3_t_calls W H x coff m (img_out, img_buf, 0)).2.2 := rfl
  have hp : p < IMG_SZ W H := h1
  have e1 : m + 1 - 1 = m := by omega
  have e2 : m + 1 - 2 = m - 1 := by omega
  rw [hcall, hst, e1, e2]
  rcases Nat.mod_two_eq_zero_or_one m with hm | hm
  · have hs : ((m : Int) % 2) = 0 := by omega
    obtain ⟨hcur, hprev⟩ := heven hm
    unfold img_fir3_t
    simp only [hs, ne_eq, not_true_eq_false, if_false]
    rw [img_fir3_t_raw_at W H _ _ _ _ _ p h0 h1]
    simp only [shift]
    rw [hprev (by omega) p h0 hp, hcur (by omega) p h0 hp]
    ring
  · have hs : ((m : Int) % 2) = 1 := by omega
    obtain ⟨hcur, hprev⟩ := hodd hm
    unfold img_fir3_t
    simp only [hs, ne_eq, one_ne_zero, not_false_eq_true, if_true]
    rw [img_fir3_t_raw_at W H _ _ _ _ _ p h0 h1]
    simp only [shift]
    rw [hprev (by omega) p h0 hp, hcur p h0 hp]
    ring

/-- Witness for C25: the third call on a 1x1 frame. -/
theorem img_fir3_t_steady_state_witness :
    3 ≤ 3 ∧ (0 : Int) ≤ 0 ∧ (0 : Int) < 1 * 1 ∧
    ((img_fir3_t_calls 1 1 (fun j _ => j) (fun _ i => i + 1) 3
        ((fun _ => 0), (fun _ => 0), 0)).1 0
      = (fun (_ : Nat) (i : Int) => (i : ℚ) + 1) 3 0 * (fun (j : Nat) (_ : Int) => (j : ℚ)) (3 - 2) 0
        + (fun (_ : Nat) (i : Int) => (i : ℚ) + 1) 3 1
          * (fun (j : Nat) (_ : Int) => (j : ℚ)) (3 - 1) 0
        + (fun (_ : Nat) (i : Int) => (i : ℚ) + 1) 3 2 * (fun (j : Nat) (_ : Int) => (j : ℚ)) 3 0
    ∧ ∀ j : Nat, (img_fir3_t_calls 1 1 (fun j _ => j) (fun _ i => i + 1) j
        ((fun _ => 0), (fun _ => 0), 0)).2.2 = (j : Int) % 2) :=
  ⟨by decide, by decide, by decide,
    img_fir3_t_steady_state 1 1 (fun j _ => j) (fun _ i => i + 1) (fun _ => 0) (fun _ => 0)
      3 (by decide) 0 (by decide) (by decide)⟩


/-! ## Spatio-temporal median -/

/-- What `img_mid7_st_raw` leaves at a flat index of its run: the median of the five cross
pixels of `img_in1` and twice the centre pixel of `img_in0`; `img_in2` is not read. -/
theorem img_mid7_st_raw_run (W H : Int) (img_out i0 i1 i2 : Img) (k : Int)
    (h1 : W + 1 ≤ k) (h2 : k < W * (H - 1) - 1) :
    img_mid7_st_raw W H img_out i0 i1 i2 k
      = mid7 (i1 (k - W)) (i1 (k - 1)) (i1 k) (i1 (k + 1)) (i1 (k + W)) (i0 k) (i0 k) := by
  have e : img_mid7_st_raw W H img_out i0 i1 i2
      = forLoop (fun i m => store m (0 + W + 1 + (i : Int))
          ((fun j : Int => mid7 (i1 (j - W)) (i1 (j - 1)) (i1 j) (i1 (j + 1)) (i1 (j + W))
            (i0 j) (i0 j)) (0 + W + 1 + (i : Int))))
          (tripCount (0 + W + 1) (0 + W * (H - 1) - 1)) img_out := by
    unfold img_mid7_st_raw
    simp only []
    congr 1
    funext i m
    have a0 : (0 : Int) + 1 + i = 0 + W + 1 + i - W := by ring
    have a1 : (0 : Int) + W + i = 0 + W + 1 + i - 1 := by ring
    have a3 : (0 : Int) + W + 2 + i = 0 + W + 1 + i + 1 := by ring
    have a4 : (0 : Int) + 2 * W + 1 + i = 0 + W + 1 + i + W := by ring
    rw [a0, a1, a3, a4]
  rw [e]
  exact run_loop_at W H (fun j : Int => mid7 (i1 (j - W)) (i1 (j - 1)) (i1 j) (i1 (j + 1))
    (i1 (j + W)) (i0 j) (i0 j)) img_out k h1 h2

/-- Claim C26 fails on the code: on a 3x3 frame whose middle frame has the cross values
1, 2, 3, 4, 5 around the centre, with centre 0 in the preceding frame and 10 in the
following frame, `img_mid7_st_raw` outputs 2 at the centre, whereas the median of
1, 2, 3, 4, 5, 0, 10 is 3. -/
theorem img_mid7_st_raw_ignores_following_frame :
    img_mid7_st_raw 3 3 (fun _ => 0) (fun _ => 0)
        (fun i => if i = 1 then 1 else if i = 3 then 2 else if i = 4 then 3
          else if i = 5 then 4 else if i = 7 then 5 else 0)
        (fun _ => 10) (1 * 3 + 1) = 2
    ∧ mid7 1 2 3 4 5 0 10 = 3 := by
  rw [img_mid7_st_raw_run 3 3 _ _ _ _ _ (by decide) (by decide)]
  constructor
  · norm_num [mid7, List.insertionSort, List.orderedInsert]
  · norm_num [mid7, List.insertionSort, List.orderedInsert]


/-! ## Cross FIR in place -/

/-- An `_sa` routine leaves every index outside `[q + len, q + len + N)` as it was. -/
theorem sa_result_outside (S : Img → Nat → ℚ) (m0 : Img) (r0 : ring_buf_f32_s) (q : Int)
    (N : Nat) (hpos : r0.pos < r0.len) (hN : r0.len ≤ N)
    (hloc : ∀ (img : Img) (i : Nat), i < N → (∀ x, q + i ≤ x → img x = m0 x) →
      S img i = S m0 i)
    (k : Int) (hk : k < q + r0.len ∨ q + r0.len + N ≤ k) :
    (saDrain (q + N) r0.len
      ((saMain S q N (m0, r0, (r0.len : Int))).1,
        (saMain S q N (m0, r0, (r0.len : Int))).2.1)).1 k = m0 k := by
  have hloc2 : ∀ (img : Img) (i : Nat), i < N → (∀ x, q + i ≤ x → img x = m0 x) →
      S img i = (fun j => if j < N then S m0 j else 0) i := by
    intro img i hi hx
    simp only [if_pos hi]
    exact hloc img i hi hx
  rw [saMain_eq S m0 r0 q (fun j => if j < N then S m0 j else 0) N hpos hloc2 N le_rfl]
  simp only []
  rw [saDrain_eq m0 r0 q (fun j => if j < N then S m0 j else 0) N hpos hN
    (fun j hj => if_neg (by omega)) r0.len]
  simp only [saImg]
  have a : ¬ (q + (r0.len : Int) ≤ k ∧ k < q + ((N + r0.len : Nat) : Int)) := by omega
  rw [if_neg a]

theorem img_fir_cross_sa_shape (W H : Int) (img_inout coff : Img) (rbuf : ring_buf_f32_s) :
    img_fir_cross_sa W H img_inout coff rbuf
      = saDrain (0 + W + 1 - 3 * W
          + tripCount (0 + W + 1 - 3 * W) (0 + W * (H - 1) - 1 - 3 * W))
        (tripCount 0 (3 * W))
        ((saMain (crossSum W coff) (0 + W + 1 - 3 * W)
            (tripCount (0 + W + 1 - 3 * W) (0 + W * (H - 1) - 1 - 3 * W))
            (img_inout, rbuf, 3 * W)).1,
         (saMain (crossSum W coff) (0 + W + 1 - 3 * W)
            (tripCount (0 + W + 1 - 3 * W) (0 + W * (H - 1) - 1 - 3 * W))
            (img_inout, rbuf, 3 * W)).2.1) := rfl

theorem crossSum_local (W : Int) (coff m0 img : Img) (i : Nat) (hW : 1 ≤ W)
    (h : ∀ x : Int, (i : Int) ≤ x → img x = m0 x) :
    crossSum W coff img i = crossSum W coff m0 i := by
  unfold crossSum
  rw [h (0 + 1 + i) (by omega), h (0 + 1 + W - 1 + i) (by omega), h (0 + 1 + W + i) (by omega),
    h (0 + 1 + W + 1 + i) (by omega), h (0 + 1 + W + W + i) (by omega)]

/-- The cross sum of iteration `k - (W+1)`, written with the neighbours of flat index `k`. -/
theorem crossSum_at (W : Int) (coff img : Img) (k : Int) (h : W + 1 ≤ k) :
    crossSum W coff img (k - (W + 1)).toNat
      = coff 0 * img (k - W) + coff 1 * img (k - 1) + coff 2 * img k
        + coff 3 * img (k + 1) + coff 4 * img (k + W) := by
  unfold crossSum
  have hk : (((k - (W + 1)).toNat : Nat) : Int) = k - (W + 1) := by omega
  rw [hk]
  have e0 : 0 + 1 + (k - (W + 1)) = k - W := by ring
  have e1 : 0 + 1 + W - 1 + (k - (W + 1)) = k - 1 := by ring
  have e2 : 0 + 1 + W + (k - (W + 1)) = k := by ring
  have e3 : 0 + 1 + W + 1 + (k - (W + 1)) = k + 1 := by ring
  have e4 : 0 + 1 + W + W + (k - (W + 1)) = k + W := by ring
  rw [e0, e1, e2, e3, e4]
  ring

/-- With a delay line of capacity `3*W`, the frame left by `img_fir_cross_sa`: the cross
sum of the original frame inside the run `[W+1, W*(H-1)-1)`, the original frame outside. -/
theorem img_fir_cross_sa_frame (W H : Int) (img coff : Img) (rbuf : ring_buf_f32_s)
    (hW : 2 ≤ W) (hH : 6 ≤ H) (hcap : (rbuf.len : Int) = 3 * W) (hpos : rbuf.pos < rbuf.len)
    (k : Int) :
    (img_fir_cross_sa W H img coff rbuf).1 k
      = if W + 1 ≤ k ∧ k < W * (H - 1) - 1 then
          coff 0 * img (k - W) + coff 1 * img (k - 1) + coff 2 * img k
            + coff 3 * img (k + 1) + coff 4 * img (k + W)
        else img k := by
  have hWH : 4 * W + 2 ≤ W * (H - 1) := by
    nlinarith [mul_nonneg (show (0 : Int) ≤ W - 2 by omega) (show (0 : Int) ≤ H - 6 by omega)]
  rw [img_fir_cross_sa_shape]
  have hc : tripCount 0 (3 * W) = rbuf.len := by
    unfold tripCount
    omega
  rw [hc, ← hcap]
  have hloc : ∀ (im : Img) (i : Nat),
      i < tripCount (0 + W + 1 - (rbuf.len : Int)) (0 + W * (H - 1) - 1 - (rbuf.len : Int)) →
      (∀ x, 0 + W + 1 - (rbuf.len : Int) + (i : Int) ≤ x → im x = img x) →
      crossSum W coff im i = crossSum W coff img i :=
    fun im i _ hx => crossSum_local W coff img im i (by omega) (fun x hx2 => hx x (by omega))
  by_cases hk : W + 1 ≤ k ∧ k < W * (H - 1) - 1
  · rw [if_pos hk, sa_result (crossSum W coff) img rbuf (0 + W + 1 - (rbuf.len : Int))
      (tripCount (0 + W + 1 - (rbuf.len : Int)) (0 + W * (H - 1) - 1 - (rbuf.len : Int)))
      hpos (by unfold tripCount; omega) hloc k (by omega) (by unfold tripCount; omega)]
    have hq : 0 + W + 1 - (rbuf.len : Int) + (rbuf.len : Int) = W + 1 := by ring
    rw [hq, crossSum_at W coff img k hk.1]
  · rw [if_neg hk, sa_result_outside (crossSum W coff) img rbuf (0 + W + 1 - (rbuf.len : Int))
      (tripCount (0 + W + 1 - (rbuf.len : Int)) (0 + W * (H - 1) - 1 - (rbuf.len : Int)))
      hpos (by unfold tripCount; omega) hloc k (by unfold tripCount; omega)]

/-- Outside the run `[W+1, W*(H-1)-1)` the output buffer of `img_fir_cross` is untouched. -/
theorem img_fir_cross_outside (W H : Int) (img_out img_in coff : Img) (k : Int)
    (h : k < W + 1 ∨ W * (H - 1) - 1 ≤ k) :
    img_fir_cross W H img_out img_in coff k = img_out k := by
  have e : img_fir_cross W H img_out img_in coff
      = forLoop (fun i m => store m (0 + W + 1 + (i : Int)) (crossSum W coff img_in i))
          (tripCount (0 + W + 1) (0 + W * (H - 1) - 1)) img_out := rfl
  rw [e, forLoop_store (fun i => crossSum W coff img_in i)]
  have hr : ¬ (0 + W + 1 ≤ k
      ∧ k < 0 + W + 1 + ((tripCount (0 + W + 1) (0 + W * (H - 1) - 1) : Nat) : Int)) := by
    unfold tripCount
    omega
  rw [if_neg hr]

/-- Claim C27: for `W ≥ 2`, `H ≥ 6` and a delay line that is a FIFO of capacity exactly
`3*W` with arbitrary initial contents, `img_fir_cross_sa` writes exactly the flat indices
`W+1 ≤ k < W*(H-1)-1`, all within the frame; the value committed at each of them equals the
output of `img_fir_cross` computed from the original frame; every other index keeps its
value; and the resulting frame is the same for any other such delay line. -/
theorem img_fir_cross_sa_matches_img_fir_cross (W H : Int) (img_out img coff : Img)
    (rbuf rbuf2 : ring_buf_f32_s) (hW : 2 ≤ W) (hH : 6 ≤ H)
    (hcap : (rbuf.len : Int) = 3 * W) (hpos : rbuf.pos < rbuf.len)
    (hcap2 : (rbuf2.len : Int) = 3 * W) (hpos2 : rbuf2.pos < rbuf2.len) :
    (0 ≤ W + 1 ∧ W * (H - 1) - 1 ≤ W * H) ∧
    (∀ k : Int, W + 1 ≤ k → k < W * (H - 1) - 1 →
      (img_fir_cross_sa W H img coff rbuf).1 k = img_fir_cross W H img_out img coff k) ∧
    (∀ k : Int, (k < W + 1 ∨ W * (H - 1) - 1 ≤ k) →
      (img_fir_cross_sa W H img coff rbuf).1 k = img k) ∧
    (img_fir_cross_sa W H img coff rbuf).1 = (img_fir_cross_sa W H img coff rbuf2).1 := by
  refine ⟨⟨by omega, ?_⟩, ?_, ?_, ?_⟩
  · have e : W * (H - 1) = W * H - W := by ring
    omega
  · intro k h1 h2
    rw [img_fir_cross_sa_frame W H img coff rbuf hW hH hcap hpos k, if_pos ⟨h1, h2⟩,
      img_fir_cross_run W H img_out img coff k h1 h2]
  · intro k hk
    rw [img_fir_cross_sa_frame W H img coff rbuf hW hH hcap hpos k, if_neg (by omega)]
  · funext k
    rw [img_fir_cross_sa_frame W H img coff rbuf hW hH hcap hpos k,
      img_fir_cross_sa_frame W H img coff rbuf2 hW hH hcap2 hpos2 k]

/-- Witness for C27: a 2x6 frame and two 6-slot delay lines with different contents. -/
theorem img_fir_cross_sa_matches_img_fir_cross_witness :
    (2 : Int) ≤ 2 ∧ (6 : Int) ≤ 6 ∧ ((6 : Nat) : Int) = 3 * 2 ∧ 4 < 6 ∧ 0 < 6 ∧
    ((0 ≤ (2 : Int) + 1 ∧ (2 : Int) * (6 - 1) - 1 ≤ 2 * 6) ∧
    (∀ k : Int, 2 + 1 ≤ k → k < 2 * (6 - 1) - 1 →
      (img_fir_cross_sa 2 6 (fun i => i) (fun i => i + 1) ⟨fun _ => 5, 6, 4⟩).1 k
        = img_fir_cross 2 6 (fun _ => 0) (fun i => i) (fun i => i + 1) k) ∧
    (∀ k : Int, (k < 2 + 1 ∨ 2 * (6 - 1) - 1 ≤ k) →
      (img_fir_cross_sa 2 6 (fun i => i) (fun i => i + 1) ⟨fun _ => 5, 6, 4⟩).1 k
        = (fun i : Int => (i : ℚ)) k) ∧
    (img_fir_cross_sa 2 6 (fun i => i) (fun i => i + 1) ⟨fun _ => 5, 6, 4⟩).1
      = (img_fir_cross_sa 2 6 (fun i => i) (fun i => i + 1) ⟨fun i => i, 6, 0⟩).1) :=
  ⟨by decide, by decide, by decide, by decide, by decide,
    img_fir_cross_sa_matches_img_fir_cross 2 6 (fun _ => 0) (fun i => i) (fun i => i + 1)
      ⟨fun _ => 5, 6, 4⟩ ⟨fun i => i, 6, 0⟩ (by decide) (by decide) (by decide) (by decide)
      (by decide) (by decide)⟩


/-- Claim C28: `img_fir_cross` writes exactly the contiguous run of flat indices
`W+1 ≤ k < W*(H-1)-1` of `img_out` and nothing else. For a pixel `(r, c)` of the frame
(`0 ≤ c < W`): row 0, row `H-1`, pixel `(1,0)` and pixel `(H-2,W-1)` keep their prior
contents, whereas every other pixel of column 0 and column `W-1` in rows `1..H-2` is
overwritten with the flat-index formula
`c0*in[k-W] + c1*in[k-1] + c2*in[k] + c3*in[k+1] + c4*in[k+W]`, as is every index of the
run. -/
theorem img_fir_cross_written_run (W H : Int) (img_out img_in coff : Img) (r c : Int)
    (hc0 : 0 ≤ c) (hc1 : c < W) :
    ((r = 0 ∨ r = H - 1 ∨ (r = 1 ∧ c = 0) ∨ (r = H - 2 ∧ c = W - 1)) →
      img_fir_cross W H img_out img_in coff (r * W + c) = img_out (r * W + c)) ∧
    ((1 ≤ r ∧ r ≤ H - 2 ∧ (c = 0 ∨ c = W - 1) ∧ ¬ (r = 1 ∧ c = 0)
        ∧ ¬ (r = H - 2 ∧ c = W - 1)) →
      img_fir_cross W H img_out img_in coff (r * W + c)
        = coff 0 * img_in (r * W + c - W) + coff 1 * img_in (r * W + c - 1)
          + coff 2 * img_in (r * W + c) + coff 3 * img_in (r * W + c + 1)
          + coff 4 * img_in (r * W + c + W)) ∧
    (∀ k : Int, (k < W + 1 ∨ W * (H - 1) - 1 ≤ k) →
      img_fir_cross W H img_out img_in coff k = img_out k) ∧
    (∀ k : Int, W + 1 ≤ k → k < W * (H - 1) - 1 →
      img_fir_cross W H img_out img_in coff k
        = coff 0 * img_in (k - W) + coff 1 * img_in (k - 1) + coff 2 * img_in k
          + coff 3 * img_in (k + 1) + coff 4 * img_in (k + W)) := by
  refine ⟨?_, ?_, fun k hk => img_fir_cross_outside W H img_out img_in coff k hk,
    fun k h1 h2 => img_fir_cross_run W H img_out img_in coff k h1 h2⟩
  · intro h
    apply img_fir_cross_outside
    rcases h with h | h | ⟨h, h2⟩ | ⟨h, h2⟩
    · subst h
      left
      omega
    · subst h
      right
      have e : (H - 1) * W = W * (H - 1) := by ring
      omega
    · subst h h2
      left
      omega
    · subst h h2
      right
      have e : (H - 2) * W = W * (H - 1) - W := by ring
      omega
  · rintro ⟨hr1, hr2, hcol, hn1, hn2⟩
    have ha : W ≤ r * W := by nlinarith
    have hb : r * W ≤ (H - 2) * W := by nlinarith
    have e : (H - 2) * W = W * (H - 1) - W := by ring
    have e3 : (H - 3) * W = W * (H - 1) - 2 * W := by ring
    have h2 : r < 2 ∨ 2 * W ≤ r * W := by
      by_cases hr : r < 2
      · exact Or.inl hr
      · exact Or.inr (by nlinarith)
    have h3 : H - 3 < r ∨ r * W ≤ (H - 3) * W := by
      by_cases hr : H - 3 < r
      · exact Or.inl hr
      · exact Or.inr (by nlinarith)
    apply img_fir_cross_run <;> omega

/-- Witness for C28: pixel `(2, 0)` of a 3x5 frame, in column 0 and overwritten. -/
theorem img_fir_cross_written_run_witness :
    (0 : Int) ≤ 0 ∧ (0 : Int) < 3 ∧
    img_fir_cross 3 5 (fun _ => 0) (fun i => i) (fun _ => 1) (2 * 3 + 0)
      = (fun _ => (1 : ℚ)) 0 * (fun i : Int => (i : ℚ)) (2 * 3 + 0 - 3)
        + (fun _ => (1 : ℚ)) 1 * (fun i : Int => (i : ℚ)) (2 * 3 + 0 - 1)
        + (fun _ => (1 : ℚ)) 2 * (fun i : Int => (i : ℚ)) (2 * 3 + 0)
        + (fun _ => (1 : ℚ)) 3 * (fun i : Int => (i : ℚ)) (2 * 3 + 0 + 1)
        + (fun _ => (1 : ℚ)) 4 * (fun i : Int => (i : ℚ)) (2 * 3 + 0 + 3) :=
  ⟨by decide, by decide,
    (img_fir_cross_written_run 3 5 (fun _ => 0) (fun i => i) (fun _ => 1) 2 0
      (by decide) (by decide)).2.1 (by decide)⟩


/-! ## Plane-fit correction: adding a plane -/

theorem img_plane_mf_pix_sel (z0 z1 z2 z3 z4 z5 z6 z7 z8 : ℚ) :
    img_plane_mf_pix z0 z1 z2 z3 z4 z5 z6 z7 z8
      = pmf_zc (pmf_sel (pmf_e z0 z1 z2 z3 z4 z5 z6 z7 z8)) z0 z1 z2 z3 z4 z5 z6 z7 z8 := rfl

/-- The selected model index is one of `0..7`. -/
theorem pmf_sel_le (e : Nat → ℚ) : pmf_sel e ≤ 7 := by
  obtain ⟨m1, hm1, p1, a1, b1⟩ := pmf_pick_first_min e 0 1 0
    rfl le_rfl (fun i hi => by rw [Nat.le_zero.mp hi]) (fun i hi => by omega)
  obtain ⟨m2, hm2, p2, a2, b2⟩ := pmf_pick_first_min e 1 2 m1 rfl hm1 a1 b1
  obtain ⟨m3, hm3, p3, a3, b3⟩ := pmf_pick_first_min e 2 3 m2 rfl hm2 a2 b2
  obtain ⟨m4, hm4, p4, a4, b4⟩ := pmf_pick_first_min e 3 4 m3 rfl hm3 a3 b3
  obtain ⟨m5, hm5, p5, a5, b5⟩ := pmf_pick_first_min e 4 5 m4 rfl hm4 a4 b4
  obtain ⟨m6, hm6, p6, a6, b6⟩ := pmf_pick_first_min e 5 6 m5 rfl hm5 a5 b5
  obtain ⟨m7, hm7, p7, a7, b7⟩ := pmf_pick_first_min e 6 7 m6 rfl hm6 a6 b6
  unfold pmf_sel
  rw [p1, p2, p3, p4, p5, p6, p7]
  exact hm7

/-- Adding the plane `a + b*i + c*j` to a patch leaves every residual as it is. -/
theorem pmf_e_add_plane (z0 z1 z2 z3 z4 z5 z6 z7 z8 a b c : ℚ) (m : Nat) (hm : m ≤ 7) :
    pmf_e (z0 + (a + b * 0 + c * 0)) (z1 + (a + b * 0 + c * 1)) (z2 + (a + b * 0 + c * 2))
        (z3 + (a + b * 1 + c * 0)) (z4 + (a + b * 1 + c * 1)) (z5 + (a + b * 1 + c * 2))
        (z6 + (a + b * 2 + c * 0)) (z7 + (a + b * 2 + c * 1)) (z8 + (a + b * 2 + c * 2)) m
      = pmf_e z0 z1 z2 z3 z4 z5 z6 z7 z8 m := by
  have h : m = 0 ∨ m = 1 ∨ m = 2 ∨ m = 3 ∨ m = 4 ∨ m = 5 ∨ m = 6 ∨ m = 7 := by omega
  rcases h with h | h | h | h | h | h | h | h <;> subst h
  · rw [pmf_e_at0, pmf_e_at0]
    unfold pmf_e0 sqr_f32
    ring
  · rw [pmf_e_at1, pmf_e_at1]
    unfold pmf_e1 sqr_f32
    ring
  · rw [pmf_e_at2, pmf_e_at2]
    unfold pmf_e2 sqr_f32
    ring
  · rw [pmf_e_at3, pmf_e_at3]
    unfold pmf_e3 sqr_f32
    ring
  · rw [pmf_e_at4, pmf_e_at4]
    unfold pmf_e4 sqr_f32
    ring
  · rw [pmf_e_at5, pmf_e_at5]
    unfold pmf_e5 sqr_f32
    ring
  · rw [pmf_e_at6, pmf_e_at6]
    unfold pmf_e6 sqr_f32
    ring
  · rw [pmf_e_at7, pmf_e_at7]
    unfold pmf_e7 sqr_f32
    ring

/-- Adding the plane `a + b*i + c*j` to a patch adds its centre value `a + b + c` to every
corrected estimate. -/
theorem pmf_zc_add_plane (z0 z1 z2 z3 z4 z5 z6 z7 z8 a b c : ℚ) (m : Nat) (hm : m ≤ 7) :
    pmf_zc m (z0 + (a + b * 0 + c * 0)) (z1 + (a + b * 0 + c * 1)) (z2 + (a + b * 0 + c * 2))
        (z3 + (a + b * 1 + c * 0)) (z4 + (a + b * 1 + c * 1)) (z5 + (a + b * 1 + c * 2))
        (z6 + (a + b * 2 + c * 0)) (z7 + (a + b * 2 + c * 1)) (z8 + (a + b * 2 + c * 2))
      = pmf_zc m z0 z1 z2 z3 z4 z5 z6 z7 z8 + (a + b + c) := by
  have h : m = 0 ∨ m = 1 ∨ m = 2 ∨ m = 3 ∨ m = 4 ∨ m = 5 ∨ m = 6 ∨ m = 7 := by omega
  rcases h with h | h | h | h | h | h | h | h <;> subst h <;> norm_num [pmf_zc] <;> ring

/-- The selection depends on the residuals `e 0, ..., e 7` only. -/
theorem pmf_sel_congr (e e2 : Nat → ℚ) (h : ∀ m, m ≤ 7 → e m = e2 m) :
    pmf_sel e = pmf_sel e2 := by
  unfold pmf_sel
  rw [h 0 (by decide), h 1 (by decide), h 2 (by decide), h 3 (by decide), h 4 (by decide),
    h 5 (by decide), h 6 (by decide), h 7 (by decide)]

/-- Claim C29: `img_plane_mf_pix` is equivariant under adding an affine plane: for every
patch `z0..z8` and every `a, b, c`, with `z'(i,j) = z(i,j) + a + b*i + c*j` (`i` the row,
`j` the column in `0..2`), all eight residuals are unchanged, the same model index is
selected, and `img_plane_mf_pix(z') = img_plane_mf_pix(z) + (a + b + c)`. -/
theorem img_plane_mf_pix_add_plane (z0 z1 z2 z3 z4 z5 z6 z7 z8 a b c : ℚ) :
    (∀ m, m ≤ 7 →
      pmf_e (z0 + (a + b * 0 + c * 0)) (z1 + (a + b * 0 + c * 1)) (z2 + (a + b * 0 + c * 2))
          (z3 + (a + b * 1 + c * 0)) (z4 + (a + b * 1 + c * 1)) (z5 + (a + b * 1 + c * 2))
          (z6 + (a + b * 2 + c * 0)) (z7 + (a + b * 2 + c * 1)) (z8 + (a + b * 2 + c * 2)) m
        = pmf_e z0 z1 z2 z3 z4 z5 z6 z7 z8 m) ∧
    pmf_sel (pmf_e (z0 + (a + b * 0 + c * 0)) (z1 + (a + b * 0 + c * 1))
        (z2 + (a + b * 0 + c * 2)) (z3 + (a + b * 1 + c * 0)) (z4 + (a + b * 1 + c * 1))
        (z5 + (a + b * 1 + c * 2)) (z6 + (a + b * 2 + c * 0)) (z7 + (a + b * 2 + c * 1))
        (z8 + (a + b * 2 + c * 2)))
      = pmf_sel (pmf_e z0 z1 z2 z3 z4 z5 z6 z7 z8) ∧
    img_plane_mf_pix (z0 + (a + b * 0 + c * 0)) (z1 + (a + b * 0 + c * 1))
        (z2 + (a + b * 0 + c * 2)) (z3 + (a + b * 1 + c * 0)) (z4 + (a + b * 1 + c * 1))
        (z5 + (a + b * 1 + c * 2)) (z6 + (a + b * 2 + c * 0)) (z7 + (a + b * 2 + c * 1))
        (z8 + (a + b * 2 + c * 2))
      = img_plane_mf_pix z0 z1 z2 z3 z4 z5 z6 z7 z8 + (a + b + c) := by
  have hsel := pmf_sel_congr _ _ (pmf_e_add_plane z0 z1 z2 z3 z4 z5 z6 z7 z8 a b c)
  refine ⟨pmf_e_add_plane z0 z1 z2 z3 z4 z5 z6 z7 z8 a b c, hsel, ?_⟩
  rw [img_plane_mf_pix_sel, img_plane_mf_pix_sel, hsel]
  exact pmf_zc_add_plane z0 z1 z2 z3 z4 z5 z6 z7 z8 a b c _ (pmf_sel_le _)


/-! ## Hole filling: the stored value -/

theorem accIf_eq (m : Nat) (v x : ℚ) : accIf m v x = v + (if m ≠ 0 then x else 0) := by
  unfold accIf
  split_ifs
  · rfl
  · rw [add_zero]

/-- A hole of the run with `visitCount > 5`, the earlier neighbours read from the returned
mask and the later ones from the supplied mask, is marked valid and receives `visitSum`
over `visitCount`. -/
theorem hf_filled (W H : Int) (img_out img_in : Img) (img_mask : Mask) (k : Int)
    (hW : 2 ≤ W) (h1 : W + 1 ≤ k) (h2 : k < W * (H - 1) - 1) (h0 : img_mask k = 0)
    (hc : visitCount W (img_hole_fill W H img_out img_in img_mask).2 img_mask k > 5) :
    (img_hole_fill W H img_out img_in img_mask).1 k
        = visitSum W img_in (img_hole_fill W H img_out img_in img_mask).2 img_mask k
          / (visitCount W (img_hole_fill W H img_out img_in img_mask).2 img_mask k : ℚ)
      ∧ (img_hole_fill W H img_out img_in img_mask).2 k = 1 := by
  obtain ⟨st, e1, e2, hb, ha, ho⟩ := hf_visit W H img_out img_in img_mask k h1 h2
  have hk : (((k - (W + 1)).toNat : Nat) : Int) = k - (W + 1) := by omega
  have a0 : 0 + (k - (W + 1)) = k - W - 1 := by ring
  have a1 : 0 + 1 + (k - (W + 1)) = k - W := by ring
  have a2 : 0 + 2 + (k - (W + 1)) = k - W + 1 := by ring
  have a3 : 0 + W + (k - (W + 1)) = k - 1 := by ring
  have a4 : 0 + W + 1 + (k - (W + 1)) = k := by ring
  have a5 : 0 + W + 2 + (k - (W + 1)) = k + 1 := by ring
  have a6 : 0 + 2 * W + (k - (W + 1)) = k + W - 1 := by ring
  have a7 : 0 + 2 * W + 1 + (k - (W + 1)) = k + W := by ring
  have a8 : 0 + 2 * W + 2 + (k - (W + 1)) = k + W + 1 := by ring
  have v0 := hb (k - W - 1) (by omega)
  have v1 := hb (k - W) (by omega)
  have v2 := hb (k - W + 1) (by omega)
  have v3 := hb (k - 1) (by omega)
  have v4 : st.2 k = 0 := by rw [ha _ le_rfl, h0]
  have v5 := ha (k + 1) (by omega)
  have v6 := ha (k + W - 1) (by omega)
  have v7 := ha (k + W) (by omega)
  have v8 := ha (k + W + 1) (by omega)
  obtain ⟨f2, f1⟩ := hf_step_fill W img_in (k - (W + 1)).toNat st
    (by rw [hk, a4]; exact v4)
    (by rw [hk, a0, a1, a2, a3, a5, a6, a7, a8, v0, v1, v2, v3, v5, v6, v7, v8]; exact hc)
  rw [hk, a4] at f1 f2
  rw [a0, a1, a2, a3, a5, a6, a7, a8, v0, v1, v2, v3, v5, v6, v7, v8] at f1
  rw [e1, e2, f1, f2]
  refine ⟨?_, rfl⟩
  simp only [accIf_eq]
  unfold visitSum visitCount
  rw [zero_add]

/-- Claim C30: in `img_hole_fill` with distinct input and output buffers and a 0/1 mask,
the value stored for a filled hole at flat index `k` (a hole of the supplied mask that is
valid in the returned mask) is the sum of `img_in[n]` over the 8 neighbours `n` whose mask
entry is non-zero at the moment `k` is visited, divided by the number of such neighbours.
The mask at that moment is the returned mask for the four neighbours that precede `k` in
raster order and the supplied mask for the four that follow it, so a neighbouring hole
filled earlier in the same pass counts as valid and contributes its input-frame value. -/
theorem img_hole_fill_stored_value (W H : Int) (img_out img_in : Img) (img_mask : Mask)
    (k : Int) (hW : 2 ≤ W) (h01 : ∀ x, img_mask x ≤ 1) (h0 : img_mask k = 0)
    (hf : (img_hole_fill W H img_out img_in img_mask).2 k ≠ 0) :
    (img_hole_fill W H img_out img_in img_mask).1 k
      = visitSum W img_in (img_hole_fill W H img_out img_in img_mask).2 img_mask k
        / (visitCount W (img_hole_fill W H img_out img_in img_mask).2 img_mask k : ℚ) := by
  have hrun : W + 1 ≤ k ∧ k < W * (H - 1) - 1 := by
    by_contra hn
    apply hf
    have := (hf_loop_untouched W img_in (img_copy img_out 0 img_in (IMG_SZ W H), img_mask)
      (tripCount (0 + W + 1) (0 + W * (H - 1) - 1)) k (by unfold tripCount; omega)).2
    exact this.trans h0
  have hc : visitCount W (img_hole_fill W H img_out img_in img_mask).2 img_mask k > 5 := by
    by_contra hn
    exact hf (hf_kept W H img_out img_in img_mask k hW hrun.1 hrun.2 h0 (by omega)).2
  exact (hf_filled W H img_out img_in img_mask k hW hrun.1 hrun.2 h0 hc).1


/-- Witness for C30: the 4x3 frame with holes at flat indices 3, 5, 6, 7 and input values
`in[i] = i`. Hole 5 is a neighbour of hole 6 and is filled first; hole 6 is then filled
with `(1 + 2 + 5 + 9 + 10 + 11) / 6`, where 5 is the input value of hole 5. -/
theorem img_hole_fill_stored_value_witness :
    (2 : Int) ≤ 4 ∧
    (∀ x : Int, (fun i : Int => if i = 3 ∨ i = 5 ∨ i = 6 ∨ i = 7 then 0 else 1) x ≤ 1) ∧
    (fun i : Int => if i = 3 ∨ i = 5 ∨ i = 6 ∨ i = 7 then 0 else 1) (6 : Int) = 0 ∧
    (img_hole_fill 4 3 (fun _ => 0) (fun i => i)
      (fun i : Int => if i = 3 ∨ i = 5 ∨ i = 6 ∨ i = 7 then 0 else 1)).2 6 ≠ 0 ∧
    (img_hole_fill 4 3 (fun _ => 0) (fun i => i)
      (fun i : Int => if i = 3 ∨ i = 5 ∨ i = 6 ∨ i = 7 then 0 else 1)).1 6
      = visitSum 4 (fun i => i)
          (img_hole_fill 4 3 (fun _ => 0) (fun i => i)
            (fun i : Int => if i = 3 ∨ i = 5 ∨ i = 6 ∨ i = 7 then 0 else 1)).2
          (fun i : Int => if i = 3 ∨ i = 5 ∨ i = 6 ∨ i = 7 then 0 else 1) 6
        / (visitCount 4
          (img_hole_fill 4 3 (fun _ => 0) (fun i => i)
            (fun i : Int => if i = 3 ∨ i = 5 ∨ i = 6 ∨ i = 7 then 0 else 1)).2
          (fun i : Int => if i = 3 ∨ i = 5 ∨ i = 6 ∨ i = 7 then 0 else 1) 6 : ℚ) ∧
    visitSum 4 (fun i => i)
        (img_hole_fill 4 3 (fun _ => 0) (fun i => i)
          (fun i : Int => if i = 3 ∨ i = 5 ∨ i = 6 ∨ i = 7 then 0 else 1)).2
        (fun i : Int => if i = 3 ∨ i = 5 ∨ i = 6 ∨ i = 7 then 0 else 1) 6
      = 1 + 2 + 5 + 9 + 10 + 11 ∧
    visitCount 4
        (img_hole_fill 4 3 (fun _ => 0) (fun i => i)
          (fun i : Int => if i = 3 ∨ i = 5 ∨ i = 6 ∨ i = 7 then 0 else 1)).2
        (fun i : Int => if i = 3 ∨ i = 5 ∨ i = 6 ∨ i = 7 then 0 else 1) 6 = 6 := by
  have h01 : ∀ x : Int,
      (fun i : Int => if i = 3 ∨ i = 5 ∨ i = 6 ∨ i = 7 then 0 else 1) x ≤ 1 := by
    intro x
    show (if x = 3 ∨ x = 5 ∨ x = 6 ∨ x = 7 then 0 else 1) ≤ 1
    split_ifs <;> decide
  have r1 : (img_hole_fill 4 3 (fun _ => 0) (fun i => i)
      (fun i : Int => if i = 3 ∨ i = 5 ∨ i = 6 ∨ i = 7 then 0 else 1)).2 (6 - 4 - 1) = 1 := by
    decide
  have r2 : (img_hole_fill 4 3 (fun _ => 0) (fun i => i)
      (fun i : Int => if i = 3 ∨ i = 5 ∨ i = 6 ∨ i = 7 then 0 else 1)).2 (6 - 4) = 1 := by
    decide
  have r3 : (img_hole_fill 4 3 (fun _ => 0) (fun i => i)
      (fun i : Int => if i = 3 ∨ i = 5 ∨ i = 6 ∨ i = 7 then 0 else 1)).2 (6 - 4 + 1) = 0 := by
    decide
  have r5 : (img_hole_fill 4 3 (fun _ => 0) (fun i => i)
      (fun i : Int => if i = 3 ∨ i = 5 ∨ i = 6 ∨ i = 7 then 0 else 1)).2 (6 - 1) = 1 := by
    decide
  refine ⟨by decide, h01, by decide, by decide,
    img_hole_fill_stored_value 4 3 (fun _ => 0) (fun i => i) _ 6 (by decide) h01
      (by decide) (by decide), ?_, by decide⟩
  unfold visitSum
  rw [r1, r2, r3, r5]
  norm_num


/-! ## Hole fill: a sparse hole is filled through the mask written during the pass -/

/-- Claim C18 fails in the code: on a 4x3 frame with input values `in[i] = i` and holes at
flat indices 3, 5, 6, 7, the interior hole 6 has 5 valid neighbours in the supplied mask
(1, 2, 9, 10, 11), yet the call marks it valid and overwrites its value. Hole 5 is filled
just before it and its mask entry is set during the pass, so pixel 5, invalid in the
supplied mask, counts as a sixth valid neighbour of hole 6, and the value stored at 6 is
`(1 + 2 + 5 + 9 + 10 + 11) / 6`: it averages in the input sample of the invalid pixel 5
instead of leaving `in[6] = 6` in place. -/
theorem img_hole_fill_fills_sparse_hole :
    (fun i : Int => if i = 3 ∨ i = 5 ∨ i = 6 ∨ i = 7 then 0 else 1) (1 * 4 + 2 : Int) = 0
    ∧ (fun i : Int => if i = 3 ∨ i = 5 ∨ i = 6 ∨ i = 7 then 0 else 1) (1 * 4 + 1 : Int) = 0
    ∧ visitCount 4 (fun i : Int => if i = 3 ∨ i = 5 ∨ i = 6 ∨ i = 7 then 0 else 1)
        (fun i : Int => if i = 3 ∨ i = 5 ∨ i = 6 ∨ i = 7 then 0 else 1) (1 * 4 + 2) = 5
    ∧ (img_hole_fill 4 3 (fun _ => 0) (fun i => i)
        (fun i : Int => if i = 3 ∨ i = 5 ∨ i = 6 ∨ i = 7 then 0 else 1)).2 (1 * 4 + 2) = 1
    ∧ (img_hole_fill 4 3 (fun _ => 0) (fun i => i)
        (fun i : Int => if i = 3 ∨ i = 5 ∨ i = 6 ∨ i = 7 then 0 else 1)).1 (1 * 4 + 2)
        = (1 + 2 + 5 + 9 + 10 + 11) / 6
    ∧ (img_hole_fill 4 3 (fun _ => 0) (fun i => i)
        (fun i : Int => if i = 3 ∨ i = 5 ∨ i = 6 ∨ i = 7 then 0 else 1)).1 (1 * 4 + 2)
        ≠ (fun i : Int => (i : ℚ)) (1 * 4 + 2) := by
  have r1 : (img_hole_fill 4 3 (fun _ => 0) (fun i => i)
      (fun i : Int => if i = 3 ∨ i = 5 ∨ i = 6 ∨ i = 7 then 0 else 1)).2 (6 - 4 - 1) = 1 := by
    decide
  have r2 : (img_hole_fill 4 3 (fun _ => 0) (fun i => i)
      (fun i : Int => if i = 3 ∨ i = 5 ∨ i = 6 ∨ i = 7 then 0 else 1)).2 (6 - 4) = 1 := by
    decide
  have r3 : (img_hole_fill 4 3 (fun _ => 0) (fun i => i)
      (fun i : Int => if i = 3 ∨ i = 5 ∨ i = 6 ∨ i = 7 then 0 else 1)).2 (6 - 4 + 1) = 0 := by
    decide
  have r5 : (img_hole_fill 4 3 (fun _ => 0) (fun i => i)
      (fun i : Int => if i = 3 ∨ i = 5 ∨ i = 6 ∨ i = 7 then 0 else 1)).2 (6 - 1) = 1 := by
    decide
  have hc : visitCount 4
      (img_hole_fill 4 3 (fun _ => 0) (fun i => i)
        (fun i : Int => if i = 3 ∨ i = 5 ∨ i = 6 ∨ i = 7 then 0 else 1)).2
      (fun i : Int => if i = 3 ∨ i = 5 ∨ i = 6 ∨ i = 7 then 0 else 1) 6 = 6 := by decide
  have hv : (img_hole_fill 4 3 (fun _ => 0) (fun i => i)
      (fun i : Int => if i = 3 ∨ i = 5 ∨ i = 6 ∨ i = 7 then 0 else 1)).1 (1 * 4 + 2)
      = (1 + 2 + 5 + 9 + 10 + 11) / 6 := by
    have e : (1 * 4 + 2 : Int) = 6 := by decide
    rw [e, (hf_filled 4 3 (fun _ => 0) (fun i => i)
      (fun i : Int => if i = 3 ∨ i = 5 ∨ i = 6 ∨ i = 7 then 0 else 1) 6 (by decide)
      (by decide) (by decide) (by decide) (by rw [hc]; decide)).1, hc]
    unfold visitSum
    rw [r1, r2, r3, r5]
    norm_num
  refine ⟨by decide, by decide, by decide, by decide, hv, ?_⟩
  rw [hv]
  norm_num


/-! ## Weighted running average: a zero-weight pixel holds its average -/

/-- Claim C31: for `img_weighted_iir` in exact arithmetic, at a pixel whose denominator
state `d` is non-zero before the call, with `alpha` non-zero and weight 0 at that pixel,
the call runs to a result and outputs `n/d`, the ratio of the numerator and denominator
states before the call, whatever the input value: a zero-weight pixel holds its previous
weighted average rather than producing 0. -/
theorem img_weighted_iir_zero_weight_holds (W H : Int)
    (img_out img_in img_in_w_avg img_w img_w_avg : Img) (alpha : ℚ) (p : Int)
    (h0 : 0 ≤ p) (h1 : p < W * H) (hd : img_w_avg p ≠ 0) (ha : alpha ≠ 0)
    (hw : img_w p = 0) :
    ∃ r : WeightedIir,
      img_weighted_iir W H img_out img_in img_in_w_avg img_w img_w_avg alpha = some r ∧
      r.img_out p = img_in_w_avg p / img_w_avg p := by
  obtain ⟨r, hr, ho, _, _⟩ :=
    img_weighted_iir_at W H img_out img_in img_in_w_avg img_w img_w_avg alpha p h0 h1
  refine ⟨r, hr, ?_⟩
  have hden : wDenom img_w_avg img_w alpha p = img_w_avg p * alpha := by
    unfold wDenom
    rw [hw]
    ring
  have hnum : wNumer img_in_w_avg img_w img_in alpha p = img_in_w_avg p * alpha := by
    unfold wNumer
    rw [hw]
    ring
  rw [ho]
  unfold wOut
  rw [hden, hnum, if_neg (mul_ne_zero hd ha), mul_div_mul_right _ _ ha]

/-- Witness for C31: a 1x1 frame with numerator 3, denominator 2, `alpha = 1/2`, weight 0
and input 7. -/
theorem img_weighted_iir_zero_weight_holds_witness :
    (0 : Int) ≤ 0 ∧ (0 : Int) < 1 * 1 ∧ (fun _ : Int => (2 : ℚ)) 0 ≠ 0 ∧ (1 / 2 : ℚ) ≠ 0 ∧
    (fun _ : Int => (0 : ℚ)) 0 = 0 ∧
    ∃ r : WeightedIir,
      img_weighted_iir 1 1 (fun _ => 0) (fun _ => 7) (fun _ => 3) (fun _ => 0) (fun _ => 2)
        (1 / 2) = some r ∧
      r.img_out 0 = (fun _ : Int => (3 : ℚ)) 0 / (fun _ : Int => (2 : ℚ)) 0 :=
  ⟨by decide, by decide, by norm_num, by norm_num, rfl,
    img_weighted_iir_zero_weight_holds 1 1 (fun _ => 0) (fun _ => 7) (fun _ => 3) (fun _ => 0)
      (fun _ => 2) (1 / 2) 0 (by decide) (by decide) (by norm_num) (by norm_num) rfl⟩


end ImgFilter
